import Mathlib

/-!
# The ClamAV bytecode interpreter (`libclamav/bytecode_vm.c`)

A shallow embedding of `cli_vm_execute` and of the spill stack it uses.

Modelling conventions.

* A value cell (`struct cli_bc_value`, one `uint64_t v`) is a natural number below `2 ^ 64`.
  The narrow stores `*(uint8_t*)&values[p].v = x` are read on a little-endian machine: they
  replace the low 8/16/32 bits of the cell and keep the rest.
* Arrays with a separate length field (`BB`/`numBB`, `insts`/`numInsts`,
  `constants`/`numConstants`, `funcs`/`num_func`, `ops`/`numOps`) are lists; the length field
  is the length of the list.
* A pointer into an instruction array is the list of instructions from the cursor on.
* The checks `CHECK_GT`, `CHECK_EQ`, `CHECK_FUNCID` exist only when `CL_DEBUG` is defined;
  the build is a parameter (`Config.CL_DEBUG`).
* Behaviour that C leaves undefined and on which machines differ (an access outside an
  array, a dereferenced null pointer, a shift by the width of the promoted type or more,
  a signed division overflow) is the outcome `undefined`. Arithmetic on the fixed-width
  types wraps modulo `2 ^ N` (two's complement), also where it passes through `int`.
* `sizeof(struct stack_entry)` is 48 and `sizeof(struct cli_bc_value)` is 8 (LP64);
  `cli_malloc` is taken to succeed.
-/

namespace BytecodeVM

/-! ## Status codes, opcodes, instructions -/

/-- The status codes `cli_vm_execute` handles. -/
inductive Status
  | CL_SUCCESS
  | CL_BREAK
  | CL_EARG
  | CL_EBYTECODE
  deriving DecidableEq, Repr

/-- The operand-width tag `interp_op % 5`. -/
inductive Width
  | i1
  | i8
  | i16
  | i32
  | i64
  deriving DecidableEq, Repr

/-- The base opcode `interp_op / 5`. `OP_UNIMPLEMENTED` stands for every opcode
the dispatcher has no case for. -/
inductive Opcode
  | OP_ADD | OP_SUB | OP_MUL
  | OP_UDIV | OP_SDIV | OP_UREM | OP_SREM
  | OP_SHL | OP_LSHR | OP_ASHR
  | OP_AND | OP_OR | OP_XOR
  | OP_SEXT | OP_ZEXT | OP_TRUNC
  | OP_BRANCH | OP_JMP | OP_RET
  | OP_ICMP_EQ | OP_ICMP_NE | OP_ICMP_UGT | OP_ICMP_UGE | OP_ICMP_ULT | OP_ICMP_ULE
  | OP_ICMP_SGT | OP_ICMP_SGE | OP_ICMP_SLE | OP_ICMP_SLT
  | OP_SELECT | OP_CALL_DIRECT | OP_COPY
  | OP_UNIMPLEMENTED
  deriving DecidableEq, Repr

/-- The union `inst->u`. Reading a member other than the stored one is `undefined`. -/
inductive Operands
  | unaryop (p : Nat)
  | cast (source mask size : Nat)
  | binop (p0 p1 : Nat)
  | three (p0 p1 p2 : Nat)
  | ops (funcid : Nat) (ops : List Nat)
  | branch (condition br_true br_false : Nat)
  | jump (bbid : Nat)
  deriving DecidableEq, Repr

/-- The record `struct cli_bc_inst`; `interp_op` is the pair `(opcode, width)`. -/
structure Inst where
  opcode : Opcode
  width : Width
  type : Nat
  dest : Nat
  u : Operands
  deriving DecidableEq, Repr

/-- The record `struct cli_bc_bb`. -/
structure BB where
  insts : List Inst
  deriving DecidableEq, Repr

/-- The field `numInsts` of a basic block. -/
def BB.numInsts (bb : BB) : Nat := bb.insts.length

/-- The record `struct cli_bc_func`. -/
structure Func where
  numArgs : Nat
  numValues : Nat
  constants : List Nat
  BB : List BB
  deriving DecidableEq, Repr

/-- The field `numConstants` of a function. -/
def Func.numConstants (f : Func) : Nat := f.constants.length

/-- The field `numBB` of a function. -/
def Func.numBB (f : Func) : Nat := f.BB.length

/-- The record `struct cli_bc`, as far as the interpreter reads it. -/
structure Module where
  funcs : List Func
  deriving DecidableEq, Repr

/-- The field `num_func` of a module. -/
def Module.num_func (bc : Module) : Nat := bc.funcs.length

/-- Build configuration. -/
structure Config where
  CL_DEBUG : Bool
  deriving DecidableEq, Repr

/-! ## The spill stack -/

/-- The constant `STACK_CHUNKSIZE`. -/
def STACK_CHUNKSIZE : Nat := 16384

/-- The value of `sizeof(align_t)`, with `align_t = uint64_t`. -/
def sizeof_align_t : Nat := 8

/-- The value of `sizeof(struct stack_entry)` on LP64. -/
def sizeof_stack_entry : Nat := 48

/-- The value of `sizeof(struct cli_bc_value)`. -/
def sizeof_value : Nat := 8

/-- A `struct stack_chunk` without its `prev` link: the bump cursor and the 16-bit
words stored in `u.data`, as (byte offset, value) pairs, latest store first. -/
structure StackChunk where
  used : Nat
  data : List (Nat × Nat)
  deriving DecidableEq, Repr

/-- The record `struct stack`: the chunk list (linked through `prev`, newest first)
and `last_size`. -/
structure Stack where
  chunk : List StackChunk
  last_size : Nat
  deriving DecidableEq, Repr

/-- An address inside the spill stack: the chunk (counted from the oldest, 0) and
the byte offset in its `u.data`. -/
structure Ptr where
  chunk : Nat
  off : Nat
  deriving DecidableEq, Repr

/-- Store a 16-bit word at a byte offset of a chunk. -/
def store16 (data : List (Nat × Nat)) (off v : Nat) : List (Nat × Nat) :=
  (off, v % 2 ^ 16) :: data.filter (fun e => e.1 != off)

/-- Load the 16-bit word at a byte offset of a chunk (0 where nothing was stored). -/
def load16 (data : List (Nat × Nat)) (off : Nat) : Nat :=
  match data.find? (fun e => e.1 == off) with
  | some e => e.2
  | none => 0

/-- What `cli_stack_alloc` does. -/
inductive AllocResult
  | ok (p : Ptr) (stack : Stack)
  | null (stack : Stack)
  | undefined
  deriving DecidableEq, Repr

/-- The function `cli_stack_alloc`. -/
def cli_stack_alloc (stack : Stack) (bytes : Nat) : AllocResult :=
  let bytes := ((bytes % 2 ^ 32 + 2 + sizeof_align_t) / sizeof_align_t * sizeof_align_t) % 2 ^ 32
  let last_size_off := (bytes + 2 ^ 16 - 2) % 2 ^ 16
  let fresh : AllocResult :=
    if STACK_CHUNKSIZE ≤ bytes then .null stack
    else if last_size_off + 2 ≤ STACK_CHUNKSIZE then
      .ok ⟨stack.chunk.length, 0⟩
        { chunk := { used := bytes, data := store16 [] last_size_off stack.last_size }
                    :: stack.chunk,
          last_size := (bytes / sizeof_align_t) % 2 ^ 16 }
    else .undefined
  match stack.chunk with
  | [] => fresh
  | chunk :: prev =>
    if (chunk.used + bytes) % 2 ^ 32 ≤ STACK_CHUNKSIZE then
      if chunk.used + last_size_off + 2 ≤ STACK_CHUNKSIZE then
        .ok ⟨prev.length, chunk.used⟩
          { chunk := { used := (chunk.used + bytes) % 2 ^ 32,
                       data := store16 chunk.data (chunk.used + last_size_off)
                                 stack.last_size } :: prev,
            last_size := (bytes / sizeof_align_t) % 2 ^ 16 }
      else .undefined
    else fresh

/-- The function `cli_stack_free`; `none` is undefined behaviour. -/
def cli_stack_free (stack : Stack) (data : Ptr) : Option Stack :=
  match stack.chunk with
  | [] => some stack
  | chunk :: prev =>
    if ¬ (data.chunk = prev.length ∧ chunk.used = data.off + stack.last_size * sizeof_align_t) then
      some stack
    else if chunk.used < 2 then none
    else
      let last_size := load16 chunk.data (chunk.used - 2)
      if chunk.used < stack.last_size * sizeof_align_t then some stack
      else
        let used := chunk.used - stack.last_size * sizeof_align_t
        if used = 0 then some { chunk := prev, last_size := last_size }
        else some { chunk := { chunk with used := used } :: prev, last_size := last_size }

/-- The function `cli_stack_destroy`. -/
def cli_stack_destroy (stack : Stack) : Stack :=
  { stack with chunk := [] }

/-! ## Activation frames -/

/-- The record `struct stack_entry`, without its `prev` link; `ret` is the index of the
return slot in the region of the caller, `values` the value region allocated right
after the entry, `data` the address of the entry in the spill stack. -/
structure StackEntry where
  func : Func
  ret : Nat
  bb : Option BB
  bb_inst : Nat
  values : List Nat
  data : Ptr
  deriving DecidableEq, Repr

/-- The function `allocate_stack`: `none` is undefined behaviour (also when the block
obtained is too small for the entry and its region, the size having wrapped), `some none`
the null result, `some (some (entry, stack))` a fresh frame. -/
def allocate_stack (stack : Stack) (func func_old : Func) (ret : Nat) (bb : Option BB)
    (bb_inst : Nat) : Option (Option (StackEntry × Stack)) :=
  let numValues := func.numValues + func.numConstants
  match cli_stack_alloc stack (sizeof_stack_entry + sizeof_value * numValues) with
  | .undefined => none
  | .null _ => some none
  | .ok p stack1 =>
    if sizeof_stack_entry + sizeof_value * numValues + 2 ≤ stack1.last_size * sizeof_align_t then
      some (some ({ func := func_old, ret := ret, bb := bb, bb_inst := bb_inst,
                    values := List.replicate func.numValues 0 ++ func.constants,
                    data := p }, stack1))
    else none

/-! ## Width-qualified cell access -/

/-- The store of `WRITE8` into one cell. -/
def WRITE8 (cell x : Nat) : Nat := cell / 2 ^ 8 * 2 ^ 8 + x % 2 ^ 8

/-- The store of `WRITE16` into one cell. -/
def WRITE16 (cell x : Nat) : Nat := cell / 2 ^ 16 * 2 ^ 16 + x % 2 ^ 16

/-- The store of `WRITE32` into one cell. -/
def WRITE32 (cell x : Nat) : Nat := cell / 2 ^ 32 * 2 ^ 32 + x % 2 ^ 32

/-- The store of `WRITE64` into one cell: the macro stores through a `uint32_t*`. -/
def WRITE64 (cell x : Nat) : Nat := cell / 2 ^ 32 * 2 ^ 32 + x % 2 ^ 32

/-- The load of `READ1` from one cell. -/
def READ1 (cell : Nat) : Nat := cell % 2 ^ 8 % 2

/-- The load of `READ8` from one cell. -/
def READ8 (cell : Nat) : Nat := cell % 2 ^ 8

/-- The load of `READ16` from one cell. -/
def READ16 (cell : Nat) : Nat := cell % 2 ^ 16

/-- The load of `READ32` from one cell. -/
def READ32 (cell : Nat) : Nat := cell % 2 ^ 32

/-- The load of `READ64` from one cell. -/
def READ64 (cell : Nat) : Nat := cell % 2 ^ 64

/-- The macro `READ1`..`READ64` named by a width tag. -/
def READ : Width → Nat → Nat
  | .i1 => READ1
  | .i8 => READ8
  | .i16 => READ16
  | .i32 => READ32
  | .i64 => READ64

/-- The read macro of the five cases of `DEFINE_BINOP_HELPER` (and of `OP_COPY`):
the 64-bit case uses `READ32`. -/
def binopRead : Width → Nat → Nat
  | .i1 => READ1
  | .i8 => READ8
  | .i16 => READ16
  | .i32 => READ32
  | .i64 => READ32

/-- Bit size of the C type of `op0`, `op1`, `res` in the five cases. -/
def cBits : Width → Nat
  | .i1 => 8
  | .i8 => 8
  | .i16 => 16
  | .i32 => 32
  | .i64 => 64

/-- The write macros `W0`..`W4` of `DEFINE_BINOP` and of `DEFINE_CASTOP`, `OP_SELECT`. -/
def binopWrite : Width → Nat → Nat → Nat
  | .i1 => WRITE8
  | .i8 => WRITE8
  | .i16 => WRITE16
  | .i32 => WRITE32
  | .i64 => WRITE64

/-- The write macros of the five cases of `OP_COPY`. -/
def copyWrite : Width → Nat → Nat → Nat
  | .i1 => WRITE8
  | .i8 => WRITE8
  | .i16 => WRITE16
  | .i32 => WRITE32
  | .i64 => WRITE32

/-- Value of an unsigned `bits`-bit pattern converted to the signed type of that size. -/
def toSigned (bits : Nat) (x : Nat) : Int :=
  if x < 2 ^ (bits - 1) then (x : Int) else (x : Int) - 2 ^ bits

/-- Conversion of an integer to the unsigned type of `bits` bits. -/
def toUnsigned (bits : Nat) (z : Int) : Nat := (z % 2 ^ bits).toNat

/-- Bit size of the type C computes in after integer promotion. -/
def promotedBits (bits : Nat) : Nat := if bits ≤ 32 then 32 else 64

/-- Modelled from the spec: the macro `CLI_SRS` of `others.h`, the arithmetic
(sign-preserving) right shift. -/
def CLI_SRS (n : Int) (s : Nat) : Int := n / 2 ^ s

/-- The function `check_sdivops`. -/
def check_sdivops (op0 op1 : Int) : Bool :=
  op1 == 0 || (op0 == -1 && op1 == (-9223372036854775807 - 1))

/-- Result of a checked computation: a value, an early `return` of `cli_vm_execute`
with a status, or undefined behaviour. -/
inductive Chk (α : Type)
  | ok (a : α)
  | fail (status : Status)
  | undefined
  deriving DecidableEq, Repr

/-- Sequencing of checked computations. -/
def Chk.bind {α β : Type} (x : Chk α) (f : α → Chk β) : Chk β :=
  match x with
  | .ok a => f a
  | .fail st => .fail st
  | .undefined => .undefined

/-- The status `bcfail` returns. -/
def bcfail : Status := .CL_EARG

/-- The macro `CHECK_GT(a, b)`. -/
def CHECK_GT (cfg : Config) (a b : Nat) : Chk Unit :=
  if cfg.CL_DEBUG && decide (a ≤ b) then .fail bcfail else .ok ()

/-- The macros `READ*`: `CHECK_GT(func->numValues+func->numConstants, p)`, then the load
`rd` from `values[p]`. -/
def readValue (cfg : Config) (func : Func) (values : List Nat) (rd : Nat → Nat) (p : Nat) :
    Chk Nat :=
  (CHECK_GT cfg (func.numValues + func.numConstants) p).bind fun _ =>
    match values[p]? with
    | some cell => .ok (rd cell)
    | none => .undefined

/-- The macros `WRITE*`: `CHECK_GT(func->numValues+func->numConstants, p)`, then the store
`wr` into `values[p]`. -/
def writeValue (cfg : Config) (func : Func) (values : List Nat) (wr : Nat → Nat → Nat)
    (p x : Nat) : Chk (List Nat) :=
  (CHECK_GT cfg (func.numValues + func.numConstants) p).bind fun _ =>
    match values[p]? with
    | some cell => .ok (values.set p (wr cell x))
    | none => .undefined

/-- The expression `OP` of a `DEFINE_BINOP` or `DEFINE_ICMPOP` case: `res` from
`op0`, `op1` (already read), at the C type of `bits` bits. -/
def binopOP (opcode : Opcode) (bits type op0 op1 : Nat) : Chk Nat :=
  let sop0 := toSigned bits op0
  let sop1 := toSigned bits op1
  match opcode with
  | .OP_ADD => .ok ((op0 + op1) % 2 ^ bits)
  | .OP_SUB => .ok (toUnsigned bits ((op0 : Int) - (op1 : Int)))
  | .OP_MUL => .ok ((op0 * op1) % 2 ^ bits)
  | .OP_UDIV => if op1 = 0 then .fail .CL_EBYTECODE else .ok ((op0 / op1) % 2 ^ bits)
  | .OP_SDIV =>
    if check_sdivops sop0 sop1 then .fail .CL_EBYTECODE
    else if sop0 = -(2 ^ (promotedBits bits - 1)) ∧ sop1 = -1 then .undefined
    else .ok (toUnsigned bits (Int.tdiv sop0 sop1))
  | .OP_UREM => if op1 = 0 then .fail .CL_EBYTECODE else .ok ((op0 % op1) % 2 ^ bits)
  | .OP_SREM =>
    if check_sdivops sop0 sop1 then .fail .CL_EBYTECODE
    else if sop0 = -(2 ^ (promotedBits bits - 1)) ∧ sop1 = -1 then .undefined
    else .ok (toUnsigned bits (Int.tmod sop0 sop1))
  | .OP_SHL =>
    if type < op1 then .fail .CL_EBYTECODE
    else if promotedBits bits ≤ op1 then .undefined
    else .ok ((op0 * 2 ^ op1) % 2 ^ bits)
  | .OP_LSHR =>
    if type < op1 then .fail .CL_EBYTECODE
    else if promotedBits bits ≤ op1 then .undefined
    else .ok ((op0 / 2 ^ op1) % 2 ^ bits)
  | .OP_ASHR =>
    if type < op1 then .fail .CL_EBYTECODE
    else if promotedBits bits ≤ op1 then .undefined
    else .ok (toUnsigned bits (CLI_SRS sop0 op1))
  | .OP_AND => .ok ((op0 &&& op1) % 2 ^ bits)
  | .OP_OR => .ok ((op0 ||| op1) % 2 ^ bits)
  | .OP_XOR => .ok ((op0 ^^^ op1) % 2 ^ bits)
  | .OP_ICMP_EQ => .ok (if op0 = op1 then 1 else 0)
  | .OP_ICMP_NE => .ok (if op0 ≠ op1 then 1 else 0)
  | .OP_ICMP_UGT => .ok (if op0 > op1 then 1 else 0)
  | .OP_ICMP_UGE => .ok (if op0 ≥ op1 then 1 else 0)
  | .OP_ICMP_ULT => .ok (if op0 < op1 then 1 else 0)
  | .OP_ICMP_ULE => .ok (if op0 ≤ op1 then 1 else 0)
  | .OP_ICMP_SGT => .ok (if sop0 > sop1 then 1 else 0)
  | .OP_ICMP_SGE => .ok (if sop0 ≥ sop1 then 1 else 0)
  | .OP_ICMP_SLE => .ok (if sop0 ≤ sop1 then 1 else 0)
  | .OP_ICMP_SLT => .ok (if sop0 < sop1 then 1 else 0)
  | _ => .undefined

/-- The macro `SIGNEXT(a, from)`, on an `a` already converted to `int64_t`. -/
def SIGNEXT (a : Int) (src : Nat) : Chk Int :=
  if src = 0 ∨ 64 < src then .undefined
  else .ok (CLI_SRS (toSigned 64 (toUnsigned 64 (a * 2 ^ (64 - src)))) (64 - src))

/-- The macro `CHOOSE` around the reads of a cast: the read macro is picked by
`inst->u.cast.size`; the default case is `CHECK_UNREACHABLE`. -/
def CHOOSE (size : Nat) : Chk (Nat → Nat) :=
  match size with
  | 0 => .ok READ1
  | 1 => .ok READ8
  | 2 => .ok READ16
  | 3 => .ok READ32
  | 4 => .ok READ64
  | _ => .fail .CL_EBYTECODE

/-- The conversion in the expression `OP` of a `DEFINE_CASTOP` case: `res`, at the C type
of `bits` bits, from the value `r` the chosen read macro delivered. -/
def castRes (opcode : Opcode) (bits mask size r : Nat) : Chk Nat :=
  match opcode with
  | .OP_SEXT =>
    if size = 0 then .ok (if r ≠ 0 then (2 ^ 64 - 1) % 2 ^ bits else 0)
    else (SIGNEXT (toSigned bits (r % 2 ^ bits)) mask).bind fun z => .ok (toUnsigned bits z)
  | .OP_ZEXT => .ok (r % 2 ^ bits)
  | .OP_TRUNC => .ok (r % 2 ^ bits)
  | _ => .undefined

/-- The expression `OP` of a `DEFINE_CASTOP` case: `res` at the C type of `bits` bits. -/
def castOP (cfg : Config) (func : Func) (values : List Nat) (opcode : Opcode) (bits : Nat)
    (source mask size : Nat) : Chk Nat :=
  (CHOOSE size).bind fun rd =>
  (readValue cfg func values rd source).bind fun r =>
    castRes opcode bits mask size r

/-! ## The interpreter state and one iteration of the dispatch loop -/

/-- The local variables of `cli_vm_execute` and the memory they point to. The variable
`values` is not stored: it always equals
`stack_entry ? stack_entry->values : ctx->values` (see `State.values`). -/
structure State where
  func : Func
  inst : List Inst
  bb : Option BB
  bb_inst : Nat
  stack_depth : Nat
  stack : Stack
  stack_entry : List StackEntry
  ctx_values : List Nat
  deriving DecidableEq, Repr

/-- The current value region `values`. -/
def State.values (s : State) : List Nat :=
  match s.stack_entry with
  | [] => s.ctx_values
  | e :: _ => e.values

/-- Replace the content of the current value region. -/
def State.setValues (s : State) (vs : List Nat) : State :=
  match s.stack_entry with
  | [] => { s with ctx_values := vs }
  | e :: prev => { s with stack_entry := { e with values := vs } :: prev }

/-- What one iteration of the loop does: go on with the next iteration, return from
`cli_vm_execute` with a status, or undefined behaviour. -/
inductive Outcome
  | next (s : State)
  | ret (status : Status) (s : State)
  | undefined
  deriving DecidableEq, Repr

/-- Leaving the loop with `stop != CL_SUCCESS`: the spill stack is destroyed and
`CL_BREAK` is mapped to `CL_SUCCESS`. -/
def loopExit (stop : Status) (s : State) : Outcome :=
  .ret (if stop = .CL_BREAK then .CL_SUCCESS else stop)
    { s with stack := cli_stack_destroy s.stack }

/-- The end of an iteration after `continue`: the loop condition `stop == CL_SUCCESS`. -/
def loopContinue (stop : Status) (s : State) : Outcome :=
  if stop = .CL_SUCCESS then .next s else loopExit stop s

/-- The code after the switch: `bb_inst++; inst++; CHECK_GT(bb->numInsts, bb_inst)`. -/
def advance (cfg : Config) (s : State) : Outcome :=
  let s1 := { s with bb_inst := s.bb_inst + 1, inst := s.inst.tail }
  if cfg.CL_DEBUG then
    match s.bb with
    | none => .undefined
    | some bb => if bb.numInsts ≤ s1.bb_inst then .ret bcfail s1 else .next s1
  else .next s1

/-- The function `jump`: `none` is undefined behaviour, otherwise the returned status
and the state with `bb`, `inst`, `bb_inst` updated. -/
def jump (cfg : Config) (func : Func) (bbid : Nat) (s : State) : Option (Status × State) :=
  if cfg.CL_DEBUG && decide (func.numBB ≤ bbid) then some (bcfail, s)
  else
    match func.BB[bbid]? with
    | none => none
    | some bb => some (.CL_SUCCESS, { s with bb := some bb, inst := bb.insts, bb_inst := 0 })

/-- The argument loop of `OP_CALL_DIRECT`, `values[i] = old_values[ops[i]]` for
`i < numArgs`; `none` is an access outside an array. -/
def copyArgs (ops old_values values : List Nat) : Nat → Option (List Nat)
  | 0 => some values
  | i + 1 =>
    match copyArgs ops old_values values i with
    | none => none
    | some vals =>
      match ops[i]? with
      | none => none
      | some p =>
        match old_values[p]? with
        | none => none
        | some v => if i < vals.length then some (vals.set i v) else none

/-- Turn the result of the body of a value-producing case into the outcome of the
iteration: store done, then the code after the switch. -/
def finishWrite (cfg : Config) (s : State) (r : Chk (List Nat)) : Outcome :=
  match r with
  | .ok vs => advance cfg (s.setValues vs)
  | .fail st => .ret st s
  | .undefined => .undefined

/-- The cases `DEFINE_BINOP(opc, OP)` (write macros `binopWrite`) and
`DEFINE_ICMPOP(opc, OP)` (write macro `WRITE8` at every width). -/
def execBinop (cfg : Config) (s : State) (inst : Inst) (wr : Nat → Nat → Nat) : Outcome :=
  match inst.u with
  | .binop p0 p1 =>
    finishWrite cfg s <|
      (readValue cfg s.func s.values (binopRead inst.width) p0).bind fun op0 =>
      (readValue cfg s.func s.values (binopRead inst.width) p1).bind fun op1 =>
      (binopOP inst.opcode (cBits inst.width) inst.type op0 op1).bind fun res =>
      writeValue cfg s.func s.values wr inst.dest res
  | _ => .undefined

/-- The cases `DEFINE_CASTOP(opc, OP)`. -/
def execCast (cfg : Config) (s : State) (inst : Inst) : Outcome :=
  match inst.u with
  | .cast source mask size =>
    finishWrite cfg s <|
      (castOP cfg s.func s.values inst.opcode (cBits inst.width) source mask size).bind
        fun res => writeValue cfg s.func s.values (binopWrite inst.width) inst.dest res
  | _ => .undefined

/-- The five cases of `OP_SELECT`. -/
def execSelect (cfg : Config) (s : State) (inst : Inst) : Outcome :=
  match inst.u with
  | .three p0 p1 p2 =>
    finishWrite cfg s <|
      (readValue cfg s.func s.values READ1 p0).bind fun t0 =>
      (readValue cfg s.func s.values (READ inst.width) p1).bind fun t1 =>
      (readValue cfg s.func s.values (READ inst.width) p2).bind fun t2 =>
      writeValue cfg s.func s.values (binopWrite inst.width) inst.dest
        (if t0 ≠ 0 then t1 else t2)
  | _ => .undefined

/-- The five cases of `OP_COPY`. -/
def execCopy (cfg : Config) (s : State) (inst : Inst) : Outcome :=
  match inst.u with
  | .binop p0 p1 =>
    finishWrite cfg s <|
      (readValue cfg s.func s.values (binopRead inst.width) p0).bind fun op =>
      writeValue cfg s.func s.values (copyWrite inst.width) p1 op
  | _ => .undefined

/-- The case `OP_BRANCH`. -/
def execBranch (cfg : Config) (s : State) (inst : Inst) : Outcome :=
  match inst.u with
  | .branch condition br_true br_false =>
    match s.values[condition]? with
    | none => .undefined
    | some c =>
      match jump cfg s.func (if c % 2 = 1 then br_true else br_false) s with
      | none => .undefined
      | some (stop, s1) => loopContinue stop s1
  | _ => .undefined

/-- The case `OP_JMP`. -/
def execJmp (cfg : Config) (s : State) (inst : Inst) : Outcome :=
  match inst.u with
  | .jump bbid =>
    match jump cfg s.func bbid s with
    | none => .undefined
    | some (stop, s1) => loopContinue stop s1
  | _ => .undefined

/-- The case `OP_RET`, with `pop_stack` inlined. -/
def execRet (cfg : Config) (s : State) (inst : Inst) : Outcome :=
  if cfg.CL_DEBUG && decide (s.stack_depth ≤ 0) then .ret bcfail s
  else
    match inst.u with
    | .unaryop p =>
      match s.values[p]? with
      | none => .undefined
      | some tmp =>
        match s.stack_entry with
        | [] => .undefined
        | e :: prev =>
          match cli_stack_free s.stack e.data with
          | none => .undefined
          | some stack1 =>
            let s1 : State :=
              { s with func := e.func, bb := e.bb, bb_inst := e.bb_inst,
                       stack := stack1, stack_entry := prev }
            if cfg.CL_DEBUG && decide (s1.func.numValues + s1.func.numConstants ≤ e.ret) then
              .ret bcfail s1
            else
              match s1.values[e.ret]? with
              | none => .undefined
              | some _ =>
                let s2 := s1.setValues (s1.values.set e.ret tmp)
                match e.bb with
                | none => loopExit .CL_BREAK s2
                | some bb => advance cfg { s2 with inst := bb.insts.drop e.bb_inst }
    | _ => .undefined

/-- The case `OP_CALL_DIRECT`. -/
def execCallDirect (cfg : Config) (bc : Module) (s : State) (inst : Inst) : Outcome :=
  match inst.u with
  | .ops funcid ops =>
    if cfg.CL_DEBUG && decide (bc.num_func ≤ funcid) then .ret bcfail s
    else
      match bc.funcs[funcid]? with
      | none => .undefined
      | some func2 =>
        if cfg.CL_DEBUG && decide (func2.numArgs ≠ ops.length) then .ret bcfail s
        else
          match allocate_stack s.stack func2 s.func inst.dest s.bb s.bb_inst with
          | none => .undefined
          | some none => .undefined
          | some (some (entry, stack1)) =>
            match copyArgs ops s.values entry.values func2.numArgs with
            | none => .undefined
            | some vals =>
              let s1 : State :=
                { s with func := func2, stack := stack1,
                         stack_entry := { entry with values := vals } :: s.stack_entry }
              if cfg.CL_DEBUG && decide (func2.numBB ≤ 0) then .ret bcfail s1
              else
                match jump cfg func2 0 s1 with
                | none => .undefined
                | some (stop, s2) =>
                  loopContinue stop { s2 with stack_depth := s2.stack_depth + 1 }
  | _ => .undefined

/-- One iteration of the `do ... while (stop == CL_SUCCESS)` loop of `cli_vm_execute`. -/
def step (cfg : Config) (bc : Module) (s : State) : Outcome :=
  match s.inst with
  | [] => .undefined
  | inst :: _ =>
    if cfg.CL_DEBUG && decide (s.func.numValues + s.func.numConstants ≤ inst.dest) then
      .ret bcfail s
    else
      match inst.opcode with
      | .OP_ADD | .OP_SUB | .OP_MUL | .OP_UDIV | .OP_SDIV | .OP_UREM | .OP_SREM
      | .OP_SHL | .OP_LSHR | .OP_ASHR | .OP_AND | .OP_OR | .OP_XOR =>
        execBinop cfg s inst (binopWrite inst.width)
      | .OP_ICMP_EQ | .OP_ICMP_NE | .OP_ICMP_UGT | .OP_ICMP_UGE | .OP_ICMP_ULT
      | .OP_ICMP_ULE | .OP_ICMP_SGT | .OP_ICMP_SGE | .OP_ICMP_SLE | .OP_ICMP_SLT =>
        execBinop cfg s inst WRITE8
      | .OP_SEXT | .OP_ZEXT | .OP_TRUNC => execCast cfg s inst
      | .OP_BRANCH => execBranch cfg s inst
      | .OP_JMP => execJmp cfg s inst
      | .OP_RET => execRet cfg s inst
      | .OP_SELECT => execSelect cfg s inst
      | .OP_CALL_DIRECT => execCallDirect cfg bc s inst
      | .OP_COPY => execCopy cfg s inst
      | .OP_UNIMPLEMENTED => loopExit .CL_EARG s

/-- The loop of `cli_vm_execute`, at most `fuel` iterations: the result is `next s`
when the loop is still running after them. -/
def exec (cfg : Config) (bc : Module) : Nat → State → Outcome
  | 0, s => .next s
  | fuel + 1, s =>
    match step cfg bc s with
    | .next s1 => exec cfg bc fuel s1
    | o => o

/-- The state on entry of `cli_vm_execute(bc, ctx, func, inst)`. -/
def initState (ctx_values : List Nat) (func : Func) (inst : List Inst) : State :=
  { func := func, inst := inst, bb := none, bb_inst := 0, stack_depth := 0,
    stack := { chunk := [], last_size := 0 }, stack_entry := [], ctx_values := ctx_values }

/-- The function `cli_vm_execute`, run for at most `fuel` iterations of its loop. -/
def cli_vm_execute (cfg : Config) (fuel : Nat) (bc : Module) (ctx_values : List Nat)
    (func : Func) (inst : List Inst) : Outcome :=
  exec cfg bc fuel (initState ctx_values func inst)

/-- The status `cli_vm_execute` returned, if it returned. -/
def Outcome.status (o : Outcome) : Option Status :=
  match o with
  | .ret st _ => some st
  | _ => none

/-- Cell `p` of the entry region `ctx->values` when `cli_vm_execute` returned. -/
def Outcome.ctxCell (o : Outcome) (p : Nat) : Option Nat :=
  match o with
  | .ret _ s => s.ctx_values[p]?
  | _ => none

/-! ## Vocabulary for the statements -/

/-- The opcodes of the `DEFINE_BINOP` cases. -/
def Opcode.isBinop : Opcode → Bool
  | .OP_ADD | .OP_SUB | .OP_MUL | .OP_UDIV | .OP_SDIV | .OP_UREM | .OP_SREM
  | .OP_SHL | .OP_LSHR | .OP_ASHR | .OP_AND | .OP_OR | .OP_XOR => true
  | _ => false

/-- The opcodes of the `DEFINE_ICMPOP` cases. -/
def Opcode.isIcmp : Opcode → Bool
  | .OP_ICMP_EQ | .OP_ICMP_NE | .OP_ICMP_UGT | .OP_ICMP_UGE | .OP_ICMP_ULT
  | .OP_ICMP_ULE | .OP_ICMP_SGT | .OP_ICMP_SGE | .OP_ICMP_SLE | .OP_ICMP_SLT => true
  | _ => false

/-- The opcodes of the `DEFINE_CASTOP` cases. -/
def Opcode.isCast : Opcode → Bool
  | .OP_SEXT | .OP_ZEXT | .OP_TRUNC => true
  | _ => false

/-- Number of bits of an operand width. -/
def Width.bits : Width → Nat
  | .i1 => 1
  | .i8 => 8
  | .i16 => 16
  | .i32 => 32
  | .i64 => 64

/-- The width tag as a number, the code `inst->u.cast.size` uses for the source width. -/
def Width.tag : Width → Nat
  | .i1 => 0
  | .i8 => 1
  | .i16 => 2
  | .i32 => 3
  | .i64 => 4

/-- The instruction after the one at the cursor is still inside the current block, so
that the check after the switch passes in a debug build. -/
def CanAdvance (cfg : Config) (s : State) : Prop :=
  cfg.CL_DEBUG = true → ∃ bb, s.bb = some bb ∧ s.bb_inst + 1 < bb.numInsts

/-- The value index `p` names the cell `c` of the current region and is below
`numValues + numConstants` of the current function. -/
def CellAt (s : State) (p c : Nat) : Prop :=
  s.values[p]? = some c ∧ p < s.func.numValues + s.func.numConstants

/-- The state after a value-producing instruction: region replaced, cursor advanced. -/
def State.afterWrite (s : State) (vs : List Nat) : State :=
  { s.setValues vs with bb_inst := s.bb_inst + 1, inst := s.inst.tail }

/-- The entry instruction of the host: a direct call of function `funcid` with the
argument slots `args`, the result going to slot `dest` of the entry region. -/
def entryCall (funcid dest : Nat) (args : List Nat) : List Inst :=
  [⟨.OP_CALL_DIRECT, .i32, 32, dest, .ops funcid args⟩]

/-- The state right after the entry call of a function without arguments. -/
def enteredState (ctx : List Nat) (host f : Func) (bb0 : BB) (d : Nat) : State :=
  { func := f, inst := bb0.insts, bb := some bb0, bb_inst := 0, stack_depth := 1,
    stack := ⟨[⟨8 * (f.numValues + f.numConstants) + 56,
                [(8 * (f.numValues + f.numConstants) + 54, 0)]⟩],
              f.numValues + f.numConstants + 7⟩,
    stack_entry := [⟨host, d, none, 0, List.replicate f.numValues 0 ++ f.constants, ⟨0, 0⟩⟩],
    ctx_values := ctx }

/-! ## Test programs of the boundary scenarios -/

/-- The function of "add-and-return i32": one block,
`OP_ADD.i32(c0, c1) -> v0; OP_RET.i32(v0)`, with constants `a`, `b`. -/
def addFunc (a b : Nat) : Func :=
  { numArgs := 0, numValues := 1, constants := [a, b],
    BB := [⟨[⟨.OP_ADD, .i32, 32, 0, .binop 1 2⟩, ⟨.OP_RET, .i32, 32, 0, .unaryop 0⟩]⟩] }

/-- The module of "add-and-return i32". -/
def addProgram (a b : Nat) : Module := ⟨[addFunc a b]⟩

/-- Two's-complement encoding of a signed integer in the low 32 bits of a cell. -/
def enc32 (z : Int) : Nat := toUnsigned 32 z

/-- The function of "conditional branch": `BB0` computes `ICMP_SLT.i32(c0, c1) -> v0` and
branches on `v0` to `BB1` (returns the constant 1) or `BB2` (returns the constant 0). The
constants are `c0`, `c1`, `1`, `0`, at the value indices 1 to 4. -/
def branchFunc (c0 c1 : Nat) : Func :=
  { numArgs := 0, numValues := 1, constants := [c0, c1, 1, 0],
    BB := [⟨[⟨.OP_ICMP_SLT, .i32, 32, 0, .binop 1 2⟩, ⟨.OP_BRANCH, .i1, 0, 0, .branch 0 1 2⟩]⟩,
           ⟨[⟨.OP_RET, .i32, 32, 0, .unaryop 3⟩]⟩,
           ⟨[⟨.OP_RET, .i32, 32, 0, .unaryop 4⟩]⟩] }

/-- The module of "conditional branch". -/
def branchProgram (c0 c1 : Nat) : Module := ⟨[branchFunc c0 c1]⟩

/-- The function of "recursive factorial", `fact(n)`: `v0 = n`; value indices 5 and 6 are
the constants 0 and 1.
`BB0`: `ICMP_EQ.i32(v0, 0) -> v1`, branch on `v1` to `BB1` or `BB2`.
`BB1`: return the constant 1.
`BB2`: `SUB.i32(v0, 1) -> v2`; `CALL_DIRECT fact(v2) -> v3`; `MUL.i32(v0, v3) -> v4`;
return `v4`. -/
def factFunc : Func :=
  { numArgs := 1, numValues := 5, constants := [0, 1],
    BB := [⟨[⟨.OP_ICMP_EQ, .i32, 32, 1, .binop 0 5⟩, ⟨.OP_BRANCH, .i1, 0, 0, .branch 1 1 2⟩]⟩,
           ⟨[⟨.OP_RET, .i32, 32, 0, .unaryop 6⟩]⟩,
           ⟨[⟨.OP_SUB, .i32, 32, 2, .binop 0 6⟩,
             ⟨.OP_CALL_DIRECT, .i32, 32, 3, .ops 0 [2]⟩,
             ⟨.OP_MUL, .i32, 32, 4, .binop 0 3⟩,
             ⟨.OP_RET, .i32, 32, 0, .unaryop 4⟩]⟩] }

/-- The module of "recursive factorial". -/
def factProgram : Module := ⟨[factFunc]⟩

/-- The function record of the host around an entry call: `numValues` cells, no
constants, no blocks. -/
def hostFunc (numValues : Nat) : Func :=
  { numArgs := 0, numValues := numValues, constants := [], BB := [] }

/-- Running `fact` on `n` from the host: the entry region is `[n, 0]`, the argument is
slot 0 and the result goes to slot 1. -/
def runFact (cfg : Config) (fuel n : Nat) : Outcome :=
  cli_vm_execute cfg fuel factProgram [n, 0] (hostFunc 2) (entryCall 0 1 [0])

/-- A one-block function `[opcode.width(c0, c1) -> v0; OP_RET.width(v0)]` with the
constants `a`, `b` (value indices 1 and 2) and `inst->type = type`. -/
def binopFunc (opcode : Opcode) (width : Width) (type a b : Nat) : Func :=
  { numArgs := 0, numValues := 1, constants := [a, b],
    BB := [⟨[⟨opcode, width, type, 0, .binop 1 2⟩, ⟨.OP_RET, width, type, 0, .unaryop 0⟩]⟩] }

/-- Running `binopFunc` from the host, the result going to slot 0 of the entry region
`[0]`. -/
def runBinop (cfg : Config) (opcode : Opcode) (width : Width) (type a b : Nat) : Outcome :=
  cli_vm_execute cfg 3 ⟨[binopFunc opcode width type a b]⟩ [0] (hostFunc 1) (entryCall 0 0 [])

/-- A one-block function `[OP_SELECT.width(c0, c1, c2) -> v0; OP_RET.width(v0)]` with the
constants `c`, `a`, `b` (value indices 1, 2, 3). -/
def selectFunc (width : Width) (c a b : Nat) : Func :=
  { numArgs := 0, numValues := 1, constants := [c, a, b],
    BB := [⟨[⟨.OP_SELECT, width, 0, 0, .three 1 2 3⟩, ⟨.OP_RET, width, 0, 0, .unaryop 0⟩]⟩] }

/-- Running `selectFunc` from the host, the result going to slot 0 of the entry region
`[0]`. -/
def runSelect (cfg : Config) (width : Width) (c a b : Nat) : Outcome :=
  cli_vm_execute cfg 3 ⟨[selectFunc width c a b]⟩ [0] (hostFunc 1) (entryCall 0 0 [])

/-- The mathematical result of the arithmetic opcodes. -/
def arith : Opcode → Int → Int → Int
  | .OP_ADD, x, y => x + y
  | .OP_SUB, x, y => x - y
  | .OP_MUL, x, y => x * y
  | _, _, _ => 0

/-- A state in the middle of a call made from the host: the current function has the
locals `values` (no constants) and the single block `insts`, the cursor is at the first
instruction of the block, one frame is on the spill stack. -/
def midState (insts : List Inst) (values : List Nat) : State :=
  { func := ⟨0, values.length, [], [⟨insts⟩]⟩, inst := insts, bb := some ⟨insts⟩, bb_inst := 0,
    stack_depth := 1,
    stack := ⟨[⟨8 * values.length + 56, [(8 * values.length + 54, 0)]⟩], values.length + 7⟩,
    stack_entry := [⟨hostFunc 1, 0, none, 0, values, ⟨0, 0⟩⟩],
    ctx_values := [0] }

/-- The value indices a debug build compares with `numValues + numConstants` before the
instruction touches a cell: the destination of every instruction, the operands of the
binary, compare and copy cases, the source of a cast with a valid size code, the three
operands of a select. -/
def Inst.checkedIndices (inst : Inst) : List Nat :=
  inst.dest ::
    (if inst.opcode.isBinop || inst.opcode.isIcmp || inst.opcode == .OP_COPY then
      match inst.u with
      | .binop p0 p1 => [p0, p1]
      | _ => []
    else if inst.opcode.isCast then
      match inst.u with
      | .cast source _ size => if size ≤ 4 then [source] else []
      | _ => []
    else if inst.opcode == .OP_SELECT then
      match inst.u with
      | .three p0 p1 p2 => [p0, p1, p2]
      | _ => []
    else [])

/-! ## Vocabulary for the spill-stack statements -/

/-- What the spill-stack claims compare: the `used` count of every linked chunk, newest
first, and `last_size`. -/
def Stack.shape (s : Stack) : List Nat × Nat := (s.chunk.map (fun c => c.used), s.last_size)

/-- The stack states reachable from the empty stack by successful allocations and by
frees. -/
inductive Reachable : Stack → Prop
  | empty : Reachable ⟨[], 0⟩
  | alloc (s s1 : Stack) (n : Nat) (p : Ptr) :
      Reachable s → cli_stack_alloc s n = .ok p s1 → Reachable s1
  | free (s s1 : Stack) (p : Ptr) :
      Reachable s → cli_stack_free s p = some s1 → Reachable s1

/-- What holds of every chunk of a reachable stack: it holds at least one block, its
cursor is a multiple of the alignment unit inside the chunk, and the stored trailers are
16-bit words. -/
def ChunkInv (c : StackChunk) : Prop :=
  0 < c.used ∧ c.used ≤ STACK_CHUNKSIZE ∧ c.used % 8 = 0 ∧ ∀ e ∈ c.data, e.2 < 2 ^ 16

/-- What holds of every reachable stack. -/
def StackInv (s : Stack) : Prop :=
  s.last_size < 2 ^ 16 ∧ ∀ c ∈ s.chunk, ChunkInv c

/-- Two chunks with the same cursor and the same 16-bit words below the cursor. -/
def ChunkEq (c d : StackChunk) : Prop :=
  c.used = d.used ∧ ∀ off, off + 2 ≤ c.used → load16 c.data off = load16 d.data off

/-- Two stacks with the same `last_size` and chunk by chunk the same live content. -/
def StackEq (s t : Stack) : Prop :=
  s.last_size = t.last_size ∧ List.Forall₂ ChunkEq s.chunk t.chunk

/-- A sequence of allocations of the sizes `ns`, all of which succeed; the blocks are
returned most recent first. -/
def allocAll : Stack → List Nat → Option (List Ptr × Stack)
  | s, [] => some ([], s)
  | s, n :: ns =>
    match cli_stack_alloc s n with
    | .ok p s1 =>
      match allocAll s1 ns with
      | some (ps, s2) => some (ps ++ [p], s2)
      | none => none
    | _ => none

/-- Freeing the blocks `ps` in the order of the list. -/
def freeAll : Stack → List Ptr → Option Stack
  | s, [] => some s
  | s, p :: ps =>
    match cli_stack_free s p with
    | some s1 => freeAll s1 ps
    | none => none

/-- Rounding `m` up to a multiple of the alignment unit. -/
def roundUp8 (m : Nat) : Nat := (m + 7) / 8 * 8

/-- The rounded size `cli_stack_alloc` computes from a request of `n` bytes,
`(n + sizeof(uint16_t) + sizeof(align_t)) & ~(sizeof(align_t) - 1)` as an `unsigned`. -/
def allocSize (n : Nat) : Nat := ((n % 2 ^ 32 + 2 + 8) / 8 * 8) % 2 ^ 32

/-! ## Vocabulary for the frame statements -/

/-- The opcodes of the cases that store a result into a value cell: binary, compare,
cast, select, copy. -/
def Opcode.isValueOp (op : Opcode) : Bool :=
  op.isBinop || op.isIcmp || op.isCast || op == .OP_SELECT || op == .OP_COPY

/-- The value index such an instruction stores to: `inst->dest`, and for `OP_COPY` the
second operand `BINOP(1)`. -/
def Inst.writeIndex (inst : Inst) : Nat :=
  if inst.opcode == .OP_COPY then
    match inst.u with
    | .binop _ p1 => p1
    | _ => inst.dest
  else inst.dest

/-- The width the claims name for the store of such an instruction: the low byte for an
i1 or compare result, 8, 16, 32 or 64 bits otherwise. -/
def Inst.writtenBits (inst : Inst) : Nat :=
  if inst.opcode.isIcmp then 8 else cBits inst.width

/-- The current value region of the state an outcome carries. -/
def Outcome.values (o : Outcome) : Option (List Nat) :=
  match o with
  | .next s => some s.values
  | .ret _ s => some s.values
  | .undefined => none

/-- The spill stack when `cli_vm_execute` returned. -/
def Outcome.finalStack (o : Outcome) : Option Stack :=
  match o with
  | .ret _ s => some s.stack
  | _ => none

/-- A function of one local and the constants `a`, `b` whose only block is
`[OP_ADD.i32(c0, c1) -> c0; OP_RET.i32(c0)]`: the destination of the addition is the
value index 1, the first constant. -/
def constWriteFunc (a b : Nat) : Func :=
  { numArgs := 0, numValues := 1, constants := [a, b],
    BB := [⟨[⟨.OP_ADD, .i32, 32, 1, .binop 1 2⟩, ⟨.OP_RET, .i32, 32, 0, .unaryop 1⟩]⟩] }

/-- The state right after the entry call of the function `f` (without arguments) from the
host, with the entry region `[0]` and the result slot 0. -/
def entryState (f : Func) : State :=
  enteredState [0] (hostFunc 1) f (f.BB.headD ⟨[]⟩) 0

/-- The state of `fact(n)`, called from the host, at its recursive call
`CALL_DIRECT fact(v2) -> v3` (index 1 of `BB2`): one frame on the spill stack, the
region `[n, 0, n - 1, 0, 0]` with the constants `0, 1` behind it. -/
def factCallState (n : Nat) : State :=
  { func := factFunc, inst := (factFunc.BB.getD 2 ⟨[]⟩).insts.drop 1,
    bb := some (factFunc.BB.getD 2 ⟨[]⟩), bb_inst := 1, stack_depth := 1,
    stack := ⟨[⟨112, [(110, 0)]⟩], 14⟩,
    stack_entry := [⟨hostFunc 2, 1, none, 0, [n, 0, n - 1, 0, 0, 0, 1], ⟨0, 0⟩⟩],
    ctx_values := [n, 0] }

/-- A function of `n` locals, without arguments and constants, whose only block is
`[OP_RET.i32(v0)]`. -/
def localsFunc (n : Nat) : Func :=
  { numArgs := 0, numValues := n, constants := [],
    BB := [⟨[⟨.OP_RET, .i32, 32, 0, .unaryop 0⟩]⟩] }

/-- An entry function of one local whose block 0 is
`[CALL_DIRECT f0() -> v0; OP_RET.i32(v0)]`. -/
def callThenRetFunc : Func :=
  { numArgs := 0, numValues := 1, constants := [],
    BB := [⟨[⟨.OP_CALL_DIRECT, .i32, 32, 0, .ops 0 []⟩,
             ⟨.OP_RET, .i32, 32, 0, .unaryop 0⟩]⟩] }

/-- Running `callThenRetFunc` as the entry function, entered through the instruction
`OP_JMP 0`, in a module whose function 0 is `localsFunc 1`, on the entry region `[0]`:
the jump makes block 0 current, the call returns into block 0, and the `RET` after the
call executes with no frame on the spill stack. -/
def runCallThenRet (cfg : Config) (fuel : Nat) : Outcome :=
  cli_vm_execute cfg fuel ⟨[localsFunc 1]⟩ [0] callThenRetFunc
    [⟨.OP_JMP, .i32, 32, 0, .jump 0⟩]

/-! ## Properties of the embedding -/

/-! ### Fuel -/

theorem exec_ret_mono (cfg : Config) (bc : Module) (n m : Nat) (s s1 : State) (st : Status)
    (h : exec cfg bc n s = .ret st s1) (hnm : n ≤ m) : exec cfg bc m s = .ret st s1 := by
  induction n generalizing s m with
  | zero => simp [exec] at h
  | succ n ih =>
    obtain ⟨k, rfl⟩ : ∃ k, m = k + 1 := ⟨m - 1, by omega⟩
    simp only [exec] at h ⊢
    cases hs : step cfg bc s with
    | next s2 => rw [hs] at h; simp only [] at h ⊢; exact ih k s2 h (by omega)
    | ret st2 s2 => rw [hs] at h; simpa using h
    | undefined => rw [hs] at h; simp at h

theorem exec_succ_of_next (cfg : Config) (bc : Module) (n : Nat) (s s1 : State)
    (h : step cfg bc s = .next s1) : exec cfg bc (n + 1) s = exec cfg bc n s1 := by
  simp only [exec, h]

theorem exec_succ_of_ret (cfg : Config) (bc : Module) (n : Nat) (s s1 : State) (st : Status)
    (h : step cfg bc s = .ret st s1) : exec cfg bc (n + 1) s = .ret st s1 := by
  simp only [exec, h]

/-! ### The spill stack with one frame -/

theorem cli_stack_alloc_empty (ls n : Nat) (hn : n ≤ 2040) (hls : ls < 2 ^ 16) :
    cli_stack_alloc ⟨[], ls⟩ (sizeof_stack_entry + sizeof_value * n) =
      .ok ⟨0, 0⟩ ⟨[⟨8 * n + 56, [(8 * n + 54, ls)]⟩], n + 7⟩ := by
  have e1 : ((48 + 8 * n) % 4294967296 + 2 + 8) / 8 * 8 % 4294967296 = 8 * n + 56 := by omega
  have e2 : (8 * n + 56 + 65536 - 2) % 65536 = 8 * n + 54 := by omega
  have e3 : (8 * n + 56) / 8 % 65536 = n + 7 := by omega
  have e4 : ¬ (16384 ≤ 8 * n + 56) := by omega
  have e5 : 8 * n + 54 + 2 ≤ 16384 := by omega
  have e6 : ls % 65536 = ls := by omega
  simp only [cli_stack_alloc, sizeof_stack_entry, sizeof_value, sizeof_align_t, STACK_CHUNKSIZE,
    store16, Nat.reducePow, e1, e2, e3, e4, e5, e6, if_true, if_false, List.length_nil,
    List.filter_nil]

theorem allocate_stack_empty (ls : Nat) (func func_old : Func) (ret : Nat) (bb : Option BB)
    (bb_inst : Nat) (hn : func.numValues + func.numConstants ≤ 2040) (hls : ls < 2 ^ 16) :
    allocate_stack ⟨[], ls⟩ func func_old ret bb bb_inst =
      some (some (⟨func_old, ret, bb, bb_inst,
          List.replicate func.numValues 0 ++ func.constants, ⟨0, 0⟩⟩,
        ⟨[⟨8 * (func.numValues + func.numConstants) + 56,
            [(8 * (func.numValues + func.numConstants) + 54, ls)]⟩],
          func.numValues + func.numConstants + 7⟩)) := by
  unfold allocate_stack
  simp only [cli_stack_alloc_empty ls _ hn hls]
  rw [if_pos (by simp only [sizeof_stack_entry, sizeof_value, sizeof_align_t]; omega)]

theorem cli_stack_free_single (n l : Nat) :
    cli_stack_free ⟨[⟨8 * n + 56, [(8 * n + 54, l)]⟩], n + 7⟩ ⟨0, 0⟩ = some ⟨[], l⟩ := by
  have e2 : ¬ (8 * n + 56 < 2) := by omega
  have e3 : ¬ (8 * n + 56 < (n + 7) * 8) := by omega
  have e4 : 8 * n + 56 - (n + 7) * 8 = 0 := by omega
  have e5 : 8 * n + 56 - 2 = 8 * n + 54 := by omega
  simp [cli_stack_free, sizeof_align_t, load16, e2, e3, e4, e5]
  omega

/-! ### Single iterations -/

theorem setValues_bb (s : State) (vs : List Nat) : (s.setValues vs).bb = s.bb := by
  unfold State.setValues; cases s.stack_entry <;> rfl

theorem setValues_bb_inst (s : State) (vs : List Nat) :
    (s.setValues vs).bb_inst = s.bb_inst := by
  unfold State.setValues; cases s.stack_entry <;> rfl

theorem setValues_inst (s : State) (vs : List Nat) : (s.setValues vs).inst = s.inst := by
  unfold State.setValues; cases s.stack_entry <;> rfl

theorem setValues_func (s : State) (vs : List Nat) : (s.setValues vs).func = s.func := by
  unfold State.setValues; cases s.stack_entry <;> rfl

theorem setValues_values (s : State) (vs : List Nat) : (s.setValues vs).values = vs := by
  unfold State.setValues State.values; cases s.stack_entry <;> rfl

theorem afterWrite_values (s : State) (vs : List Nat) : (s.afterWrite vs).values = vs := by
  unfold State.afterWrite State.setValues State.values; cases s.stack_entry <;> rfl

theorem afterWrite_func (s : State) (vs : List Nat) : (s.afterWrite vs).func = s.func := by
  unfold State.afterWrite State.setValues; cases s.stack_entry <;> rfl

theorem afterWrite_inst (s : State) (vs : List Nat) :
    (s.afterWrite vs).inst = s.inst.tail := by
  unfold State.afterWrite State.setValues; cases s.stack_entry <;> rfl

theorem afterWrite_bb (s : State) (vs : List Nat) : (s.afterWrite vs).bb = s.bb := by
  unfold State.afterWrite State.setValues; cases s.stack_entry <;> rfl

theorem afterWrite_bb_inst (s : State) (vs : List Nat) :
    (s.afterWrite vs).bb_inst = s.bb_inst + 1 := by
  unfold State.afterWrite State.setValues; cases s.stack_entry <;> rfl

theorem advance_of_canAdvance (cfg : Config) (s s1 : State) (hat : CanAdvance cfg s)
    (hbb : s1.bb = s.bb) (hbi : s1.bb_inst = s.bb_inst) :
    advance cfg s1 = .next { s1 with bb_inst := s1.bb_inst + 1, inst := s1.inst.tail } := by
  unfold advance
  cases hc : cfg.CL_DEBUG with
  | false => simp
  | true =>
    obtain ⟨bb, h1, h2⟩ := hat hc
    simp only [hbb, h1, hbi, if_true]
    rw [if_neg (by omega)]

theorem finishWrite_ok (cfg : Config) (s : State) (vs : List Nat)
    (hat : CanAdvance cfg s) : finishWrite cfg s (.ok vs) = .next (s.afterWrite vs) := by
  unfold finishWrite
  simp only []
  rw [advance_of_canAdvance cfg s _ hat (setValues_bb s vs) (setValues_bb_inst s vs)]
  simp [State.afterWrite, setValues_bb_inst, setValues_inst]

theorem readValue_cellAt (cfg : Config) (s : State) (rd : Nat → Nat) (p c : Nat)
    (h : CellAt s p c) : readValue cfg s.func s.values rd p = .ok (rd c) := by
  obtain ⟨h1, h2⟩ := h
  unfold readValue CHECK_GT
  rw [h1]
  have : decide (s.func.numValues + s.func.numConstants ≤ p) = false := by
    simp; omega
  simp [this, Chk.bind]

theorem writeValue_cellAt (cfg : Config) (s : State) (wr : Nat → Nat → Nat) (p c x : Nat)
    (h : CellAt s p c) :
    writeValue cfg s.func s.values wr p x = .ok (s.values.set p (wr c x)) := by
  obtain ⟨h1, h2⟩ := h
  unfold writeValue CHECK_GT
  rw [h1]
  have : decide (s.func.numValues + s.func.numConstants ≤ p) = false := by
    simp; omega
  simp [this, Chk.bind]

theorem step_dest_ok (cfg : Config) (s : State) (inst : Inst) (cd : Nat)
    (hd : CellAt s inst.dest cd) :
    (cfg.CL_DEBUG && decide (s.func.numValues + s.func.numConstants ≤ inst.dest)) = false := by
  have : decide (s.func.numValues + s.func.numConstants ≤ inst.dest) = false := by
    simp; exact hd.2
  simp [this]

theorem step_binop_exec (cfg : Config) (bc : Module) (s : State) (inst : Inst)
    (rest : List Inst) (p0 p1 c0 c1 cd : Nat) (hi : s.inst = inst :: rest)
    (hop : inst.opcode.isBinop = true) (hu : inst.u = .binop p0 p1)
    (h0 : CellAt s p0 c0) (h1 : CellAt s p1 c1) (hd : CellAt s inst.dest cd) :
    step cfg bc s =
      finishWrite cfg s
        ((binopOP inst.opcode (cBits inst.width) inst.type
            (binopRead inst.width c0) (binopRead inst.width c1)).bind fun res =>
          .ok (s.values.set inst.dest (binopWrite inst.width cd res))) := by
  have hstep : step cfg bc s = execBinop cfg s inst (binopWrite inst.width) := by
    unfold step
    rw [hi]
    simp only [step_dest_ok cfg s inst cd hd]
    cases hopc : inst.opcode <;> simp [hopc, Opcode.isBinop] at hop ⊢
  rw [hstep]
  unfold execBinop
  rw [hu]
  simp only [readValue_cellAt cfg s _ _ _ h0, readValue_cellAt cfg s _ _ _ h1, Chk.bind]
  cases binopOP inst.opcode (cBits inst.width) inst.type
      (binopRead inst.width c0) (binopRead inst.width c1) with
  | ok res => simp only [writeValue_cellAt cfg s _ _ _ _ hd]
  | fail st => rfl
  | undefined => rfl

theorem step_icmp_exec (cfg : Config) (bc : Module) (s : State) (inst : Inst)
    (rest : List Inst) (p0 p1 c0 c1 cd : Nat) (hi : s.inst = inst :: rest)
    (hop : inst.opcode.isIcmp = true) (hu : inst.u = .binop p0 p1)
    (h0 : CellAt s p0 c0) (h1 : CellAt s p1 c1) (hd : CellAt s inst.dest cd) :
    step cfg bc s =
      finishWrite cfg s
        ((binopOP inst.opcode (cBits inst.width) inst.type
            (binopRead inst.width c0) (binopRead inst.width c1)).bind fun res =>
          .ok (s.values.set inst.dest (WRITE8 cd res))) := by
  have hstep : step cfg bc s = execBinop cfg s inst WRITE8 := by
    unfold step
    rw [hi]
    simp only [step_dest_ok cfg s inst cd hd]
    cases hopc : inst.opcode <;> simp [hopc, Opcode.isIcmp] at hop ⊢
  rw [hstep]
  unfold execBinop
  rw [hu]
  simp only [readValue_cellAt cfg s _ _ _ h0, readValue_cellAt cfg s _ _ _ h1, Chk.bind]
  cases binopOP inst.opcode (cBits inst.width) inst.type
      (binopRead inst.width c0) (binopRead inst.width c1) with
  | ok res => simp only [writeValue_cellAt cfg s _ _ _ _ hd]
  | fail st => rfl
  | undefined => rfl

theorem step_entryCall (cfg : Config) (bc : Module) (ctx : List Nat) (host f : Func)
    (funcid d : Nat) (bb0 : BB) (bbs : List BB)
    (hf : bc.funcs[funcid]? = some f) (hargs : f.numArgs = 0) (hbb : f.BB = bb0 :: bbs)
    (hn : f.numValues + f.numConstants ≤ 2040)
    (hd : d < host.numValues + host.numConstants) :
    step cfg bc (initState ctx host (entryCall funcid d [])) =
      .next (enteredState ctx host f bb0 d) := by
  have h1 : decide (host.numValues + host.numConstants ≤ d) = false := by simp; omega
  have h2 : decide (bc.num_func ≤ funcid) = false := by
    simp only [Module.num_func, decide_eq_false_iff_not, not_le]
    by_contra hc
    rw [List.getElem?_eq_none (by omega)] at hf
    exact absurd hf (by simp)
  have h3 : decide (f.numBB ≤ 0) = false := by simp [Func.numBB, hbb]
  simp only [step, initState, entryCall, execCallDirect, h1, h2, h3, Bool.and_false, hf, hargs,
    List.length_nil, ne_eq, not_true_eq_false, decide_False, Bool.false_eq_true, if_false,
    allocate_stack_empty 0 f host d none 0 hn (by decide), copyArgs, jump, hbb,
    List.getElem?_cons_zero, loopContinue, if_true, enteredState, State.values]

theorem step_ret_entry (cfg : Config) (bc : Module) (func host : Func) (inst : Inst)
    (rest : List Inst) (bb : Option BB) (bb_inst depth n l d bi p tmp : Nat)
    (vals ctx : List Nat) (hop : inst.opcode = .OP_RET) (hu : inst.u = .unaryop p)
    (hdest : inst.dest < func.numValues + func.numConstants)
    (hp : vals[p]? = some tmp) (hd : d < ctx.length)
    (hdh : d < host.numValues + host.numConstants) :
    step cfg bc
      { func := func, inst := inst :: rest, bb := bb, bb_inst := bb_inst,
        stack_depth := depth + 1,
        stack := ⟨[⟨8 * n + 56, [(8 * n + 54, l)]⟩], n + 7⟩,
        stack_entry := [⟨host, d, none, bi, vals, ⟨0, 0⟩⟩], ctx_values := ctx } =
    .ret .CL_SUCCESS
      { func := host, inst := inst :: rest, bb := none, bb_inst := bi,
        stack_depth := depth + 1, stack := ⟨[], l⟩, stack_entry := [],
        ctx_values := ctx.set d tmp } := by
  have h1 : decide (func.numValues + func.numConstants ≤ inst.dest) = false := by simp; omega
  have h2 : decide (host.numValues + host.numConstants ≤ d) = false := by simp; omega
  have h3 : decide (depth + 1 ≤ 0) = false := by simp
  have h4 : ctx[d]? = some ctx[d] := List.getElem?_eq_getElem hd
  simp only [step, hop, execRet, h1, h2, h3, Bool.and_false, Bool.false_eq_true, if_false, hu,
    State.values, hp, cli_stack_free_single, h4, State.setValues, loopExit, cli_stack_destroy,
    if_true]

/-! ### C1: add-and-return -/

theorem addProgram_exec (cfg : Config) (a b d : Nat) (ctx : List Nat) (host : Func)
    (hd : d < ctx.length) (hdh : d < host.numValues + host.numConstants) :
    exec cfg (addProgram a b) 3 (initState ctx host (entryCall 0 d [])) =
      .ret .CL_SUCCESS
        { func := host, inst := [⟨.OP_RET, .i32, 32, 0, .unaryop 0⟩], bb := none, bb_inst := 0,
          stack_depth := 1, stack := ⟨[], 0⟩, stack_entry := [],
          ctx_values := ctx.set d ((a + b) % 2 ^ 32) } := by
  have hs1 := step_entryCall cfg (addProgram a b) ctx host (addFunc a b) 0 d
    ⟨[⟨.OP_ADD, .i32, 32, 0, .binop 1 2⟩, ⟨.OP_RET, .i32, 32, 0, .unaryop 0⟩]⟩ [] rfl rfl rfl
    (by simp [addFunc, Func.numConstants]) hdh
  rw [exec_succ_of_next _ _ _ _ _ hs1]
  have hs2 := step_binop_exec cfg (addProgram a b) (enteredState ctx host (addFunc a b)
      ⟨[⟨.OP_ADD, .i32, 32, 0, .binop 1 2⟩, ⟨.OP_RET, .i32, 32, 0, .unaryop 0⟩]⟩ d)
    ⟨.OP_ADD, .i32, 32, 0, .binop 1 2⟩ [⟨.OP_RET, .i32, 32, 0, .unaryop 0⟩] 1 2 a b 0
    rfl rfl rfl ⟨rfl, by simp [enteredState, addFunc, Func.numConstants]⟩
    ⟨rfl, by simp [enteredState, addFunc, Func.numConstants]⟩
    ⟨rfl, by simp [enteredState, addFunc, Func.numConstants]⟩
  have hadd : binopOP .OP_ADD (cBits .i32) 32 (binopRead .i32 a) (binopRead .i32 b) =
      .ok ((a + b) % 2 ^ 32) := by
    simp [binopOP, cBits, binopRead, READ32]
  simp only [hadd, Chk.bind] at hs2
  rw [finishWrite_ok _ _ _ (fun _ => ⟨_, rfl, by simp [enteredState, BB.numInsts]⟩)] at hs2
  rw [exec_succ_of_next _ _ _ _ _ hs2]
  have hw : binopWrite .i32 0 ((a + b) % 2 ^ 32) = (a + b) % 2 ^ 32 := by
    simp [binopWrite, WRITE32]
  have hstate : (enteredState ctx host (addFunc a b)
      ⟨[⟨.OP_ADD, .i32, 32, 0, .binop 1 2⟩, ⟨.OP_RET, .i32, 32, 0, .unaryop 0⟩]⟩ d).afterWrite
        ((enteredState ctx host (addFunc a b)
      ⟨[⟨.OP_ADD, .i32, 32, 0, .binop 1 2⟩, ⟨.OP_RET, .i32, 32, 0, .unaryop 0⟩]⟩ d).values.set 0
          (binopWrite .i32 0 ((a + b) % 2 ^ 32))) =
      { func := addFunc a b, inst := [⟨.OP_RET, .i32, 32, 0, .unaryop 0⟩],
        bb := some ⟨[⟨.OP_ADD, .i32, 32, 0, .binop 1 2⟩, ⟨.OP_RET, .i32, 32, 0, .unaryop 0⟩]⟩,
        bb_inst := 1, stack_depth := 0 + 1,
        stack := ⟨[⟨8 * 3 + 56, [(8 * 3 + 54, 0)]⟩], 3 + 7⟩,
        stack_entry := [⟨host, d, none, 0, [(a + b) % 2 ^ 32, a, b], ⟨0, 0⟩⟩],
        ctx_values := ctx } := by
    rw [hw]
    simp [State.afterWrite, State.setValues, enteredState, State.values, addFunc,
      Func.numConstants]
  rw [hstate]
  apply exec_succ_of_ret
  exact step_ret_entry cfg _ _ host _ _ _ 1 0 3 0 d 0 0 ((a + b) % 2 ^ 32) _ ctx rfl rfl
    (by simp [addFunc, Func.numConstants]) rfl hd hdh

/-- C1: for all 32-bit constants `a`, `b`, the one-block function
`[OP_ADD.i32(c0, c1) -> v0; OP_RET.i32(v0)]`, entered by a direct call from the entry
instruction of the host, terminates with `CL_SUCCESS` (for every fuel of at least three
iterations, in both builds), and the return slot of the call then holds
`(a + b) mod 2^32`. -/
theorem c1_add_and_return (cfg : Config) (a b d fuel : Nat) (ctx : List Nat) (host : Func)
    (ha : a < 2 ^ 32) (hb : b < 2 ^ 32) (hd : d < ctx.length)
    (hdh : d < host.numValues + host.numConstants) (hfuel : 3 ≤ fuel) :
    (cli_vm_execute cfg fuel (addProgram a b) ctx host (entryCall 0 d [])).status
        = some .CL_SUCCESS ∧
      (cli_vm_execute cfg fuel (addProgram a b) ctx host (entryCall 0 d [])).ctxCell d
        = some ((a + b) % 2 ^ 32) := by
  have _ := ha
  have _ := hb
  unfold cli_vm_execute
  rw [exec_ret_mono _ _ _ _ _ _ _ (addProgram_exec cfg a b d ctx host hd hdh) hfuel]
  simp [Outcome.status, Outcome.ctxCell, hd]

/-- C1, instance: with constants `{5, 7}` the result is 12. -/
theorem c1_add_and_return_witness :
    (5 < 2 ^ 32 ∧ 7 < 2 ^ 32) ∧
      (cli_vm_execute ⟨true⟩ 3 (addProgram 5 7) [0] ⟨0, 1, [], []⟩ (entryCall 0 0 [])).status
        = some .CL_SUCCESS ∧
      (cli_vm_execute ⟨true⟩ 3 (addProgram 5 7) [0] ⟨0, 1, [], []⟩ (entryCall 0 0 [])).ctxCell 0
        = some 12 :=
  ⟨by decide, c1_add_and_return ⟨true⟩ 5 7 0 3 [0] ⟨0, 1, [], []⟩ (by decide) (by decide)
    (by decide) (by decide) (by decide)⟩

theorem step_branch (cfg : Config) (bc : Module) (s : State) (inst : Inst) (rest : List Inst)
    (c t f cv : Nat) (bbT : BB) (hi : s.inst = inst :: rest) (hop : inst.opcode = .OP_BRANCH)
    (hu : inst.u = .branch c t f)
    (hdest : inst.dest < s.func.numValues + s.func.numConstants)
    (hc : s.values[c]? = some cv)
    (hT : s.func.BB[if cv % 2 = 1 then t else f]? = some bbT) :
    step cfg bc s = .next { s with bb := some bbT, inst := bbT.insts, bb_inst := 0 } := by
  have h1 : decide (s.func.numValues + s.func.numConstants ≤ inst.dest) = false := by
    simp; omega
  have h2 : decide (s.func.numBB ≤ if cv % 2 = 1 then t else f) = false := by
    simp only [Func.numBB, decide_eq_false_iff_not, not_le]
    by_contra hc2
    rw [List.getElem?_eq_none (by omega)] at hT
    exact absurd hT (by simp)
  simp only [step, hi, hop, execBranch, h1, h2, Bool.and_false, Bool.false_eq_true, if_false, hu,
    hc, jump, hT, loopContinue, if_true]

theorem step_ret_top (cfg : Config) (bc : Module) (s : State) (host : Func) (inst : Inst)
    (rest : List Inst) (n l d bi p tmp : Nat) (vals : List Nat)
    (hi : s.inst = inst :: rest) (hop : inst.opcode = .OP_RET) (hu : inst.u = .unaryop p)
    (hdest : inst.dest < s.func.numValues + s.func.numConstants)
    (hdepth : 0 < s.stack_depth)
    (hse : s.stack_entry = [⟨host, d, none, bi, vals, ⟨0, 0⟩⟩])
    (hstack : s.stack = ⟨[⟨8 * n + 56, [(8 * n + 54, l)]⟩], n + 7⟩)
    (hp : vals[p]? = some tmp) (hd : d < s.ctx_values.length)
    (hdh : d < host.numValues + host.numConstants) :
    step cfg bc s = .ret .CL_SUCCESS
      { s with func := host, bb := none, bb_inst := bi, stack := ⟨[], l⟩, stack_entry := [],
               ctx_values := s.ctx_values.set d tmp } := by
  have h1 : decide (s.func.numValues + s.func.numConstants ≤ inst.dest) = false := by
    simp; omega
  have h2 : decide (host.numValues + host.numConstants ≤ d) = false := by simp; omega
  have h3 : decide (s.stack_depth ≤ 0) = false := by simp; omega
  have h4 : s.ctx_values[d]? = some s.ctx_values[d] := List.getElem?_eq_getElem hd
  simp only [step, hi, hop, execRet, h1, h2, h3, Bool.and_false, Bool.false_eq_true, if_false,
    hu, State.values, hse, hstack, hp, cli_stack_free_single, h4, State.setValues, loopExit,
    cli_stack_destroy, if_true]

theorem exec_of_next (cfg : Config) (bc : Module) (n : Nat) (s s1 : State) (o : Outcome)
    (h : step cfg bc s = .next s1) (h2 : exec cfg bc n s1 = o) :
    exec cfg bc (n + 1) s = o := by
  simp only [exec, h, h2]

theorem enteredState_afterWrite (ctx : List Nat) (host f : Func) (bb0 : BB) (d : Nat)
    (vs : List Nat) :
    (enteredState ctx host f bb0 d).afterWrite vs =
      { func := f, inst := bb0.insts.tail, bb := some bb0, bb_inst := 1, stack_depth := 1,
        stack := ⟨[⟨8 * (f.numValues + f.numConstants) + 56,
                    [(8 * (f.numValues + f.numConstants) + 54, 0)]⟩],
                  f.numValues + f.numConstants + 7⟩,
        stack_entry := [⟨host, d, none, 0, vs, ⟨0, 0⟩⟩],
        ctx_values := ctx } := rfl

/-! ### C3: conditional branch -/

theorem toSigned_enc32 (a : Int) (h1 : -2 ^ 31 ≤ a) (h2 : a < 2 ^ 31) :
    toSigned 32 (READ32 (enc32 a)) = a := by
  unfold toSigned READ32 enc32 toUnsigned
  simp only [Nat.reducePow, Nat.reduceSub]
  norm_num at h1 h2 ⊢
  split <;> omega

theorem branchProgram_exec (cfg : Config) (a b : Int) (d : Nat) (ctx : List Nat) (host : Func)
    (ha1 : -2 ^ 31 ≤ a) (ha2 : a < 2 ^ 31) (hb1 : -2 ^ 31 ≤ b) (hb2 : b < 2 ^ 31)
    (hd : d < ctx.length) (hdh : d < host.numValues + host.numConstants) :
    exec cfg (branchProgram (enc32 a) (enc32 b)) 4 (initState ctx host (entryCall 0 d [])) =
      .ret .CL_SUCCESS
        { func := host, inst := [⟨.OP_RET, .i32, 32, 0, .unaryop (if a < b then 3 else 4)⟩],
          bb := none, bb_inst := 0, stack_depth := 1, stack := ⟨[], 0⟩, stack_entry := [],
          ctx_values := ctx.set d (if a < b then 1 else 0) } := by
  have hs1 := step_entryCall cfg (branchProgram (enc32 a) (enc32 b)) ctx host
    (branchFunc (enc32 a) (enc32 b)) 0 d _ _ rfl rfl rfl
    (by simp [branchFunc, Func.numConstants]) hdh
  rw [exec_succ_of_next _ _ _ _ _ hs1]
  have hs2 := step_icmp_exec cfg (branchProgram (enc32 a) (enc32 b))
    (enteredState ctx host (branchFunc (enc32 a) (enc32 b))
      ⟨[⟨.OP_ICMP_SLT, .i32, 32, 0, .binop 1 2⟩, ⟨.OP_BRANCH, .i1, 0, 0, .branch 0 1 2⟩]⟩ d)
    ⟨.OP_ICMP_SLT, .i32, 32, 0, .binop 1 2⟩ [⟨.OP_BRANCH, .i1, 0, 0, .branch 0 1 2⟩] 1 2
    (enc32 a) (enc32 b) 0 rfl rfl rfl
    ⟨rfl, by simp [enteredState, branchFunc, Func.numConstants]⟩
    ⟨rfl, by simp [enteredState, branchFunc, Func.numConstants]⟩
    ⟨rfl, by simp [enteredState, branchFunc, Func.numConstants]⟩
  have hcmp : binopOP .OP_ICMP_SLT (cBits .i32) 32 (binopRead .i32 (enc32 a))
      (binopRead .i32 (enc32 b)) = .ok (if a < b then 1 else 0) := by
    simp only [binopOP, cBits, binopRead, toSigned_enc32 a ha1 ha2, toSigned_enc32 b hb1 hb2]
  simp only [hcmp, Chk.bind] at hs2
  rw [finishWrite_ok _ _ _ (fun _ => ⟨_, rfl, by simp [enteredState, BB.numInsts]⟩)] at hs2
  rw [exec_succ_of_next _ _ _ _ _ hs2, enteredState_afterWrite]
  have hv : ∀ r : Nat, r < 2 →
      (enteredState ctx host (branchFunc (enc32 a) (enc32 b))
        ⟨[⟨.OP_ICMP_SLT, .i32, 32, 0, .binop 1 2⟩,
          ⟨.OP_BRANCH, .i1, 0, 0, .branch 0 1 2⟩]⟩ d).values.set 0 (WRITE8 0 r) =
        [r, enc32 a, enc32 b, 1, 0] := by
    intro r hr
    have : WRITE8 0 r = r := by unfold WRITE8; omega
    rw [this]; rfl
  by_cases hab : a < b
  · simp only [hab, if_true]
    rw [hv 1 (by omega)]
    refine exec_of_next _ _ _ _ _ _ (step_branch cfg _ _
      ⟨.OP_BRANCH, .i1, 0, 0, .branch 0 1 2⟩ [] 0 1 2 1
      ⟨[⟨.OP_RET, .i32, 32, 0, .unaryop 3⟩]⟩ ?a1 ?a2 ?a3 ?a4 ?a5 ?a6) ?a7
    case a1 => rfl
    case a2 => rfl
    case a3 => rfl
    case a4 => simp [branchFunc, Func.numConstants]
    case a5 => rfl
    case a6 => rfl
    case a7 =>
      dsimp only
      refine exec_succ_of_ret _ _ _ _ _ _
        (step_ret_top cfg _ _ host ⟨.OP_RET, .i32, 32, 0, .unaryop 3⟩ [] 5 0 d 0 3 1
          [1, enc32 a, enc32 b, 1, 0] ?b1 ?b2 ?b3 ?b4 ?b5 ?b6 ?b7 ?b8 ?b9 hdh)
      case b1 => rfl
      case b2 => rfl
      case b3 => rfl
      case b4 => simp [branchFunc, Func.numConstants]
      case b5 => simp
      case b6 => rfl
      case b7 => rfl
      case b8 => rfl
      case b9 => exact hd
  · simp only [hab, if_false]
    rw [hv 0 (by omega)]
    refine exec_of_next _ _ _ _ _ _ (step_branch cfg _ _
      ⟨.OP_BRANCH, .i1, 0, 0, .branch 0 1 2⟩ [] 0 1 2 0
      ⟨[⟨.OP_RET, .i32, 32, 0, .unaryop 4⟩]⟩ ?a1 ?a2 ?a3 ?a4 ?a5 ?a6) ?a7
    case a1 => rfl
    case a2 => rfl
    case a3 => rfl
    case a4 => simp [branchFunc, Func.numConstants]
    case a5 => rfl
    case a6 => rfl
    case a7 =>
      dsimp only
      refine exec_succ_of_ret _ _ _ _ _ _
        (step_ret_top cfg _ _ host ⟨.OP_RET, .i32, 32, 0, .unaryop 4⟩ [] 5 0 d 0 4 0
          [0, enc32 a, enc32 b, 1, 0] ?b1 ?b2 ?b3 ?b4 ?b5 ?b6 ?b7 ?b8 ?b9 hdh)
      case b1 => rfl
      case b2 => rfl
      case b3 => rfl
      case b4 => simp [branchFunc, Func.numConstants]
      case b5 => simp
      case b6 => rfl
      case b7 => rfl
      case b8 => rfl
      case b9 => exact hd

/-- C3: for all signed 32-bit `a`, `b` (stored as the constants `c0`, `c1` in two's
complement), the three-block program whose `BB0` computes `ICMP_SLT.i32(c0, c1) -> v0`
and branches on `v0` to `BB1` (returns 1) or `BB2` (returns 0) terminates with
`CL_SUCCESS` and returns 1 exactly when `a < b`, and 0 otherwise. -/
theorem c3_conditional_branch (cfg : Config) (a b : Int) (d fuel : Nat) (ctx : List Nat)
    (host : Func) (ha1 : -2 ^ 31 ≤ a) (ha2 : a < 2 ^ 31) (hb1 : -2 ^ 31 ≤ b) (hb2 : b < 2 ^ 31)
    (hd : d < ctx.length) (hdh : d < host.numValues + host.numConstants) (hfuel : 4 ≤ fuel) :
    (cli_vm_execute cfg fuel (branchProgram (enc32 a) (enc32 b)) ctx host
        (entryCall 0 d [])).status = some .CL_SUCCESS ∧
      (cli_vm_execute cfg fuel (branchProgram (enc32 a) (enc32 b)) ctx host
        (entryCall 0 d [])).ctxCell d = some (if a < b then 1 else 0) := by
  unfold cli_vm_execute
  rw [exec_ret_mono _ _ _ _ _ _ _
    (branchProgram_exec cfg a b d ctx host ha1 ha2 hb1 hb2 hd hdh) hfuel]
  simp [Outcome.status, Outcome.ctxCell, hd]

/-- C3, instance: with `c0 = -1` and `c1 = 0` the program returns 1. -/
theorem c3_conditional_branch_witness :
    ((-2 : Int) ^ 31 ≤ -1 ∧ (-1 : Int) < 2 ^ 31 ∧ (-2 : Int) ^ 31 ≤ 0 ∧ (0 : Int) < 2 ^ 31) ∧
      (cli_vm_execute ⟨true⟩ 4 (branchProgram (enc32 (-1)) (enc32 0)) [0] (hostFunc 1)
        (entryCall 0 0 [])).status = some .CL_SUCCESS ∧
      (cli_vm_execute ⟨true⟩ 4 (branchProgram (enc32 (-1)) (enc32 0)) [0] (hostFunc 1)
        (entryCall 0 0 [])).ctxCell 0 = some 1 :=
  ⟨by decide, c3_conditional_branch ⟨true⟩ (-1) 0 0 4 [0] (hostFunc 1) (by decide) (by decide)
    (by decide) (by decide) (by decide) (by decide) (by decide)⟩

/-! ### C2: recursive factorial -/

theorem exec_eq_of_status (cfg : Config) (bc : Module) (n m : Nat) (s : State) (st : Status)
    (h : (exec cfg bc n s).status = some st) (hnm : n ≤ m) :
    exec cfg bc m s = exec cfg bc n s := by
  cases ho : exec cfg bc n s with
  | next s1 => rw [ho] at h; simp [Outcome.status] at h
  | undefined => rw [ho] at h; simp [Outcome.status] at h
  | ret st1 s1 => exact exec_ret_mono cfg bc n m s s1 st1 ho hnm

/-- C2: for every `n ≤ 12`, the recursive function `fact` (base case `n == 0` returns 1,
otherwise `n * fact(n-1)` through `OP_CALL_DIRECT`, at i32 width) called on `n` terminates
with `CL_SUCCESS` (for every fuel of at least 76 iterations, in both builds) and
returns `n!`. -/
theorem c2_recursive_factorial (cfg : Config) (n fuel : Nat) (hn : n ≤ 12)
    (hfuel : 76 ≤ fuel) :
    (runFact cfg fuel n).status = some .CL_SUCCESS ∧
      (runFact cfg fuel n).ctxCell 1 = some (Nat.factorial n) := by
  have key : (runFact cfg 76 n).status = some .CL_SUCCESS ∧
      (runFact cfg 76 n).ctxCell 1 = some (Nat.factorial n) := by
    rcases cfg with ⟨_ | _⟩ <;> interval_cases n <;> decide
  have e : runFact cfg fuel n = runFact cfg 76 n :=
    exec_eq_of_status cfg factProgram 76 fuel _ _ key.1 hfuel
  rw [e]
  exact key

/-- C2, instances: `fact(5) = 120` and `fact(10) = 3628800`. -/
theorem c2_recursive_factorial_witness :
    (5 ≤ 12 ∧ 10 ≤ 12) ∧
      ((runFact ⟨true⟩ 76 5).status = some .CL_SUCCESS ∧
        (runFact ⟨true⟩ 76 5).ctxCell 1 = some 120) ∧
      ((runFact ⟨false⟩ 76 10).status = some .CL_SUCCESS ∧
        (runFact ⟨false⟩ 76 10).ctxCell 1 = some 3628800) :=
  ⟨by decide, c2_recursive_factorial ⟨true⟩ 5 76 (by decide) (by decide),
    c2_recursive_factorial ⟨false⟩ 10 76 (by decide) (by decide)⟩

/-! ### C4: arithmetic at the operand width -/

/-- C4, the code at the failing input: `OP_ADD.i64` on the cells `2^32` and `0` leaves 0
in the destination (the operands are read with `READ32` and the result is stored with
the 32-bit `WRITE64`), and the returned cell read at 64 bits is not
`(2^32 + 0) mod 2^64`; likewise `OP_SUB.i64` of `2^32 - 0` and `OP_MUL.i64` of
`2^32 * 1`. -/
theorem c4_arith_i64_wrong :
    (∀ dbg, (runBinop ⟨dbg⟩ .OP_ADD .i64 64 (2 ^ 32) 0).status = some .CL_SUCCESS ∧
        (runBinop ⟨dbg⟩ .OP_ADD .i64 64 (2 ^ 32) 0).ctxCell 0 = some 0) ∧
      (∀ dbg, (runBinop ⟨dbg⟩ .OP_SUB .i64 64 (2 ^ 32) 0).ctxCell 0 = some 0) ∧
      (∀ dbg, (runBinop ⟨dbg⟩ .OP_MUL .i64 64 (2 ^ 32) 1).ctxCell 0 = some 0) ∧
      READ .i64 0 ≠ toUnsigned 64 (arith .OP_ADD (READ .i64 (2 ^ 32)) (READ .i64 0)) ∧
      READ .i64 0 ≠ toUnsigned 64 (arith .OP_SUB (READ .i64 (2 ^ 32)) (READ .i64 0)) ∧
      READ .i64 0 ≠ toUnsigned 64 (arith .OP_MUL (READ .i64 (2 ^ 32)) (READ .i64 1)) := by
  decide

/-! ### C5: signed division overflow -/

/-- C5, the code at the failing input: `check_sdivops(MIN_I64, -1)` is false (the test is
on `op0 == -1 && op1 == MIN_I64`), and `OP_SDIV.i64(MIN_I64, -1) -> v0; OP_RET.i64(v0)`
returns `CL_SUCCESS` with result 0 in both builds (the 64-bit case reads its operands
with `READ32`); the same for `OP_SREM`. -/
theorem c5_sdiv_overflow_not_rejected :
    check_sdivops (-9223372036854775808) (-1) = false ∧
      check_sdivops (-1) (-9223372036854775808) = true ∧
      (∀ dbg, (runBinop ⟨dbg⟩ .OP_SDIV .i64 64 (2 ^ 63) (2 ^ 64 - 1)).status
          = some .CL_SUCCESS ∧
        (runBinop ⟨dbg⟩ .OP_SDIV .i64 64 (2 ^ 63) (2 ^ 64 - 1)).ctxCell 0 = some 0) ∧
      (∀ dbg, (runBinop ⟨dbg⟩ .OP_SREM .i64 64 (2 ^ 63) (2 ^ 64 - 1)).status
          = some .CL_SUCCESS) := by
  decide

/-! ### C9: select -/

/-- C9, the code at the failing input: `OP_SELECT.i64` with condition 1 and operands
`2^32`, `0` leaves 0 in the destination instead of `2^32`, and with condition 0 and
operands `0`, `2^32` likewise (the store is the 32-bit `WRITE64`). -/
theorem c9_select_i64_wrong :
    (∀ dbg, (runSelect ⟨dbg⟩ .i64 1 (2 ^ 32) 0).status = some .CL_SUCCESS ∧
        (runSelect ⟨dbg⟩ .i64 1 (2 ^ 32) 0).ctxCell 0 = some 0) ∧
      (∀ dbg, (runSelect ⟨dbg⟩ .i64 0 0 (2 ^ 32)).ctxCell 0 = some 0) ∧
      READ .i64 0 ≠ READ .i64 (2 ^ 32) := by
  decide

/-! ### C6: division by zero -/

theorem binopRead_eq_zero (w : Width) (c : Nat) (h : READ w c = 0) : binopRead w c = 0 := by
  cases w <;> simp only [READ, binopRead] at h ⊢ <;> try exact h
  simp only [READ64, READ32, Nat.reducePow] at h ⊢
  omega

theorem toSigned_zero (w : Width) : toSigned (cBits w) 0 = 0 := by
  cases w <;> simp [toSigned, cBits]

theorem check_sdivops_zero (x : Int) : check_sdivops x 0 = true := by
  simp [check_sdivops]

/-- C6: for each of `UDIV`, `UREM`, `SDIV`, `SREM` and every width, if the divisor
operand (read at the width of the instruction) is zero, the iteration returns
`CL_EBYTECODE` from `cli_vm_execute` with the state, hence the destination cell and
every other cell of the value region, unchanged. -/
theorem c6_division_by_zero (cfg : Config) (bc : Module) (s : State) (inst : Inst)
    (rest : List Inst) (p0 p1 c0 c1 cd : Nat) (hi : s.inst = inst :: rest)
    (hop : inst.opcode = .OP_UDIV ∨ inst.opcode = .OP_UREM ∨ inst.opcode = .OP_SDIV ∨
      inst.opcode = .OP_SREM)
    (hu : inst.u = .binop p0 p1) (h0 : CellAt s p0 c0) (h1 : CellAt s p1 c1)
    (hd : CellAt s inst.dest cd) (hz : READ inst.width c1 = 0) :
    step cfg bc s = .ret .CL_EBYTECODE s := by
  have hb : inst.opcode.isBinop = true := by
    rcases hop with h | h | h | h <;> rw [h] <;> rfl
  rw [step_binop_exec cfg bc s inst rest p0 p1 c0 c1 cd hi hb hu h0 h1 hd,
    binopRead_eq_zero _ _ hz]
  rcases hop with h | h | h | h <;>
    simp [h, binopOP, toSigned_zero, check_sdivops_zero, Chk.bind, finishWrite]

/-- C6, instance: `OP_SDIV.i16` with divisor cell 0 in a frame holding `[7, 0, 5]`. -/
theorem c6_division_by_zero_witness :
    READ .i16 0 = 0 ∧
      step ⟨true⟩ ⟨[]⟩ (midState [⟨.OP_SDIV, .i16, 16, 2, .binop 0 1⟩,
          ⟨.OP_RET, .i16, 16, 0, .unaryop 2⟩] [7, 0, 5]) =
        .ret .CL_EBYTECODE (midState [⟨.OP_SDIV, .i16, 16, 2, .binop 0 1⟩,
          ⟨.OP_RET, .i16, 16, 0, .unaryop 2⟩] [7, 0, 5]) :=
  ⟨by decide, c6_division_by_zero ⟨true⟩ ⟨[]⟩ _ ⟨.OP_SDIV, .i16, 16, 2, .binop 0 1⟩
    [⟨.OP_RET, .i16, 16, 0, .unaryop 2⟩] 0 1 7 0 5 rfl (Or.inr (Or.inr (Or.inl rfl))) rfl
    ⟨rfl, by decide⟩ ⟨rfl, by decide⟩ ⟨rfl, by decide⟩ (by decide)⟩

/-! ### C7: shift bound -/

theorem finishWrite_ne_ebytecode (cfg : Config) (s s1 : State) (vs : List Nat) :
    finishWrite cfg s (.ok vs) ≠ .ret .CL_EBYTECODE s1 := by
  unfold finishWrite advance
  simp only []
  cases cfg.CL_DEBUG with
  | false => simp
  | true =>
    cases (s.setValues vs).bb with
    | none => simp
    | some bb =>
      simp only [if_true]
      split <;> simp [bcfail]

/-- The shift opcodes, in terms of the amount the instruction reads (`READ32` in the
64-bit case): the iteration returns `CL_EBYTECODE` (with the state unchanged, so nothing
is written) when that amount is greater than `inst->type`, and it returns `CL_EBYTECODE`
only then: an amount less than or equal to `inst->type` is not rejected. At the widths
below 64 bits the amount read is the operand at the width of the instruction. -/
theorem shift_bound_as_read (cfg : Config) (bc : Module) (s : State) (inst : Inst)
    (rest : List Inst) (p0 p1 c0 c1 cd : Nat) (hi : s.inst = inst :: rest)
    (hop : inst.opcode = .OP_SHL ∨ inst.opcode = .OP_LSHR ∨ inst.opcode = .OP_ASHR)
    (hu : inst.u = .binop p0 p1) (h0 : CellAt s p0 c0) (h1 : CellAt s p1 c1)
    (hd : CellAt s inst.dest cd) :
    (inst.type < binopRead inst.width c1 → step cfg bc s = .ret .CL_EBYTECODE s) ∧
      (∀ s1, step cfg bc s = .ret .CL_EBYTECODE s1 → inst.type < binopRead inst.width c1) ∧
      (inst.width ≠ .i64 → binopRead inst.width c1 = READ inst.width c1) := by
  have hb : inst.opcode.isBinop = true := by
    rcases hop with h | h | h <;> rw [h] <;> rfl
  rw [step_binop_exec cfg bc s inst rest p0 p1 c0 c1 cd hi hb hu h0 h1 hd]
  refine ⟨?_, ?_, ?_⟩
  · intro hlt
    rcases hop with h | h | h <;> simp [h, binopOP, hlt, Chk.bind, finishWrite]
  · intro s1 hs1
    by_contra hge
    rcases hop with h | h | h <;>
      · simp only [h, binopOP, hge, if_false] at hs1
        split at hs1
        · simp [Chk.bind, finishWrite] at hs1
        · simp only [Chk.bind] at hs1
          exact finishWrite_ne_ebytecode _ _ _ _ hs1
  · intro hw
    cases hwd : inst.width <;> simp only [hwd, ne_eq, not_true_eq_false] at hw <;> rfl

/-- The scenario "shift bound": `OP_SHL.i8(1, 9)` with `inst->type = 8` is rejected with
`CL_EBYTECODE`. -/
theorem shift_bound_i8_example :
    8 < binopRead .i8 9 ∧
      step ⟨false⟩ ⟨[]⟩ (midState [⟨.OP_SHL, .i8, 8, 2, .binop 0 1⟩,
          ⟨.OP_RET, .i8, 8, 0, .unaryop 2⟩] [1, 9, 0]) =
        .ret .CL_EBYTECODE (midState [⟨.OP_SHL, .i8, 8, 2, .binop 0 1⟩,
          ⟨.OP_RET, .i8, 8, 0, .unaryop 2⟩] [1, 9, 0]) :=
  ⟨by decide, (shift_bound_as_read ⟨false⟩ ⟨[]⟩
    (midState [⟨.OP_SHL, .i8, 8, 2, .binop 0 1⟩, ⟨.OP_RET, .i8, 8, 0, .unaryop 2⟩] [1, 9, 0])
    ⟨.OP_SHL, .i8, 8, 2, .binop 0 1⟩
    [⟨.OP_RET, .i8, 8, 0, .unaryop 2⟩] 0 1 1 9 0 rfl (Or.inl rfl) rfl
    ⟨rfl, by decide⟩ ⟨rfl, by decide⟩ ⟨rfl, by decide⟩).1 (by decide)⟩

/-- C7, the code at the failing input: at i64 width with `inst->type = 64` the shift
amount `2^32` is greater than `inst->type`, yet `OP_SHL`, `OP_LSHR` and `OP_ASHR` are not
rejected: the 64-bit case reads the amount with `READ32`, finds 0, and the program
`[op.i64(c0, c1) -> v0; OP_RET.i64(v0)]` with constants `{1, 2^32}` returns `CL_SUCCESS`
with result 1 in both builds. -/
theorem c7_shift_i64_amount_truncated :
    64 < READ .i64 (2 ^ 32) ∧ binopRead .i64 (2 ^ 32) = 0 ∧
      (∀ dbg, (runBinop ⟨dbg⟩ .OP_SHL .i64 64 1 (2 ^ 32)).status = some .CL_SUCCESS ∧
        (runBinop ⟨dbg⟩ .OP_SHL .i64 64 1 (2 ^ 32)).ctxCell 0 = some 1) ∧
      (∀ dbg, (runBinop ⟨dbg⟩ .OP_LSHR .i64 64 1 (2 ^ 32)).status = some .CL_SUCCESS ∧
        (runBinop ⟨dbg⟩ .OP_LSHR .i64 64 1 (2 ^ 32)).ctxCell 0 = some 1) ∧
      (∀ dbg, (runBinop ⟨dbg⟩ .OP_ASHR .i64 64 1 (2 ^ 32)).status = some .CL_SUCCESS ∧
        (runBinop ⟨dbg⟩ .OP_ASHR .i64 64 1 (2 ^ 32)).ctxCell 0 = some 1) := by
  decide

/-! ### C8: sign extension followed by truncation -/

theorem step_cast_exec (cfg : Config) (bc : Module) (s : State) (inst : Inst)
    (rest : List Inst) (src mask size csrc cd : Nat) (rd : Nat → Nat)
    (hi : s.inst = inst :: rest) (hop : inst.opcode.isCast = true)
    (hu : inst.u = .cast src mask size) (hsize : CHOOSE size = .ok rd)
    (hsrc : CellAt s src csrc) (hd : CellAt s inst.dest cd) :
    step cfg bc s =
      finishWrite cfg s
        ((castRes inst.opcode (cBits inst.width) mask size (rd csrc)).bind fun res =>
          .ok (s.values.set inst.dest (binopWrite inst.width cd res))) := by
  have hstep : step cfg bc s = execCast cfg s inst := by
    unfold step
    rw [hi]
    simp only [step_dest_ok cfg s inst cd hd]
    cases hopc : inst.opcode <;> simp [hopc, Opcode.isCast] at hop ⊢
  rw [hstep]
  unfold execCast castOP
  rw [hu]
  simp only [hsize, readValue_cellAt cfg s _ _ _ hsrc, Chk.bind]
  cases castRes inst.opcode (cBits inst.width) mask size (rd csrc) with
  | ok res => simp only [writeValue_cellAt cfg s _ _ _ _ hd]
  | fail st => rfl
  | undefined => rfl

theorem SIGNEXT_eq (k r : Nat) (hk : k = 8 ∨ k = 16 ∨ k = 32) (hr : r < 2 ^ k) :
    SIGNEXT (r : Int) k = .ok (toSigned k r) := by
  rcases hk with rfl | rfl | rfl <;>
  · unfold SIGNEXT CLI_SRS toSigned toUnsigned
    norm_num at hr ⊢
    split_ifs <;> omega

theorem toSigned_mod_wide (k D r : Nat) (hk : k = 8 ∨ k = 16 ∨ k = 32)
    (hD : D = 16 ∨ D = 32 ∨ D = 64) (hkD : k < D) (hr : r < 2 ^ k) :
    toSigned D (r % 2 ^ D) = r := by
  rcases hk with rfl | rfl | rfl <;> rcases hD with rfl | rfl | rfl <;>
    first
    | omega
    | (unfold toSigned
       norm_num at hr ⊢
       split_ifs <;> omega)

theorem READ_lt (w : Width) (c : Nat) : READ w c < 2 ^ w.bits := by
  cases w <;> simp only [READ, READ1, READ8, READ16, READ32, READ64, Width.bits] <;> omega

theorem sext_value (sw dw : Width) (c : Nat)
    (hsw : sw = .i8 ∨ sw = .i16 ∨ sw = .i32) (hwide : sw.bits < dw.bits) :
    castRes .OP_SEXT (cBits dw) sw.bits sw.tag (READ sw c) =
      .ok (toUnsigned (cBits dw) (toSigned sw.bits (READ sw c))) := by
  have hk : sw.bits = 8 ∨ sw.bits = 16 ∨ sw.bits = 32 := by
    rcases hsw with h | h | h <;> subst h <;> simp [Width.bits]
  have hD : cBits dw = 16 ∨ cBits dw = 32 ∨ cBits dw = 64 := by
    rcases hsw with h | h | h <;> subst h <;> cases dw <;> simp [Width.bits, cBits] at hwide ⊢
  have hkD : sw.bits < cBits dw := by
    cases dw <;> simp only [Width.bits, cBits] at hwide ⊢ <;> omega
  have htag : sw.tag ≠ 0 := by
    rcases hsw with h | h | h <;> subst h <;> simp [Width.tag]
  unfold castRes
  simp only [htag, if_false, toSigned_mod_wide _ _ _ hk hD hkD (READ_lt sw c),
    SIGNEXT_eq _ _ hk (READ_lt sw c), Chk.bind]

theorem sext_trunc_arith (sw dw : Width) (cq cp : Nat)
    (hsw : sw = .i8 ∨ sw = .i16 ∨ sw = .i32) (hwide : sw.bits < dw.bits) :
    READ dw (binopWrite dw cq (toUnsigned (cBits dw) (toSigned sw.bits (READ sw cp))))
      % 2 ^ cBits sw = READ sw cp := by
  rcases hsw with h | h | h <;> subst h <;> cases dw <;>
    simp only [Width.bits, Nat.lt_irrefl, Nat.reduceLT] at hwide <;>
    · simp only [READ, READ8, READ16, READ32, READ64, binopWrite, WRITE16, WRITE32, WRITE64,
        cBits, Width.bits, toUnsigned, toSigned]
      norm_num
      split_ifs <;> omega

theorem sext_read_back (sw dw : Width) (cq cp : Nat)
    (hsw : sw = .i8 ∨ sw = .i16 ∨ sw = .i32) (hwide : sw.bits < dw.bits) (h64 : dw ≠ .i64) :
    READ dw (binopWrite dw cq (toUnsigned (cBits dw) (toSigned sw.bits (READ sw cp)))) =
      toUnsigned dw.bits (toSigned sw.bits (READ sw cp)) := by
  rcases hsw with h | h | h <;> subst h <;> cases dw <;>
    simp only [Width.bits, Nat.lt_irrefl, Nat.reduceLT, ne_eq, not_true_eq_false] at hwide h64 <;>
    · simp only [READ, READ8, READ16, READ32, READ64, binopWrite, WRITE16, WRITE32, WRITE64,
        cBits, Width.bits, toUnsigned, toSigned]
      norm_num
      split_ifs <;> omega

theorem READ_binopWrite_narrow (sw : Width) (c x : Nat)
    (hsw : sw = .i8 ∨ sw = .i16 ∨ sw = .i32) :
    READ sw (binopWrite sw c (x % 2 ^ cBits sw)) = x % 2 ^ cBits sw := by
  rcases hsw with h | h | h <;> subst h <;>
    · simp only [READ, READ8, READ16, READ32, binopWrite, WRITE8, WRITE16, WRITE32, cBits]
      omega

theorem CHOOSE_tag (w : Width) : CHOOSE w.tag = .ok (READ w) := by
  cases w <;> rfl

theorem lt_length_of_getElem? (l : List Nat) (p c : Nat) (h : l[p]? = some c) :
    p < l.length := by
  by_contra hc
  rw [List.getElem?_eq_none (by omega)] at h
  exact absurd h (by simp)

theorem getElem?_set_self_of_cell (l : List Nat) (p c x : Nat) (h : l[p]? = some c) :
    (l.set p x)[p]? = some x := by
  have := lt_length_of_getElem? l p c h
  simp [List.getElem?_set, this]

/-- C8: for every source width `sw` in `{i8, i16, i32}` and every wider destination width
`dw`, `SEXT` from `sw` to `dw` (mask equal to the bit count of `sw`) followed by `TRUNC`
from `dw` back to `sw` runs two iterations and leaves in the final destination, read at
width `sw`, the source value read at width `sw`; for `dw` below 64 bits the intermediate
cell read at width `dw` is the sign extension of that value. -/
theorem c8_sext_trunc_roundtrip (cfg : Config) (bc : Module) (s : State) (sw dw : Width)
    (ty1 ty2 p q r mask2 cp cq cr : Nat) (rest : List Inst)
    (hsw : sw = .i8 ∨ sw = .i16 ∨ sw = .i32) (hwide : sw.bits < dw.bits)
    (hi : s.inst = ⟨.OP_SEXT, dw, ty1, q, .cast p sw.bits sw.tag⟩ ::
      ⟨.OP_TRUNC, sw, ty2, r, .cast q mask2 dw.tag⟩ :: rest)
    (hadv : cfg.CL_DEBUG = true → ∃ bb, s.bb = some bb ∧ s.bb_inst + 2 < bb.numInsts)
    (hp : CellAt s p cp) (hq : CellAt s q cq) (hr : CellAt s r cr) :
    ∃ s1 s2 c1 c2, step cfg bc s = .next s1 ∧ step cfg bc s1 = .next s2 ∧
      s1.values[q]? = some c1 ∧
      (dw ≠ .i64 → READ dw c1 = toUnsigned dw.bits (toSigned sw.bits (READ sw cp))) ∧
      s2.values[r]? = some c2 ∧ READ sw c2 = READ sw cp := by
  have hadv1 : CanAdvance cfg s := by
    intro hc
    obtain ⟨bb, h1, h2⟩ := hadv hc
    exact ⟨bb, h1, by omega⟩
  have hstep1 := step_cast_exec cfg bc s ⟨.OP_SEXT, dw, ty1, q, .cast p sw.bits sw.tag⟩ _ p
    sw.bits sw.tag cp cq (READ sw) hi rfl rfl (CHOOSE_tag sw) hp hq
  simp only [sext_value sw dw cp hsw hwide, Chk.bind] at hstep1
  rw [finishWrite_ok cfg s _ hadv1] at hstep1
  generalize hc1 : binopWrite dw cq (toUnsigned (cBits dw) (toSigned sw.bits (READ sw cp)))
    = c1 at hstep1
  generalize hs1 : s.afterWrite (s.values.set q c1) = s1 at hstep1
  have hs1_inst : s1.inst = ⟨.OP_TRUNC, sw, ty2, r, .cast q mask2 dw.tag⟩ :: rest := by
    rw [← hs1, afterWrite_inst, hi]; rfl
  have hs1_vals : s1.values = s.values.set q c1 := by rw [← hs1, afterWrite_values]
  have hs1_func : s1.func = s.func := by rw [← hs1, afterWrite_func]
  have hadv2 : CanAdvance cfg s1 := by
    intro hc
    obtain ⟨bb, h1, h2⟩ := hadv hc
    refine ⟨bb, ?_, ?_⟩
    · rw [← hs1, afterWrite_bb]; exact h1
    · rw [← hs1, afterWrite_bb_inst]; omega
  have hq1 : CellAt s1 q c1 :=
    ⟨by rw [hs1_vals]; exact getElem?_set_self_of_cell _ _ _ _ hq.1, by rw [hs1_func]; exact hq.2⟩
  obtain ⟨cr1, hr1⟩ : ∃ cr1, CellAt s1 r cr1 := by
    by_cases hrq : r = q
    · exact ⟨c1, by rw [hrq]; exact hq1⟩
    · refine ⟨cr, ?_, by rw [hs1_func]; exact hr.2⟩
      rw [hs1_vals, List.getElem?_set_ne (fun h => hrq h.symm)]
      exact hr.1
  have hstep2 := step_cast_exec cfg bc s1 ⟨.OP_TRUNC, sw, ty2, r, .cast q mask2 dw.tag⟩ rest q
    mask2 dw.tag c1 cr1 (READ dw) hs1_inst rfl rfl (CHOOSE_tag dw) hq1 hr1
  simp only [castRes, Chk.bind] at hstep2
  rw [finishWrite_ok cfg s1 _ hadv2] at hstep2
  refine ⟨s1, _, c1, binopWrite sw cr1 (READ dw c1 % 2 ^ cBits sw), hstep1, hstep2, hq1.1,
    ?_, ?_, ?_⟩
  · intro h64
    rw [← hc1]
    exact sext_read_back sw dw cq cp hsw hwide h64
  · rw [afterWrite_values]
    exact getElem?_set_self_of_cell _ _ _ _ hr1.1
  · rw [READ_binopWrite_narrow sw _ _ hsw, ← hc1]
    exact sext_trunc_arith sw dw cq cp hsw hwide

/-- C8, instance: `SEXT i8 -> i32` of `0xFF` with mask 8 produces `0xFFFFFFFF`, and
`TRUNC.i8` of that yields `0xFF`. -/
theorem c8_sext_trunc_roundtrip_witness :
    (Width.i8.bits < Width.i32.bits) ∧
      ∃ s1 s2 c1 c2,
        step ⟨true⟩ ⟨[]⟩ (midState [⟨.OP_SEXT, .i32, 32, 1, .cast 0 8 1⟩,
          ⟨.OP_TRUNC, .i8, 8, 2, .cast 1 0 3⟩, ⟨.OP_RET, .i8, 8, 0, .unaryop 2⟩]
          [0xFF, 0, 0]) = .next s1 ∧
        step ⟨true⟩ ⟨[]⟩ s1 = .next s2 ∧
        s1.values[1]? = some c1 ∧ (Width.i32 ≠ Width.i64 → READ .i32 c1 = 0xFFFFFFFF) ∧
        s2.values[2]? = some c2 ∧ READ .i8 c2 = 0xFF :=
  ⟨by decide, c8_sext_trunc_roundtrip ⟨true⟩ ⟨[]⟩
    (midState [⟨.OP_SEXT, .i32, 32, 1, .cast 0 8 1⟩, ⟨.OP_TRUNC, .i8, 8, 2, .cast 1 0 3⟩,
      ⟨.OP_RET, .i8, 8, 0, .unaryop 2⟩] [0xFF, 0, 0])
    .i8 .i32 32 8 0 1 2 0 0xFF 0 0 [⟨.OP_RET, .i8, 8, 0, .unaryop 2⟩] (Or.inl rfl) (by decide)
    rfl (fun _ => ⟨_, rfl, by decide⟩) ⟨rfl, by decide⟩ ⟨rfl, by decide⟩ ⟨rfl, by decide⟩⟩

/-! ### C4 and C9 at the widths below 64 bits -/

theorem step_select_exec (cfg : Config) (bc : Module) (s : State) (inst : Inst)
    (rest : List Inst) (p0 p1 p2 c0 c1 c2 cd : Nat) (hi : s.inst = inst :: rest)
    (hop : inst.opcode = .OP_SELECT) (hu : inst.u = .three p0 p1 p2)
    (h0 : CellAt s p0 c0) (h1 : CellAt s p1 c1) (h2 : CellAt s p2 c2)
    (hd : CellAt s inst.dest cd) :
    step cfg bc s =
      finishWrite cfg s (.ok (s.values.set inst.dest
        (binopWrite inst.width cd
          (if READ1 c0 ≠ 0 then READ inst.width c1 else READ inst.width c2)))) := by
  unfold step
  rw [hi]
  simp only [step_dest_ok cfg s inst cd hd, hop, execSelect, hu, Bool.false_eq_true, if_false,
    readValue_cellAt cfg s _ _ _ h0, readValue_cellAt cfg s _ _ _ h1,
    readValue_cellAt cfg s _ _ _ h2, Chk.bind, writeValue_cellAt cfg s _ _ _ _ hd]

/-- The arithmetic opcodes at the widths i1, i8, i16, i32: the destination cell read at
the width of the instruction is the mathematical result modulo `2^w` (the part of C4
the code satisfies). -/
theorem arith_narrow_widths (cfg : Config) (bc : Module) (s : State) (inst : Inst)
    (rest : List Inst) (p0 p1 c0 c1 cd : Nat) (hi : s.inst = inst :: rest)
    (hadv : CanAdvance cfg s)
    (hop : inst.opcode = .OP_ADD ∨ inst.opcode = .OP_SUB ∨ inst.opcode = .OP_MUL)
    (hw : inst.width ≠ .i64) (hu : inst.u = .binop p0 p1) (h0 : CellAt s p0 c0)
    (h1 : CellAt s p1 c1) (hd : CellAt s inst.dest cd) :
    ∃ c, step cfg bc s = .next (s.afterWrite (s.values.set inst.dest c)) ∧
      READ inst.width c =
        toUnsigned inst.width.bits
          (arith inst.opcode (READ inst.width c0) (READ inst.width c1)) := by
  have hb : inst.opcode.isBinop = true := by
    rcases hop with h | h | h <;> rw [h] <;> rfl
  rw [step_binop_exec cfg bc s inst rest p0 p1 c0 c1 cd hi hb hu h0 h1 hd]
  rcases hop with h | h | h <;> rw [h] <;> simp only [binopOP, Chk.bind] <;>
    rw [finishWrite_ok cfg s _ hadv] <;> refine ⟨_, rfl, ?_⟩ <;>
    cases hwd : inst.width <;> simp only [hwd, ne_eq, not_true_eq_false] at hw <;>
    · simp only [binopRead, READ]
      generalize READ1 c0 = x
      generalize READ1 c1 = y
      generalize READ8 c0 = x
      generalize READ8 c1 = y
      generalize READ16 c0 = x
      generalize READ16 c1 = y
      generalize READ32 c0 = x
      generalize READ32 c1 = y
      simp only [READ1, READ8, READ16, READ32, binopWrite, WRITE8, WRITE16,
        WRITE32, cBits, Width.bits, toUnsigned, arith]
      push_cast
      omega

/-- The opcode `SELECT` at the widths i1, i8, i16, i32: the destination cell read at the
width of the instruction is the first operand when the condition reads 1 and the second
when it reads 0 (the part of C9 the code satisfies). -/
theorem select_narrow_widths (cfg : Config) (bc : Module) (s : State) (inst : Inst)
    (rest : List Inst) (p0 p1 p2 c0 c1 c2 cd : Nat) (hi : s.inst = inst :: rest)
    (hadv : CanAdvance cfg s) (hop : inst.opcode = .OP_SELECT) (hw : inst.width ≠ .i64)
    (hu : inst.u = .three p0 p1 p2) (h0 : CellAt s p0 c0) (h1 : CellAt s p1 c1)
    (h2 : CellAt s p2 c2) (hd : CellAt s inst.dest cd) :
    ∃ c, step cfg bc s = .next (s.afterWrite (s.values.set inst.dest c)) ∧
      (READ .i1 c0 = 1 → READ inst.width c = READ inst.width c1) ∧
      (READ .i1 c0 = 0 → READ inst.width c = READ inst.width c2) := by
  rw [step_select_exec cfg bc s inst rest p0 p1 p2 c0 c1 c2 cd hi hop hu h0 h1 h2 hd,
    finishWrite_ok cfg s _ hadv]
  refine ⟨_, rfl, ?_, ?_⟩ <;> intro hc <;> simp only [READ] at hc <;>
    simp only [hc, ne_eq, one_ne_zero, not_false_eq_true, not_true_eq_false, if_true,
      if_false] <;>
    cases hwd : inst.width <;> simp only [hwd, ne_eq, not_true_eq_false] at hw <;>
    · simp only [READ, READ1, READ8, READ16, READ32, binopWrite, WRITE8, WRITE16, WRITE32]
      omega

/-! ### C10: value indices out of range -/

theorem readValue_bad (cfg : Config) (func : Func) (values : List Nat) (rd : Nat → Nat)
    (p : Nat) (hdbg : cfg.CL_DEBUG = true) (hp : func.numValues + func.numConstants ≤ p) :
    readValue cfg func values rd p = .fail .CL_EARG := by
  simp [readValue, CHECK_GT, hdbg, hp, Chk.bind, bcfail]

theorem writeValue_bad (cfg : Config) (func : Func) (values : List Nat)
    (wr : Nat → Nat → Nat) (p x : Nat) (hdbg : cfg.CL_DEBUG = true)
    (hp : func.numValues + func.numConstants ≤ p) :
    writeValue cfg func values wr p x = .fail .CL_EARG := by
  simp [writeValue, CHECK_GT, hdbg, hp, Chk.bind, bcfail]

theorem readValue_good (cfg : Config) (func : Func) (values : List Nat) (rd : Nat → Nat)
    (p : Nat) (hlen : func.numValues + func.numConstants ≤ values.length)
    (hp : ¬ func.numValues + func.numConstants ≤ p) :
    ∃ c, readValue cfg func values rd p = .ok c := by
  have h1 : p < values.length := by omega
  refine ⟨rd values[p], ?_⟩
  simp [readValue, CHECK_GT, hp, Chk.bind, List.getElem?_eq_getElem h1]

theorem execBinop_bad (cfg : Config) (s : State) (inst : Inst) (wr : Nat → Nat → Nat)
    (p0 p1 : Nat) (hdbg : cfg.CL_DEBUG = true)
    (hlen : s.func.numValues + s.func.numConstants ≤ s.values.length)
    (hu : inst.u = .binop p0 p1)
    (hbad : s.func.numValues + s.func.numConstants ≤ p0 ∨
      s.func.numValues + s.func.numConstants ≤ p1) :
    execBinop cfg s inst wr = .ret .CL_EARG s := by
  unfold execBinop
  rw [hu]
  by_cases h0 : s.func.numValues + s.func.numConstants ≤ p0
  · simp [readValue_bad cfg _ _ _ _ hdbg h0, Chk.bind, finishWrite]
  · obtain ⟨c, hc⟩ := readValue_good cfg s.func s.values (binopRead inst.width) p0 hlen h0
    have h1 := hbad.resolve_left h0
    simp [hc, readValue_bad cfg _ _ _ _ hdbg h1, Chk.bind, finishWrite]

theorem execCopy_bad (cfg : Config) (s : State) (inst : Inst)
    (p0 p1 : Nat) (hdbg : cfg.CL_DEBUG = true)
    (hlen : s.func.numValues + s.func.numConstants ≤ s.values.length)
    (hu : inst.u = .binop p0 p1)
    (hbad : s.func.numValues + s.func.numConstants ≤ p0 ∨
      s.func.numValues + s.func.numConstants ≤ p1) :
    execCopy cfg s inst = .ret .CL_EARG s := by
  unfold execCopy
  rw [hu]
  by_cases h0 : s.func.numValues + s.func.numConstants ≤ p0
  · simp [readValue_bad cfg _ _ _ _ hdbg h0, Chk.bind, finishWrite]
  · obtain ⟨c, hc⟩ := readValue_good cfg s.func s.values (binopRead inst.width) p0 hlen h0
    have h1 := hbad.resolve_left h0
    simp [hc, writeValue_bad cfg _ _ _ _ _ hdbg h1, Chk.bind, finishWrite]

theorem execCast_bad (cfg : Config) (s : State) (inst : Inst)
    (source mask size : Nat) (hdbg : cfg.CL_DEBUG = true)
    (hu : inst.u = .cast source mask size) (hsize : size ≤ 4)
    (hbad : s.func.numValues + s.func.numConstants ≤ source) :
    execCast cfg s inst = .ret .CL_EARG s := by
  unfold execCast castOP
  rw [hu]
  have hch : ∃ rd, CHOOSE size = .ok rd := by
    have : size = 0 ∨ size = 1 ∨ size = 2 ∨ size = 3 ∨ size = 4 := by omega
    rcases this with h | h | h | h | h <;> subst h <;> exact ⟨_, rfl⟩
  obtain ⟨rd, hrd⟩ := hch
  simp [hrd, readValue_bad cfg _ _ _ _ hdbg hbad, Chk.bind, finishWrite]

theorem execSelect_bad (cfg : Config) (s : State) (inst : Inst)
    (p0 p1 p2 : Nat) (hdbg : cfg.CL_DEBUG = true)
    (hlen : s.func.numValues + s.func.numConstants ≤ s.values.length)
    (hu : inst.u = .three p0 p1 p2)
    (hbad : s.func.numValues + s.func.numConstants ≤ p0 ∨
      s.func.numValues + s.func.numConstants ≤ p1 ∨
      s.func.numValues + s.func.numConstants ≤ p2) :
    execSelect cfg s inst = .ret .CL_EARG s := by
  unfold execSelect
  rw [hu]
  by_cases h0 : s.func.numValues + s.func.numConstants ≤ p0
  · simp [readValue_bad cfg _ _ _ _ hdbg h0, Chk.bind, finishWrite]
  · obtain ⟨c, hc⟩ := readValue_good cfg s.func s.values READ1 p0 hlen h0
    by_cases h1 : s.func.numValues + s.func.numConstants ≤ p1
    · simp [hc, readValue_bad cfg _ _ _ _ hdbg h1, Chk.bind, finishWrite]
    · obtain ⟨c1, hc1⟩ := readValue_good cfg s.func s.values (READ inst.width) p1 hlen h1
      have h2 := (hbad.resolve_left h0).resolve_left h1
      simp [hc, hc1, readValue_bad cfg _ _ _ _ hdbg h2, Chk.bind, finishWrite]

/-- C10 as stated fails: in a release build `OP_ADD` with an operand index out of range
is not answered with `CL_EARG` (the checks are compiled out and the cell outside the
region is accessed), and in a debug build a branch condition, a return source and a call
argument out of range are read without any check. -/
theorem c10_unchecked_index_counterexample :
    step ⟨false⟩ ⟨[]⟩ (midState [⟨.OP_ADD, .i32, 32, 0, .binop 0 5⟩,
        ⟨.OP_RET, .i32, 32, 0, .unaryop 0⟩] [1]) = .undefined ∧
      step ⟨true⟩ ⟨[]⟩ (midState [⟨.OP_BRANCH, .i1, 0, 0, .branch 5 0 0⟩] [1]) = .undefined ∧
      step ⟨true⟩ ⟨[]⟩ (midState [⟨.OP_RET, .i32, 32, 0, .unaryop 5⟩] [1]) = .undefined ∧
      step ⟨true⟩ factProgram (midState [⟨.OP_CALL_DIRECT, .i32, 32, 0, .ops 0 [5]⟩,
        ⟨.OP_RET, .i32, 32, 0, .unaryop 0⟩] [1]) = .undefined := by
  decide

/-- C10, amended: in a debug build (`CL_DEBUG` defined), when the current region has
`numValues + numConstants` cells, for every instruction whose destination index, or, for
a binary, compare, cast, select or copy instruction, any operand index it reads or
writes, is not less than `numValues + numConstants` of the current function, the
iteration returns `CL_EARG` with the state unchanged: no cell outside the region is read
or written. -/
theorem c10_checked_index_out_of_range (cfg : Config) (bc : Module) (s : State) (inst : Inst)
    (rest : List Inst) (hdbg : cfg.CL_DEBUG = true) (hi : s.inst = inst :: rest)
    (hlen : s.func.numValues + s.func.numConstants ≤ s.values.length)
    (hbad : ∃ p ∈ inst.checkedIndices, s.func.numValues + s.func.numConstants ≤ p) :
    step cfg bc s = .ret .CL_EARG s := by
  unfold step
  rw [hi]
  simp only [hdbg, Bool.true_and, decide_eq_true_eq]
  by_cases hdest : s.func.numValues + s.func.numConstants ≤ inst.dest
  · simp [hdest, bcfail]
  · rw [if_neg hdest]
    obtain ⟨p, hp, hpbad⟩ := hbad
    unfold Inst.checkedIndices at hp
    rcases List.mem_cons.mp hp with h | hp
    · exact absurd (h ▸ hpbad) hdest
    · cases hopc : inst.opcode <;>
        simp only [hopc, Opcode.isBinop, Opcode.isIcmp, Opcode.isCast, Bool.or_self,
          Bool.or_false, Bool.or_true, Bool.false_or, Bool.true_or, if_true, if_false,
          Bool.false_eq_true, beq_self_eq_true, reduceCtorEq, beq_iff_eq,
          List.not_mem_nil] at hp ⊢ <;>
        cases hu : inst.u <;> simp only [hu, List.not_mem_nil] at hp <;>
        first
        | (apply execBinop_bad cfg s inst _ _ _ hdbg hlen hu
           simp only [List.mem_cons, List.not_mem_nil, or_false] at hp
           rcases hp with h | h <;> subst h <;> simp [hpbad])
        | (apply execCopy_bad cfg s inst _ _ hdbg hlen hu
           simp only [List.mem_cons, List.not_mem_nil, or_false] at hp
           rcases hp with h | h <;> subst h <;> simp [hpbad])
        | (split at hp
           · rename_i hsz
             simp only [List.mem_cons, List.not_mem_nil, or_false] at hp
             subst hp
             exact execCast_bad cfg s inst _ _ _ hdbg hu hsz hpbad
           · simp at hp)
        | (apply execSelect_bad cfg s inst _ _ _ hdbg hlen hu
           simp only [List.mem_cons, List.not_mem_nil, or_false] at hp
           rcases hp with h | h | h <;> subst h <;> simp [hpbad])

/-- C10, amended, instance: in a debug build `OP_ADD.i32` with the operand index 5 in a
function of one value returns `CL_EARG`. -/
theorem c10_checked_index_out_of_range_witness :
    (∃ p ∈ Inst.checkedIndices ⟨.OP_ADD, .i32, 32, 0, .binop 0 5⟩, 1 + 0 ≤ p) ∧
      step ⟨true⟩ ⟨[]⟩ (midState [⟨.OP_ADD, .i32, 32, 0, .binop 0 5⟩,
          ⟨.OP_RET, .i32, 32, 0, .unaryop 0⟩] [1]) =
        .ret .CL_EARG (midState [⟨.OP_ADD, .i32, 32, 0, .binop 0 5⟩,
          ⟨.OP_RET, .i32, 32, 0, .unaryop 0⟩] [1]) :=
  ⟨⟨5, by decide, by decide⟩,
    c10_checked_index_out_of_range ⟨true⟩ ⟨[]⟩
      (midState [⟨.OP_ADD, .i32, 32, 0, .binop 0 5⟩, ⟨.OP_RET, .i32, 32, 0, .unaryop 0⟩] [1])
      ⟨.OP_ADD, .i32, 32, 0, .binop 0 5⟩ [⟨.OP_RET, .i32, 32, 0, .unaryop 0⟩] rfl rfl
      (by decide) ⟨5, by decide, by decide⟩⟩

/-! ### The spill stack -/

theorem load16_store16_eq (data : List (Nat × Nat)) (off v : Nat) :
    load16 (store16 data off v) off = v % 2 ^ 16 := by
  simp [load16, store16]

theorem load16_filter_ne (data : List (Nat × Nat)) (o off : Nat) (h : off ≠ o) :
    load16 (data.filter (fun e => e.1 != o)) off = load16 data off := by
  induction data with
  | nil => rfl
  | cons e es ih =>
    by_cases he : e.1 = o
    · have h1 : (e.1 != o) = false := by simp [he]
      have h2 : (e.1 == off) = false := by simp [he]; exact fun h3 => h h3.symm
      simp only [List.filter_cons, h1, Bool.false_eq_true, if_false]
      rw [ih]
      simp [load16, List.find?_cons, h2]
    · have h1 : (e.1 != o) = true := by simp [he]
      simp only [List.filter_cons, h1, if_true]
      unfold load16 at ih ⊢
      simp only [List.find?_cons]
      cases hoff : (e.1 == off) with
      | true => rfl
      | false => exact ih

theorem load16_store16_ne (data : List (Nat × Nat)) (o off v : Nat) (h : off ≠ o) :
    load16 (store16 data o v) off = load16 data off := by
  have h2 : (o == off) = false := by simp; exact fun h3 => h h3.symm
  unfold store16
  rw [← load16_filter_ne data o off h]
  simp [load16, List.find?_cons, h2]

theorem load16_lt (data : List (Nat × Nat)) (off : Nat) (h : ∀ e ∈ data, e.2 < 2 ^ 16) :
    load16 data off < 2 ^ 16 := by
  unfold load16
  cases hf : data.find? (fun e => e.1 == off) with
  | none => simp
  | some e => exact h e (List.mem_of_find?_eq_some hf)

theorem store16_lt (data : List (Nat × Nat)) (off v : Nat) (h : ∀ e ∈ data, e.2 < 2 ^ 16) :
    ∀ e ∈ store16 data off v, e.2 < 2 ^ 16 := by
  intro e he
  unfold store16 at he
  rcases List.mem_cons.mp he with h1 | h1
  · rw [h1]; exact Nat.mod_lt _ (by norm_num)
  · exact h e (List.mem_of_mem_filter h1)

theorem allocSize_facts (n : Nat) : allocSize n % 8 = 0 ∧ allocSize n < 2 ^ 32 := by
  unfold allocSize
  omega

theorem cli_stack_alloc_unfold (s : Stack) (n : Nat) :
    cli_stack_alloc s n =
      (let fresh : AllocResult :=
        if 16384 ≤ allocSize n then .null s
        else if (allocSize n + 2 ^ 16 - 2) % 2 ^ 16 + 2 ≤ 16384 then
          .ok ⟨s.chunk.length, 0⟩
            ⟨⟨allocSize n, store16 [] ((allocSize n + 2 ^ 16 - 2) % 2 ^ 16) s.last_size⟩
              :: s.chunk, (allocSize n / 8) % 2 ^ 16⟩
        else .undefined
      match s.chunk with
      | [] => fresh
      | chunk :: prev =>
        if (chunk.used + allocSize n) % 2 ^ 32 ≤ 16384 then
          if chunk.used + (allocSize n + 2 ^ 16 - 2) % 2 ^ 16 + 2 ≤ 16384 then
            .ok ⟨prev.length, chunk.used⟩
              ⟨⟨(chunk.used + allocSize n) % 2 ^ 32,
                  store16 chunk.data (chunk.used + (allocSize n + 2 ^ 16 - 2) % 2 ^ 16)
                    s.last_size⟩ :: prev, (allocSize n / 8) % 2 ^ 16⟩
          else .undefined
        else fresh) := by
  rfl

/-- A successful allocation on a well-formed stack, case by case. -/
theorem alloc_ok_cases (s s1 : Stack) (n : Nat) (p : Ptr) (hinv : StackInv s)
    (h : cli_stack_alloc s n = .ok p s1) :
    8 ≤ allocSize n ∧ allocSize n ≤ 16384 ∧ s1.last_size = allocSize n / 8 ∧
      ((∃ c prev, s.chunk = c :: prev ∧ c.used + allocSize n ≤ 16384 ∧
          p = ⟨prev.length, c.used⟩ ∧
          s1.chunk = ⟨c.used + allocSize n,
            store16 c.data (c.used + allocSize n - 2) s.last_size⟩ :: prev) ∨
        (p = ⟨s.chunk.length, 0⟩ ∧ allocSize n < 16384 ∧
          s1.chunk = ⟨allocSize n, store16 [] (allocSize n - 2) s.last_size⟩ :: s.chunk)) := by
  rw [cli_stack_alloc_unfold] at h
  obtain ⟨hB8, hB32⟩ := allocSize_facts n
  generalize allocSize n = B at h hB8 hB32 ⊢
  have hfresh : ∀ (p : Ptr) (s1 : Stack),
      (if 16384 ≤ B then AllocResult.null s
        else if (B + 2 ^ 16 - 2) % 2 ^ 16 + 2 ≤ 16384 then
          AllocResult.ok ⟨s.chunk.length, 0⟩
            ⟨⟨B, store16 [] ((B + 2 ^ 16 - 2) % 2 ^ 16) s.last_size⟩ :: s.chunk,
              (B / 8) % 2 ^ 16⟩
        else AllocResult.undefined) = AllocResult.ok p s1 →
      8 ≤ B ∧ B ≤ 16384 ∧ s1.last_size = B / 8 ∧
        (p = ⟨s.chunk.length, 0⟩ ∧ B < 16384 ∧
          s1.chunk = ⟨B, store16 [] (B - 2) s.last_size⟩ :: s.chunk) := by
    intro p s1 hf
    split at hf
    · exact absurd hf (by simp)
    · split at hf
      · rename_i h1 h2
        injection hf with hp hs
        subst hp hs
        have e1 : (B + 2 ^ 16 - 2) % 2 ^ 16 = B - 2 := by omega
        have e2 : B / 8 % 2 ^ 16 = B / 8 := by omega
        refine ⟨by omega, by omega, e2, rfl, by omega, ?_⟩
        simp only [e1]
      · exact absurd hf (by simp)
  cases hc : s.chunk with
  | nil =>
    rw [hc] at h
    simp only [] at h
    have := hfresh p s1 (by rw [hc]; exact h)
    rw [hc] at this
    exact ⟨this.1, this.2.1, this.2.2.1, Or.inr this.2.2.2⟩
  | cons c prev =>
    rw [hc] at h
    simp only [] at h
    have hcinv : ChunkInv c := hinv.2 c (by rw [hc]; exact List.mem_cons_self _ _)
    obtain ⟨hu0, hu1, hu8, _⟩ := hcinv
    simp only [STACK_CHUNKSIZE] at hu1
    split at h
    · split at h
      · rename_i h1 h2
        injection h with hp hs
        subst hp hs
        have e0 : B ≤ 16384 ∧ 8 ≤ B := by omega
        have e1 : (B + 2 ^ 16 - 2) % 2 ^ 16 = B - 2 := by omega
        have e2 : B / 8 % 2 ^ 16 = B / 8 := by omega
        have e3 : (c.used + B) % 2 ^ 32 = c.used + B := by omega
        have e4 : c.used + (B - 2) = c.used + B - 2 := by omega
        refine ⟨e0.2, e0.1, e2, Or.inl ⟨c, prev, rfl, by omega, rfl, ?_⟩⟩
        simp only [e1, e3, e4]
      · exact absurd h (by simp)
    · have := hfresh p s1 (by rw [hc]; exact h)
      rw [hc] at this
      exact ⟨this.1, this.2.1, this.2.2.1, Or.inr this.2.2.2⟩
theorem cli_stack_free_unfold (s : Stack) (p : Ptr) (c : StackChunk) (prev : List StackChunk)
    (hc : s.chunk = c :: prev) :
    cli_stack_free s p =
      if ¬ (p.chunk = prev.length ∧ c.used = p.off + s.last_size * 8) then some s
      else if c.used < 2 then none
      else if c.used < s.last_size * 8 then some s
      else if c.used - s.last_size * 8 = 0 then
        some ⟨prev, load16 c.data (c.used - 2)⟩
      else some ⟨{ c with used := c.used - s.last_size * 8 } :: prev,
        load16 c.data (c.used - 2)⟩ := by
  unfold cli_stack_free
  rw [hc]
  rfl

theorem stackInv_alloc (s s1 : Stack) (n : Nat) (p : Ptr) (hinv : StackInv s)
    (h : cli_stack_alloc s n = .ok p s1) : StackInv s1 := by
  obtain ⟨h8, h16, hls, hcases⟩ := alloc_ok_cases s s1 n p hinv h
  obtain ⟨hB8, _⟩ := allocSize_facts n
  refine ⟨by rw [hls]; omega, ?_⟩
  rcases hcases with ⟨c, prev, hc, hfit, _, hs1⟩ | ⟨_, hlt, hs1⟩
  · rw [hs1]
    have hcinv : ChunkInv c := hinv.2 c (by rw [hc]; exact List.mem_cons_self _ _)
    intro d hd
    rcases List.mem_cons.mp hd with hd | hd
    · subst hd
      exact ⟨by simp only []; omega, by simp only [STACK_CHUNKSIZE]; omega,
        by simp only []; have := hcinv.2.2.1; omega, store16_lt _ _ _ hcinv.2.2.2⟩
    · exact hinv.2 d (by rw [hc]; exact List.mem_cons_of_mem _ hd)
  · rw [hs1]
    intro d hd
    rcases List.mem_cons.mp hd with hd | hd
    · subst hd
      exact ⟨by simp only []; omega, by simp only [STACK_CHUNKSIZE]; omega,
        by simp only []; omega, store16_lt _ _ _ (by simp)⟩
    · exact hinv.2 d hd

theorem stackInv_free (s s1 : Stack) (p : Ptr) (hinv : StackInv s)
    (h : cli_stack_free s p = some s1) : StackInv s1 := by
  cases hc : s.chunk with
  | nil =>
    unfold cli_stack_free at h
    rw [hc] at h
    simp only [Option.some.injEq] at h
    rw [← h]; exact hinv
  | cons c prev =>
    rw [cli_stack_free_unfold s p c prev hc] at h
    have hcinv : ChunkInv c := hinv.2 c (by rw [hc]; exact List.mem_cons_self _ _)
    have hprev : ∀ d ∈ prev, ChunkInv d :=
      fun d hd => hinv.2 d (by rw [hc]; exact List.mem_cons_of_mem _ hd)
    have hl := load16_lt c.data (c.used - 2) hcinv.2.2.2
    split at h
    · simp only [Option.some.injEq] at h; rw [← h]; exact hinv
    · split at h
      · exact absurd h (by simp)
      · split at h
        · simp only [Option.some.injEq] at h; rw [← h]; exact hinv
        · split at h
          · simp only [Option.some.injEq] at h
            rw [← h]
            exact ⟨hl, hprev⟩
          · rename_i h1 h2 h3 h4
            simp only [Option.some.injEq] at h
            rw [← h]
            refine ⟨hl, ?_⟩
            intro d hd
            rcases List.mem_cons.mp hd with hd | hd
            · subst hd
              obtain ⟨i1, i2, i3, i4⟩ := hcinv
              exact ⟨by simp only []; omega, by simp only []; omega,
                by simp only []; omega, i4⟩
            · exact hprev d hd

theorem stackInv_of_reachable (s : Stack) (h : Reachable s) : StackInv s := by
  induction h with
  | empty => exact ⟨by norm_num, by simp⟩
  | alloc s s1 n p _ ha ih => exact stackInv_alloc s s1 n p ih ha
  | free s s1 p _ hf ih => exact stackInv_free s s1 p ih hf

theorem chunkEq_refl (c : StackChunk) : ChunkEq c c := ⟨rfl, fun _ _ => rfl⟩

theorem chunkEq_symm (c d : StackChunk) (h : ChunkEq c d) : ChunkEq d c :=
  ⟨h.1.symm, fun off ho => (h.2 off (by rw [h.1]; exact ho)).symm⟩

theorem chunkEq_trans (c d e : StackChunk) (h1 : ChunkEq c d) (h2 : ChunkEq d e) :
    ChunkEq c e :=
  ⟨h1.1.trans h2.1, fun off ho => (h1.2 off ho).trans (h2.2 off (by rw [← h1.1]; exact ho))⟩

theorem forall₂_chunkEq_refl (l : List StackChunk) : List.Forall₂ ChunkEq l l := by
  induction l with
  | nil => exact List.Forall₂.nil
  | cons c l ih => exact List.Forall₂.cons (chunkEq_refl c) ih

theorem forall₂_chunkEq_symm (l m : List StackChunk) (h : List.Forall₂ ChunkEq l m) :
    List.Forall₂ ChunkEq m l := by
  induction h with
  | nil => exact List.Forall₂.nil
  | cons hc _ ih => exact List.Forall₂.cons (chunkEq_symm _ _ hc) ih

theorem forall₂_chunkEq_trans (l m k : List StackChunk) (h1 : List.Forall₂ ChunkEq l m)
    (h2 : List.Forall₂ ChunkEq m k) : List.Forall₂ ChunkEq l k := by
  induction h1 generalizing k with
  | nil => cases h2; exact List.Forall₂.nil
  | cons hc _ ih =>
    cases h2 with
    | cons hc2 ht2 => exact List.Forall₂.cons (chunkEq_trans _ _ _ hc hc2) (ih _ ht2)

theorem stackEq_refl (s : Stack) : StackEq s s := ⟨rfl, forall₂_chunkEq_refl _⟩

theorem stackEq_symm (s t : Stack) (h : StackEq s t) : StackEq t s :=
  ⟨h.1.symm, forall₂_chunkEq_symm _ _ h.2⟩

theorem stackEq_trans (s t u : Stack) (h1 : StackEq s t) (h2 : StackEq t u) : StackEq s u :=
  ⟨h1.1.trans h2.1, forall₂_chunkEq_trans _ _ _ h1.2 h2.2⟩

theorem map_used_of_forall₂ (l m : List StackChunk) (h : List.Forall₂ ChunkEq l m) :
    l.map (fun c => c.used) = m.map (fun c => c.used) := by
  induction h with
  | nil => rfl
  | cons hc _ ih => simp only [List.map_cons, hc.1, ih]

theorem shape_eq_of_stackEq (s t : Stack) (h : StackEq s t) : s.shape = t.shape := by
  unfold Stack.shape
  rw [h.1, map_used_of_forall₂ _ _ h.2]

/-- Freeing the block a successful allocation returned undoes the allocation. -/
theorem free_after_alloc (s s1 : Stack) (n : Nat) (p : Ptr) (hinv : StackInv s)
    (h : cli_stack_alloc s n = .ok p s1) :
    ∃ s2, cli_stack_free s1 p = some s2 ∧ StackEq s2 s := by
  obtain ⟨h8, h16, hls, hcases⟩ := alloc_ok_cases s s1 n p hinv h
  obtain ⟨hB8, _⟩ := allocSize_facts n
  have hlast : s.last_size % 2 ^ 16 = s.last_size := Nat.mod_eq_of_lt hinv.1
  rcases hcases with ⟨c, prev, hc, hfit, hp, hs1⟩ | ⟨hp, hlt, hs1⟩
  · have hcinv : ChunkInv c := hinv.2 c (by rw [hc]; exact List.mem_cons_self _ _)
    rw [cli_stack_free_unfold s1 p _ _ hs1, hls, hp]
    simp only []
    have e1 : c.used + allocSize n = c.used + allocSize n / 8 * 8 := by omega
    have e2 : ¬ (c.used + allocSize n < 2) := by omega
    have e3 : ¬ (c.used + allocSize n < allocSize n / 8 * 8) := by omega
    have e4 : ¬ (c.used + allocSize n - allocSize n / 8 * 8 = 0) := by
      have := hcinv.1; omega
    have e5 : c.used + allocSize n - allocSize n / 8 * 8 = c.used := by omega
    rw [if_neg (by simp only [true_and, not_not]; exact e1), if_neg e2, if_neg e3, if_neg e4]
    refine ⟨_, rfl, ?_, ?_⟩
    · simp only [load16_store16_eq, hlast]
    · rw [hc]
      refine List.Forall₂.cons ⟨by simp only [e5], ?_⟩ (forall₂_chunkEq_refl prev)
      intro off ho
      simp only [e5] at ho
      exact load16_store16_ne _ _ _ _ (by omega)
  · rw [cli_stack_free_unfold s1 p _ _ hs1, hls, hp]
    simp only []
    have e1 : allocSize n = 0 + allocSize n / 8 * 8 := by omega
    have e2 : ¬ (allocSize n < 2) := by omega
    have e3 : ¬ (allocSize n < allocSize n / 8 * 8) := by omega
    have e4 : allocSize n - allocSize n / 8 * 8 = 0 := by omega
    rw [if_neg (by simp only [true_and, not_not]; exact e1), if_neg e2, if_neg e3, if_pos e4]
    refine ⟨_, rfl, ?_, ?_⟩
    · simp only [load16_store16_eq, hlast]
    · exact forall₂_chunkEq_refl _
theorem free_congr (s t s1 : Stack) (p : Ptr) (heq : StackEq s t)
    (h : cli_stack_free s p = some s1) :
    ∃ t1, cli_stack_free t p = some t1 ∧ StackEq s1 t1 := by
  obtain ⟨hl, hch⟩ := heq
  cases hc : s.chunk with
  | nil =>
    rw [hc] at hch
    cases hch' : t.chunk with
    | nil =>
      unfold cli_stack_free at h ⊢
      rw [hc] at h
      rw [hch']
      simp only [Option.some.injEq] at h
      exact ⟨t, rfl, by rw [← h]; exact ⟨hl, by rw [hc, hch']; exact List.Forall₂.nil⟩⟩
    | cons d m => rw [hch'] at hch; cases hch
  | cons c prev =>
    rw [hc] at hch
    cases hch' : t.chunk with
    | nil => rw [hch'] at hch; cases hch
    | cons d m =>
      rw [hch'] at hch
      cases hch with
      | cons hcd hpm =>
        have hlen : prev.length = m.length := List.Forall₂.length_eq hpm
        have hst : StackEq s t := ⟨hl, by rw [hc, hch']; exact List.Forall₂.cons hcd hpm⟩
        rw [cli_stack_free_unfold s p c prev hc] at h
        rw [cli_stack_free_unfold t p d m hch', ← hl, ← hcd.1, ← hlen]
        split at h
        · rename_i h1
          rw [if_pos h1]
          simp only [Option.some.injEq] at h
          exact ⟨t, rfl, by rw [← h]; exact hst⟩
        · rename_i h1
          rw [if_neg h1]
          split at h
          · exact absurd h (by simp)
          · rename_i h2
            rw [if_neg h2]
            have hld : load16 c.data (c.used - 2) = load16 d.data (c.used - 2) :=
              hcd.2 _ (by omega)
            split at h
            · rename_i h3
              rw [if_pos h3]
              simp only [Option.some.injEq] at h
              exact ⟨t, rfl, by rw [← h]; exact hst⟩
            · rename_i h3
              rw [if_neg h3]
              split at h
              · rename_i h4
                rw [if_pos h4]
                simp only [Option.some.injEq] at h
                exact ⟨_, rfl, by rw [← h]; exact ⟨hld, hpm⟩⟩
              · rename_i h4
                rw [if_neg h4]
                simp only [Option.some.injEq] at h
                refine ⟨_, rfl, ?_⟩
                rw [← h]
                refine ⟨hld, List.Forall₂.cons ⟨rfl, ?_⟩ hpm⟩
                intro off ho
                exact hcd.2 off (by simp only [] at ho; omega)

theorem freeAll_append (s : Stack) (ps : List Ptr) (p : Ptr) :
    freeAll s (ps ++ [p]) =
      match freeAll s ps with
      | some s1 => cli_stack_free s1 p
      | none => none := by
  induction ps generalizing s with
  | nil =>
    simp only [List.nil_append, freeAll]
    cases cli_stack_free s p <;> rfl
  | cons q qs ih =>
    simp only [List.cons_append, freeAll]
    cases cli_stack_free s q with
    | none => rfl
    | some s1 => exact ih s1

theorem freeAll_allocAll (s0 : Stack) (ns : List Nat) (ps : List Ptr) (s : Stack)
    (hinv : StackInv s0) (h : allocAll s0 ns = some (ps, s)) :
    ∃ s2, freeAll s ps = some s2 ∧ StackEq s2 s0 := by
  induction ns generalizing s0 ps s with
  | nil =>
    simp only [allocAll, Option.some.injEq, Prod.mk.injEq] at h
    obtain ⟨h1, h2⟩ := h
    subst h1 h2
    exact ⟨s0, rfl, stackEq_refl s0⟩
  | cons n ns ih =>
    simp only [allocAll] at h
    cases ha : cli_stack_alloc s0 n with
    | null st => rw [ha] at h; simp at h
    | undefined => rw [ha] at h; simp at h
    | ok p s1 =>
      rw [ha] at h
      simp only [] at h
      cases hb : allocAll s1 ns with
      | none => rw [hb] at h; simp at h
      | some r =>
        obtain ⟨qs, s3⟩ := r
        rw [hb] at h
        simp only [Option.some.injEq, Prod.mk.injEq] at h
        obtain ⟨h1, h2⟩ := h
        subst h1 h2
        obtain ⟨t, ht, hts1⟩ := ih s1 qs s3 (stackInv_alloc s0 s1 n p hinv ha) hb
        obtain ⟨u, hu, hus0⟩ := free_after_alloc s0 s1 n p hinv ha
        obtain ⟨t1, ht1, hut1⟩ := free_congr s1 t u p (stackEq_symm _ _ hts1) hu
        refine ⟨t1, ?_, stackEq_trans _ _ _ (stackEq_symm _ _ hut1) hus0⟩
        rw [freeAll_append, ht]
        exact ht1

/-- C17: for every stack state `s` reachable from the empty stack by successful
allocations and frees and every size `n` for which `cli_stack_alloc` succeeds returning
`p`, `cli_stack_free(p)` restores the stack to `s` (same chunk list with the same `used`
in each chunk, same `last_size`); and freeing in reverse order every block of any
sequence of successful allocations made from the empty stack leaves the stack empty with
`last_size` 0. -/
theorem c17_alloc_free_lifo :
    (∀ (s s1 : Stack) (n : Nat) (p : Ptr), Reachable s → cli_stack_alloc s n = .ok p s1 →
        ∃ s2, cli_stack_free s1 p = some s2 ∧ s2.shape = s.shape) ∧
      (∀ (ns : List Nat) (ps : List Ptr) (s : Stack),
        allocAll ⟨[], 0⟩ ns = some (ps, s) →
          ∃ s2, freeAll s ps = some s2 ∧ s2.chunk = [] ∧ s2.last_size = 0) := by
  constructor
  · intro s s1 n p hr ha
    obtain ⟨s2, h1, h2⟩ := free_after_alloc s s1 n p (stackInv_of_reachable s hr) ha
    exact ⟨s2, h1, shape_eq_of_stackEq _ _ h2⟩
  · intro ns ps s h
    obtain ⟨s2, h1, h2⟩ := freeAll_allocAll ⟨[], 0⟩ ns ps s
      (stackInv_of_reachable _ Reachable.empty) h
    refine ⟨s2, h1, ?_, h2.1⟩
    have := h2.2
    simp only [] at this
    cases hc : s2.chunk with
    | nil => rfl
    | cons c l => rw [hc] at this; cases this

/-- C17, instances: one allocation of 6 bytes on the empty stack and its free; three
allocations, the third in a fresh chunk, freed in reverse order. -/
theorem c17_alloc_free_lifo_witness :
    (∃ s2, cli_stack_free ⟨[⟨16, [(14, 0)]⟩], 2⟩ ⟨0, 0⟩ = some s2 ∧
        s2.shape = Stack.shape ⟨[], 0⟩) ∧
      (∃ s2, freeAll ⟨[⟨1008, [(1006, 2001)]⟩, ⟨16024, [(16022, 2), (14, 0)]⟩], 126⟩
          [⟨1, 0⟩, ⟨0, 16⟩, ⟨0, 0⟩] = some s2 ∧ s2.chunk = [] ∧ s2.last_size = 0) :=
  ⟨c17_alloc_free_lifo.1 ⟨[], 0⟩ _ 6 ⟨0, 0⟩ Reachable.empty (by decide),
    c17_alloc_free_lifo.2 [6, 16000, 1000] _ _ (by decide)⟩
/-- C18 as stated fails: a request of 6 bytes on the empty stack reserves a block of 16
bytes (`used` is set to 16 and `last_size` to 2), while `6 + 2` rounded up to a multiple
of 8 is 8. -/
theorem c18_round_up_counterexample :
    cli_stack_alloc ⟨[], 0⟩ 6 = .ok ⟨0, 0⟩ ⟨[⟨16, [(14, 0)]⟩], 2⟩ ∧
      roundUp8 (6 + 2) = 8 ∧ (16 : Nat) ≠ roundUp8 (6 + 2) ∧ (2 : Nat) ≠ roundUp8 (6 + 2) / 8 := by
  decide

/-- C18, amended: for every request size `n` below `2^32 - 10` for which
`cli_stack_alloc` succeeds on a reachable stack, the block it reserves has the size
`allocSize n`, the largest multiple of 8 that is at most `n + 10` (which is `n + 2`
rounded up to a multiple of 8 when `n + 2` is not one, and 8 more than that when it is):
the `used` count of the current chunk grows by exactly that amount, or is set to it in a
fresh chunk, `last_size` becomes that amount divided by 8, and the 16-bit trailer in the
last two bytes of the block holds the previous `last_size`. -/
theorem c18_block_size (s s1 : Stack) (n : Nat) (p : Ptr) (hr : Reachable s)
    (hn : n + 10 < 2 ^ 32) (h : cli_stack_alloc s n = .ok p s1) :
    (allocSize n % 8 = 0 ∧ allocSize n ≤ n + 10 ∧ n + 10 < allocSize n + 8) ∧
      ((n + 2) % 8 ≠ 0 → allocSize n = roundUp8 (n + 2)) ∧
      ((n + 2) % 8 = 0 → allocSize n = roundUp8 (n + 2) + 8) ∧
      s1.last_size = allocSize n / 8 ∧
      ((∃ c c1 prev, s.chunk = c :: prev ∧ s1.chunk = c1 :: prev ∧
          c1.used = c.used + allocSize n ∧ p = ⟨prev.length, c.used⟩ ∧
          load16 c1.data (p.off + allocSize n - 2) = s.last_size) ∨
        (∃ c1, s1.chunk = c1 :: s.chunk ∧ c1.used = allocSize n ∧
          p = ⟨s.chunk.length, 0⟩ ∧
          load16 c1.data (p.off + allocSize n - 2) = s.last_size)) := by
  have hinv := stackInv_of_reachable s hr
  obtain ⟨h8, h16, hls, hcases⟩ := alloc_ok_cases s s1 n p hinv h
  have hlast : s.last_size % 2 ^ 16 = s.last_size := Nat.mod_eq_of_lt hinv.1
  have hsz : allocSize n = (n + 10) / 8 * 8 := by unfold allocSize; omega
  refine ⟨by omega, by unfold roundUp8; omega, by unfold roundUp8; omega, hls, ?_⟩
  rcases hcases with ⟨c, prev, hc, _, hp, hs1⟩ | ⟨hp, _, hs1⟩
  · refine Or.inl ⟨c, _, prev, hc, hs1, rfl, hp, ?_⟩
    rw [hp]
    simp only [load16_store16_eq, hlast]
  · refine Or.inr ⟨_, hs1, rfl, hp, ?_⟩
    rw [hp]
    simp only [Nat.zero_add, load16_store16_eq, hlast]

/-- C18, amended, instance: a request of 6 bytes on the empty stack. -/
theorem c18_block_size_witness :
    (6 + 10 < 2 ^ 32) ∧ allocSize 6 = 16 ∧
      (allocSize 6 % 8 = 0 ∧ allocSize 6 ≤ 6 + 10 ∧ 6 + 10 < allocSize 6 + 8) :=
  ⟨by decide, by decide,
    (c18_block_size ⟨[], 0⟩ ⟨[⟨16, [(14, 0)]⟩], 2⟩ 6 ⟨0, 0⟩ Reachable.empty (by decide)
      (by decide)).1⟩

/-- The rounded size of a request wraps around in 32-bit arithmetic: for the sizes
`2^32 - 1` and `2^32 - 2` (which `allocate_stack`, the only caller, never passes: its
sizes are `48 + 8 * k`) `cli_stack_alloc` reserves a block of 8 bytes. -/
theorem alloc_size_wraps_to_small_block :
    STACK_CHUNKSIZE < 4294967295 ∧
      cli_stack_alloc ⟨[], 0⟩ 4294967295 = .ok ⟨0, 0⟩ ⟨[⟨8, [(6, 0)]⟩], 1⟩ ∧
      cli_stack_alloc ⟨[], 0⟩ 4294967294 = .ok ⟨0, 0⟩ ⟨[⟨8, [(6, 0)]⟩], 1⟩ ∧
      cli_stack_alloc ⟨[⟨16, [(14, 0)]⟩], 2⟩ 4294967295 =
        .ok ⟨0, 16⟩ ⟨[⟨24, [(22, 2), (14, 0)]⟩], 1⟩ := by
  decide

/-- C19, the code at the failing input: a `CALL_DIRECT` of a function with 536870905
value cells makes `allocate_stack` request `48 + 8 * 536870905 = 2^32 - 8` bytes, more
than the chunk size. The rounded size wraps around to 0, so the test against the chunk
size does not reject the request, and the trailer offset `(uint16_t)(0 - 2) = 65534`
lies outside the 16384 bytes of a chunk: instead of failing with the stack unchanged,
`cli_stack_alloc` stores out of bounds (undefined behaviour), on the empty stack and on
a stack that holds a block, in both builds. -/
theorem c19_oversize_wraps :
    sizeof_stack_entry + sizeof_value * 536870905 = 4294967288 ∧
      STACK_CHUNKSIZE < 4294967288 ∧
      cli_stack_alloc ⟨[], 0⟩ 4294967288 = .undefined ∧
      cli_stack_alloc ⟨[⟨16, [(14, 0)]⟩], 2⟩ 4294967288 = .undefined ∧
      allocate_stack ⟨[], 0⟩ (localsFunc 536870905) (hostFunc 1) 0 none 0 = none ∧
      ∀ dbg, step ⟨dbg⟩ ⟨[localsFunc 536870905]⟩
        (initState [0] (hostFunc 1) (entryCall 0 0 [])) = .undefined := by
  decide

/-- Requests larger than the chunk size whose rounded size does not wrap are rejected,
with the stack unchanged (the part of C19 the code satisfies). -/
theorem alloc_oversize_rejected (s : Stack) (n : Nat) (hr : Reachable s)
    (hbig : STACK_CHUNKSIZE < n) (hn : n + 10 + STACK_CHUNKSIZE < 2 ^ 32) :
    cli_stack_alloc s n = .null s := by
  have hinv := stackInv_of_reachable s hr
  simp only [STACK_CHUNKSIZE] at hbig hn
  have hsz : allocSize n = (n + 10) / 8 * 8 := by unfold allocSize; omega
  rw [cli_stack_alloc_unfold]
  have h1 : 16384 ≤ allocSize n := by omega
  cases hc : s.chunk with
  | nil => simp only [h1, if_true]
  | cons c prev =>
    have hcinv : ChunkInv c := hinv.2 c (by rw [hc]; exact List.mem_cons_self _ _)
    obtain ⟨hu0, hu1, _, _⟩ := hcinv
    simp only [STACK_CHUNKSIZE] at hu1
    have h2 : ¬ ((c.used + allocSize n) % 2 ^ 32 ≤ 16384) := by omega
    simp only [h1, h2, if_true, if_false]

/-- C20: when the stack is empty, or when `p` is not the start of the most recently
allocated live block (`p` differs from `chunk.data + chunk.used - last_size * 8`, or
`used` is below `last_size * 8` so that no such block exists), `cli_stack_free(p)`
leaves the stack state unchanged. -/
theorem c20_free_refused (s : Stack) (p : Ptr)
    (h : s.chunk = [] ∨ ∃ c prev, s.chunk = c :: prev ∧
      (p ≠ ⟨prev.length, c.used - s.last_size * 8⟩ ∨ c.used < s.last_size * 8)) :
    cli_stack_free s p = some s := by
  rcases h with h | ⟨c, prev, hc, hne⟩
  · unfold cli_stack_free
    rw [h]
  · rw [cli_stack_free_unfold s p c prev hc]
    rw [if_pos]
    intro ⟨h1, h2⟩
    rcases hne with hne | hne
    · apply hne
      cases p with
      | mk pc po =>
        simp only [] at h1 h2
        simp only [Ptr.mk.injEq]
        exact ⟨h1, by omega⟩
    · omega

/-- C20, instance: with one block of 16 bytes at offset 0 allocated, freeing the address
at offset 8 is refused. -/
theorem c20_free_refused_witness :
    cli_stack_free ⟨[⟨16, [(14, 0)]⟩], 2⟩ ⟨0, 8⟩ = some ⟨[⟨16, [(14, 0)]⟩], 2⟩ :=
  c20_free_refused ⟨[⟨16, [(14, 0)]⟩], 2⟩ ⟨0, 8⟩
    (Or.inr ⟨⟨16, [(14, 0)]⟩, [], rfl, Or.inl (by decide)⟩)

/-! ### The effect of one value-producing instruction -/

theorem bind_eq_ok {α β : Type} (x : Chk α) (f : α → Chk β) (b : β)
    (h : x.bind f = .ok b) : ∃ a, x = .ok a ∧ f a = .ok b := by
  cases x with
  | ok a => exact ⟨a, rfl, h⟩
  | fail st => simp [Chk.bind] at h
  | undefined => simp [Chk.bind] at h

theorem writeValue_eq_ok (cfg : Config) (func : Func) (values vs : List Nat)
    (wr : Nat → Nat → Nat) (p x : Nat) (h : writeValue cfg func values wr p x = .ok vs) :
    ∃ c, values[p]? = some c ∧ vs = values.set p (wr c x) := by
  unfold writeValue at h
  obtain ⟨_, _, h2⟩ := bind_eq_ok _ _ _ h
  cases hv : values[p]? with
  | none => rw [hv] at h2; simp at h2
  | some c =>
    rw [hv] at h2
    simp only [Chk.ok.injEq] at h2
    exact ⟨c, rfl, h2.symm⟩

theorem advance_eq_next (cfg : Config) (s s1 : State) (h : advance cfg s = .next s1) :
    s1 = { s with bb_inst := s.bb_inst + 1, inst := s.inst.tail } := by
  unfold advance at h
  simp only [] at h
  split at h
  · split at h
    · simp at h
    · split at h
      · simp at h
      · simp only [Outcome.next.injEq] at h; exact h.symm
  · simp only [Outcome.next.injEq] at h; exact h.symm

theorem finishWrite_eq_next (cfg : Config) (s s1 : State) (r : Chk (List Nat))
    (h : finishWrite cfg s r = .next s1) : ∃ vs, r = .ok vs ∧ s1 = s.afterWrite vs := by
  cases r with
  | fail st => simp [finishWrite] at h
  | undefined => simp [finishWrite] at h
  | ok vs =>
    refine ⟨vs, rfl, ?_⟩
    simp only [finishWrite] at h
    rw [advance_eq_next cfg _ _ h]
    simp [State.afterWrite, setValues_bb_inst, setValues_inst]

theorem execBinop_eq_next (cfg : Config) (s s1 : State) (inst : Inst)
    (wr : Nat → Nat → Nat) (h : execBinop cfg s inst wr = .next s1) :
    ∃ c x, s.values[inst.dest]? = some c ∧
      s1 = s.afterWrite (s.values.set inst.dest (wr c x)) := by
  unfold execBinop at h
  cases hu : inst.u with
  | binop p0 p1 =>
    rw [hu] at h
    simp only [] at h
    obtain ⟨vs, hr, hs1⟩ := finishWrite_eq_next cfg s s1 _ h
    obtain ⟨_, _, hr⟩ := bind_eq_ok _ _ _ hr
    obtain ⟨_, _, hr⟩ := bind_eq_ok _ _ _ hr
    obtain ⟨x, _, hr⟩ := bind_eq_ok _ _ _ hr
    obtain ⟨c, hc, hvs⟩ := writeValue_eq_ok _ _ _ _ _ _ _ hr
    exact ⟨c, x, hc, by rw [hs1, hvs]⟩
  | _ => rw [hu] at h; simp at h

theorem execCast_eq_next (cfg : Config) (s s1 : State) (inst : Inst)
    (h : execCast cfg s inst = .next s1) :
    ∃ c x, s.values[inst.dest]? = some c ∧
      s1 = s.afterWrite (s.values.set inst.dest (binopWrite inst.width c x)) := by
  unfold execCast at h
  cases hu : inst.u with
  | cast source mask size =>
    rw [hu] at h
    simp only [] at h
    obtain ⟨vs, hr, hs1⟩ := finishWrite_eq_next cfg s s1 _ h
    obtain ⟨x, _, hr⟩ := bind_eq_ok _ _ _ hr
    obtain ⟨c, hc, hvs⟩ := writeValue_eq_ok _ _ _ _ _ _ _ hr
    exact ⟨c, x, hc, by rw [hs1, hvs]⟩
  | _ => rw [hu] at h; simp at h

theorem execSelect_eq_next (cfg : Config) (s s1 : State) (inst : Inst)
    (h : execSelect cfg s inst = .next s1) :
    ∃ c x, s.values[inst.dest]? = some c ∧
      s1 = s.afterWrite (s.values.set inst.dest (binopWrite inst.width c x)) := by
  unfold execSelect at h
  cases hu : inst.u with
  | three p0 p1 p2 =>
    rw [hu] at h
    simp only [] at h
    obtain ⟨vs, hr, hs1⟩ := finishWrite_eq_next cfg s s1 _ h
    obtain ⟨_, _, hr⟩ := bind_eq_ok _ _ _ hr
    obtain ⟨_, _, hr⟩ := bind_eq_ok _ _ _ hr
    obtain ⟨_, _, hr⟩ := bind_eq_ok _ _ _ hr
    obtain ⟨c, hc, hvs⟩ := writeValue_eq_ok _ _ _ _ _ _ _ hr
    exact ⟨c, _, hc, by rw [hs1, hvs]⟩
  | _ => rw [hu] at h; simp at h

theorem execCopy_eq_next (cfg : Config) (s s1 : State) (inst : Inst)
    (h : execCopy cfg s inst = .next s1) :
    ∃ p0 p1 c x, inst.u = .binop p0 p1 ∧ s.values[p1]? = some c ∧
      s1 = s.afterWrite (s.values.set p1 (copyWrite inst.width c x)) := by
  unfold execCopy at h
  cases hu : inst.u with
  | binop p0 p1 =>
    rw [hu] at h
    simp only [] at h
    obtain ⟨vs, hr, hs1⟩ := finishWrite_eq_next cfg s s1 _ h
    obtain ⟨x, _, hr⟩ := bind_eq_ok _ _ _ hr
    obtain ⟨c, hc, hvs⟩ := writeValue_eq_ok _ _ _ _ _ _ _ hr
    exact ⟨_, _, c, x, (by first | exact hu | rfl), hc, by rw [hs1, hvs]⟩
  | _ => rw [hu] at h; simp at h

theorem step_unfold (cfg : Config) (bc : Module) (s : State) (inst : Inst)
    (rest : List Inst) (hi : s.inst = inst :: rest) :
    step cfg bc s =
      if (cfg.CL_DEBUG && decide (s.func.numValues + s.func.numConstants ≤ inst.dest)) = true
      then .ret bcfail s
      else
        match inst.opcode with
        | .OP_ADD | .OP_SUB | .OP_MUL | .OP_UDIV | .OP_SDIV | .OP_UREM | .OP_SREM
        | .OP_SHL | .OP_LSHR | .OP_ASHR | .OP_AND | .OP_OR | .OP_XOR =>
          execBinop cfg s inst (binopWrite inst.width)
        | .OP_ICMP_EQ | .OP_ICMP_NE | .OP_ICMP_UGT | .OP_ICMP_UGE | .OP_ICMP_ULT
        | .OP_ICMP_ULE | .OP_ICMP_SGT | .OP_ICMP_SGE | .OP_ICMP_SLE | .OP_ICMP_SLT =>
          execBinop cfg s inst WRITE8
        | .OP_SEXT | .OP_ZEXT | .OP_TRUNC => execCast cfg s inst
        | .OP_BRANCH => execBranch cfg s inst
        | .OP_JMP => execJmp cfg s inst
        | .OP_RET => execRet cfg s inst
        | .OP_SELECT => execSelect cfg s inst
        | .OP_CALL_DIRECT => execCallDirect cfg bc s inst
        | .OP_COPY => execCopy cfg s inst
        | .OP_UNIMPLEMENTED => loopExit .CL_EARG s := by
  unfold step
  rw [hi]

theorem write_high_bits (w : Width) (c x : Nat) :
    binopWrite w c x / 2 ^ cBits w = c / 2 ^ cBits w ∧
      copyWrite w c x / 2 ^ cBits w = c / 2 ^ cBits w ∧ WRITE8 c x / 2 ^ 8 = c / 2 ^ 8 := by
  cases w <;>
    simp only [binopWrite, copyWrite, WRITE8, WRITE16, WRITE32, WRITE64, cBits] <;> omega

theorem step_eq_execBinop (cfg : Config) (bc : Module) (s : State) (inst : Inst)
    (rest : List Inst) (hi : s.inst = inst :: rest) (hop : inst.opcode.isBinop = true) :
    step cfg bc s =
      if (cfg.CL_DEBUG && decide (s.func.numValues + s.func.numConstants ≤ inst.dest)) = true
      then .ret bcfail s else execBinop cfg s inst (binopWrite inst.width) := by
  rw [step_unfold cfg bc s inst rest hi]
  cases hopc : inst.opcode <;> simp [hopc, Opcode.isBinop] at hop ⊢

theorem step_eq_execIcmp (cfg : Config) (bc : Module) (s : State) (inst : Inst)
    (rest : List Inst) (hi : s.inst = inst :: rest) (hop : inst.opcode.isIcmp = true) :
    step cfg bc s =
      if (cfg.CL_DEBUG && decide (s.func.numValues + s.func.numConstants ≤ inst.dest)) = true
      then .ret bcfail s else execBinop cfg s inst WRITE8 := by
  rw [step_unfold cfg bc s inst rest hi]
  cases hopc : inst.opcode <;> simp [hopc, Opcode.isIcmp] at hop ⊢

theorem step_eq_execCast (cfg : Config) (bc : Module) (s : State) (inst : Inst)
    (rest : List Inst) (hi : s.inst = inst :: rest) (hop : inst.opcode.isCast = true) :
    step cfg bc s =
      if (cfg.CL_DEBUG && decide (s.func.numValues + s.func.numConstants ≤ inst.dest)) = true
      then .ret bcfail s else execCast cfg s inst := by
  rw [step_unfold cfg bc s inst rest hi]
  cases hopc : inst.opcode <;> simp [hopc, Opcode.isCast] at hop ⊢

theorem step_eq_of_opcode (cfg : Config) (bc : Module) (s : State) (inst : Inst)
    (rest : List Inst) (hi : s.inst = inst :: rest) :
    (inst.opcode = .OP_SELECT → step cfg bc s =
      if (cfg.CL_DEBUG && decide (s.func.numValues + s.func.numConstants ≤ inst.dest)) = true
      then .ret bcfail s else execSelect cfg s inst) ∧
    (inst.opcode = .OP_COPY → step cfg bc s =
      if (cfg.CL_DEBUG && decide (s.func.numValues + s.func.numConstants ≤ inst.dest)) = true
      then .ret bcfail s else execCopy cfg s inst) ∧
    (inst.opcode = .OP_BRANCH → step cfg bc s =
      if (cfg.CL_DEBUG && decide (s.func.numValues + s.func.numConstants ≤ inst.dest)) = true
      then .ret bcfail s else execBranch cfg s inst) ∧
    (inst.opcode = .OP_JMP → step cfg bc s =
      if (cfg.CL_DEBUG && decide (s.func.numValues + s.func.numConstants ≤ inst.dest)) = true
      then .ret bcfail s else execJmp cfg s inst) ∧
    (inst.opcode = .OP_RET → step cfg bc s =
      if (cfg.CL_DEBUG && decide (s.func.numValues + s.func.numConstants ≤ inst.dest)) = true
      then .ret bcfail s else execRet cfg s inst) ∧
    (inst.opcode = .OP_CALL_DIRECT → step cfg bc s =
      if (cfg.CL_DEBUG && decide (s.func.numValues + s.func.numConstants ≤ inst.dest)) = true
      then .ret bcfail s else execCallDirect cfg bc s inst) ∧
    (inst.opcode = .OP_UNIMPLEMENTED → step cfg bc s =
      if (cfg.CL_DEBUG && decide (s.func.numValues + s.func.numConstants ≤ inst.dest)) = true
      then .ret bcfail s else loopExit .CL_EARG s) := by
  rw [step_unfold cfg bc s inst rest hi]
  refine ⟨?_, ?_, ?_, ?_, ?_, ?_, ?_⟩ <;> intro hopc <;> rw [hopc]

theorem ite_ret_eq_next (b : Bool) (st : Status) (s s1 : State) (o : Outcome)
    (h : (if b = true then Outcome.ret st s else o) = .next s1) : o = .next s1 := by
  cases b with
  | true => simp at h
  | false => simpa using h

/-- What a successful iteration at a value-producing instruction does to the state: one
cell of the current region is replaced and the cursor advances; the bits of that cell
above the written width are kept. -/
theorem step_value_shape (cfg : Config) (bc : Module) (s s1 : State) (inst : Inst)
    (rest : List Inst) (hi : s.inst = inst :: rest) (hop : inst.opcode.isValueOp = true)
    (h : step cfg bc s = .next s1) :
    ∃ c c1, s.values[inst.writeIndex]? = some c ∧
      s1 = s.afterWrite (s.values.set inst.writeIndex c1) ∧
      c1 / 2 ^ inst.writtenBits = c / 2 ^ inst.writtenBits := by
  simp only [Opcode.isValueOp, Bool.or_eq_true, beq_iff_eq] at hop
  rcases hop with (((hb | hb) | hb) | hb) | hb
  · rw [step_eq_execBinop cfg bc s inst rest hi hb] at h
    obtain ⟨c, x, hc, hs1⟩ := execBinop_eq_next cfg s s1 inst _ (ite_ret_eq_next _ _ _ _ _ h)
    have hne : inst.opcode ≠ .OP_COPY := by intro hh; rw [hh] at hb; exact absurd hb (by decide)
    have hni : inst.opcode.isIcmp = false := by
      cases hopc : inst.opcode <;> simp [hopc, Opcode.isBinop, Opcode.isIcmp] at hb ⊢
    refine ⟨c, binopWrite inst.width c x, ?_, ?_, ?_⟩
    · simpa [Inst.writeIndex, hne] using hc
    · simpa [Inst.writeIndex, hne] using hs1
    · simp only [Inst.writtenBits, hni, Bool.false_eq_true, if_false]
      exact (write_high_bits inst.width c x).1
  · rw [step_eq_execIcmp cfg bc s inst rest hi hb] at h
    obtain ⟨c, x, hc, hs1⟩ := execBinop_eq_next cfg s s1 inst _ (ite_ret_eq_next _ _ _ _ _ h)
    have hne : inst.opcode ≠ .OP_COPY := by intro hh; rw [hh] at hb; exact absurd hb (by decide)
    refine ⟨c, WRITE8 c x, ?_, ?_, ?_⟩
    · simpa [Inst.writeIndex, hne] using hc
    · simpa [Inst.writeIndex, hne] using hs1
    · simp only [Inst.writtenBits, hb, if_true]
      exact (write_high_bits inst.width c x).2.2
  · rw [step_eq_execCast cfg bc s inst rest hi hb] at h
    obtain ⟨c, x, hc, hs1⟩ := execCast_eq_next cfg s s1 inst (ite_ret_eq_next _ _ _ _ _ h)
    have hne : inst.opcode ≠ .OP_COPY := by intro hh; rw [hh] at hb; exact absurd hb (by decide)
    have hni : inst.opcode.isIcmp = false := by
      cases hopc : inst.opcode <;> simp [hopc, Opcode.isCast, Opcode.isIcmp] at hb ⊢
    refine ⟨c, binopWrite inst.width c x, ?_, ?_, ?_⟩
    · simpa [Inst.writeIndex, hne] using hc
    · simpa [Inst.writeIndex, hne] using hs1
    · simp only [Inst.writtenBits, hni, Bool.false_eq_true, if_false]
      exact (write_high_bits inst.width c x).1
  · rw [(step_eq_of_opcode cfg bc s inst rest hi).1 hb] at h
    obtain ⟨c, x, hc, hs1⟩ := execSelect_eq_next cfg s s1 inst (ite_ret_eq_next _ _ _ _ _ h)
    refine ⟨c, binopWrite inst.width c x, ?_, ?_, ?_⟩
    · simpa [Inst.writeIndex, hb] using hc
    · simpa [Inst.writeIndex, hb] using hs1
    · simp only [Inst.writtenBits, hb, Opcode.isIcmp, Bool.false_eq_true, if_false]
      exact (write_high_bits inst.width c x).1
  · rw [(step_eq_of_opcode cfg bc s inst rest hi).2.1 hb] at h
    obtain ⟨p0, p1, c, x, hu, hc, hs1⟩ :=
      execCopy_eq_next cfg s s1 inst (ite_ret_eq_next _ _ _ _ _ h)
    refine ⟨c, copyWrite inst.width c x, ?_, ?_, ?_⟩
    · simpa [Inst.writeIndex, hb, hu] using hc
    · simpa [Inst.writeIndex, hb, hu] using hs1
    · simp only [Inst.writtenBits, hb, Opcode.isIcmp, Bool.false_eq_true, if_false]
      exact (write_high_bits inst.width c x).2.1

/-! ### C16 and C15: what an instruction leaves unchanged -/

theorem getElem?_set_of_ne (l : List Nat) (p i x : Nat) (h : i ≠ p) :
    (l.set p x)[i]? = l[i]? := by
  rw [List.getElem?_set_ne (fun hh => h hh.symm)]

/-- C16: for every binary, compare, cast, select or copy instruction that executes
successfully, every cell of the value region other than the cell the instruction stores
to (`inst->dest`, for a copy its second operand) is unchanged, and within that cell every
bit above the low bits of the written width (the low byte for an i1 or compare result,
8, 16, 32 or 64 bits otherwise) is unchanged. -/
theorem c16_write_frame (cfg : Config) (bc : Module) (s s1 : State) (inst : Inst)
    (rest : List Inst) (hi : s.inst = inst :: rest) (hop : inst.opcode.isValueOp = true)
    (h : step cfg bc s = .next s1) :
    (∀ i, i ≠ inst.writeIndex → s1.values[i]? = s.values[i]?) ∧
      ∃ c c1, s.values[inst.writeIndex]? = some c ∧ s1.values[inst.writeIndex]? = some c1 ∧
        c1 / 2 ^ inst.writtenBits = c / 2 ^ inst.writtenBits := by
  obtain ⟨c, c1, hc, hs1, hbits⟩ := step_value_shape cfg bc s s1 inst rest hi hop h
  have hv : s1.values = s.values.set inst.writeIndex c1 := by rw [hs1, afterWrite_values]
  refine ⟨fun i hne => by rw [hv, getElem?_set_of_ne _ _ _ _ hne], c, c1, hc, ?_, hbits⟩
  rw [hv]
  exact getElem?_set_self_of_cell _ _ _ _ hc

/-- C16, instance: `OP_ADD.i8` of 1 and 2 into a cell holding `0xABCD` leaves `0xAB03`
there and keeps the other cells. -/
theorem c16_write_frame_witness :
    (∀ i, i ≠ 2 → (State.afterWrite (midState [⟨.OP_ADD, .i8, 8, 2, .binop 0 1⟩,
        ⟨.OP_RET, .i8, 8, 0, .unaryop 2⟩] [1, 2, 0xABCD]) [1, 2, 0xAB03]).values[i]? =
      [1, 2, 0xABCD][i]?) ∧
      ∃ c c1, [1, 2, 0xABCD][2]? = some c ∧
        (State.afterWrite (midState [⟨.OP_ADD, .i8, 8, 2, .binop 0 1⟩,
          ⟨.OP_RET, .i8, 8, 0, .unaryop 2⟩] [1, 2, 0xABCD]) [1, 2, 0xAB03]).values[2]?
            = some c1 ∧ c1 / 2 ^ 8 = c / 2 ^ 8 :=
  c16_write_frame ⟨true⟩ ⟨[]⟩
    (midState [⟨.OP_ADD, .i8, 8, 2, .binop 0 1⟩, ⟨.OP_RET, .i8, 8, 0, .unaryop 2⟩]
      [1, 2, 0xABCD])
    (State.afterWrite (midState [⟨.OP_ADD, .i8, 8, 2, .binop 0 1⟩,
      ⟨.OP_RET, .i8, 8, 0, .unaryop 2⟩] [1, 2, 0xABCD]) [1, 2, 0xAB03])
    ⟨.OP_ADD, .i8, 8, 2, .binop 0 1⟩ [⟨.OP_RET, .i8, 8, 0, .unaryop 2⟩] rfl rfl (by decide)

theorem jump_eq_some (cfg : Config) (func : Func) (bbid : Nat) (s s1 : State) (stop : Status)
    (h : jump cfg func bbid s = some (stop, s1)) :
    s1 = s ∨ ∃ bb, s1 = { s with bb := some bb, inst := bb.insts, bb_inst := 0 } := by
  unfold jump at h
  split at h
  · simp only [Option.some.injEq, Prod.mk.injEq] at h
    exact Or.inl h.2.symm
  · cases hb : func.BB[bbid]? with
    | none => rw [hb] at h; simp at h
    | some bb =>
      rw [hb] at h
      simp only [Option.some.injEq, Prod.mk.injEq] at h
      exact Or.inr ⟨bb, h.2.symm⟩

theorem loopContinue_eq_next (stop : Status) (s s1 : State)
    (h : loopContinue stop s = .next s1) : s1 = s := by
  unfold loopContinue at h
  split at h
  · simp only [Outcome.next.injEq] at h; exact h.symm
  · simp [loopExit] at h

theorem execBranch_eq_next (cfg : Config) (s s1 : State) (inst : Inst)
    (h : execBranch cfg s inst = .next s1) :
    s1 = s ∨ ∃ bb, s1 = { s with bb := some bb, inst := bb.insts, bb_inst := 0 } := by
  unfold execBranch at h
  cases hu : inst.u with
  | branch c t f =>
    rw [hu] at h
    simp only [] at h
    cases hv : s.values[c]? with
    | none => rw [hv] at h; simp at h
    | some cv =>
      rw [hv] at h
      simp only [] at h
      cases hj : jump cfg s.func (if cv % 2 = 1 then t else f) s with
      | none => rw [hj] at h; simp at h
      | some r =>
        obtain ⟨stop, s2⟩ := r
        rw [hj] at h
        simp only [] at h
        rw [loopContinue_eq_next _ _ _ h]
        exact jump_eq_some _ _ _ _ _ _ hj
  | _ => rw [hu] at h; simp at h

theorem execJmp_eq_next (cfg : Config) (s s1 : State) (inst : Inst)
    (h : execJmp cfg s inst = .next s1) :
    s1 = s ∨ ∃ bb, s1 = { s with bb := some bb, inst := bb.insts, bb_inst := 0 } := by
  unfold execJmp at h
  cases hu : inst.u with
  | jump bbid =>
    rw [hu] at h
    simp only [] at h
    cases hj : jump cfg s.func bbid s with
    | none => rw [hj] at h; simp at h
    | some r =>
      obtain ⟨stop, s2⟩ := r
      rw [hj] at h
      simp only [] at h
      rw [loopContinue_eq_next _ _ _ h]
      exact jump_eq_some _ _ _ _ _ _ hj
  | _ => rw [hu] at h; simp at h

/-- A successful iteration at an instruction other than a call or a return either
replaces one cell of the current region and advances the cursor, or only moves the
cursor to a block. -/
theorem step_local_shape (cfg : Config) (bc : Module) (s s1 : State) (inst : Inst)
    (rest : List Inst) (hi : s.inst = inst :: rest)
    (hop : inst.opcode ≠ .OP_CALL_DIRECT ∧ inst.opcode ≠ .OP_RET)
    (h : step cfg bc s = .next s1) :
    (inst.opcode.isValueOp = true ∧
        ∃ c1, s1 = s.afterWrite (s.values.set inst.writeIndex c1)) ∨
      (inst.opcode.isValueOp = false ∧
        (s1 = s ∨ ∃ bb, s1 = { s with bb := some bb, inst := bb.insts, bb_inst := 0 })) := by
  by_cases hv : inst.opcode.isValueOp = true
  · obtain ⟨c, c1, _, hs1, _⟩ := step_value_shape cfg bc s s1 inst rest hi hv h
    exact Or.inl ⟨hv, c1, hs1⟩
  · have hv' : inst.opcode.isValueOp = false := by simpa using hv
    refine Or.inr ⟨hv', ?_⟩
    have hall := step_eq_of_opcode cfg bc s inst rest hi
    cases hopc : inst.opcode <;> rw [hopc] at hv' <;>
      first
      | exact absurd hv' (by decide)
      | exact absurd hopc hop.1
      | exact absurd hopc hop.2
      | (rw [hall.2.2.1 hopc] at h
         exact execBranch_eq_next cfg s s1 inst (ite_ret_eq_next _ _ _ _ _ h))
      | (rw [hall.2.2.2.1 hopc] at h
         exact execJmp_eq_next cfg s s1 inst (ite_ret_eq_next _ _ _ _ _ h))
      | (rw [hall.2.2.2.2.2.2 hopc] at h
         have := ite_ret_eq_next _ _ _ _ _ h
         simp [loopExit] at this)

/-- C15 as stated fails: `OP_ADD.i32(c0, c1) -> c0` in a function with one local and the
constants 5 and 7 executes and replaces the constant at value index 1 by 12. -/
theorem c15_constant_overwritten_counterexample :
    (entryState (constWriteFunc 5 7)).values = [0, 5, 7] ∧
      ∀ dbg, (step ⟨dbg⟩ ⟨[constWriteFunc 5 7]⟩ (entryState (constWriteFunc 5 7))).values
        = some [0, 12, 7] := by
  decide

/-- C15, amended: for every instruction other than a call or a return that executes
successfully and, when it is a binary, compare, cast, select or copy instruction, stores
to a value index below `numValues`, the current function stays the same and every cell of
the current value region at an index in `[numValues, numValues + numConstants)` has the
same content after the instruction as before it. -/
theorem c15_constants_kept (cfg : Config) (bc : Module) (s s1 : State) (inst : Inst)
    (rest : List Inst) (hi : s.inst = inst :: rest)
    (hop : inst.opcode ≠ .OP_CALL_DIRECT ∧ inst.opcode ≠ .OP_RET)
    (hw : inst.opcode.isValueOp = true → inst.writeIndex < s.func.numValues)
    (h : step cfg bc s = .next s1) :
    s1.func = s.func ∧
      ∀ i, s.func.numValues ≤ i → i < s.func.numValues + s.func.numConstants →
        s1.values[i]? = s.values[i]? := by
  rcases step_local_shape cfg bc s s1 inst rest hi hop h with ⟨hv, c1, hs1⟩ | ⟨_, hs1 | ⟨bb, hs1⟩⟩
  · refine ⟨by rw [hs1, afterWrite_func], fun i hi1 _ => ?_⟩
    rw [hs1, afterWrite_values, getElem?_set_of_ne]
    have := hw hv
    omega
  · rw [hs1]; exact ⟨rfl, fun _ _ _ => rfl⟩
  · rw [hs1]; exact ⟨rfl, fun _ _ _ => rfl⟩

/-- C15, amended, instance: `OP_ADD.i32(c0, c1) -> v0` keeps the constants 5 and 7. -/
theorem c15_constants_kept_witness :
    ((entryState (addFunc 5 7)).afterWrite [12, 5, 7]).func = (entryState (addFunc 5 7)).func ∧
      ∀ i, 1 ≤ i → i < 1 + 2 →
        ((entryState (addFunc 5 7)).afterWrite [12, 5, 7]).values[i]? = [0, 5, 7][i]? :=
  c15_constants_kept ⟨true⟩ ⟨[addFunc 5 7]⟩ (entryState (addFunc 5 7))
    ((entryState (addFunc 5 7)).afterWrite [12, 5, 7])
    ⟨.OP_ADD, .i32, 32, 0, .binop 1 2⟩ [⟨.OP_RET, .i32, 32, 0, .unaryop 0⟩] rfl
    ⟨by decide, by decide⟩ (fun _ => by decide) (by decide)

/-! ### C13: return at call depth zero -/

/-- C13 as stated fails. A `RET` executed as the entry instruction, before any call,
makes a debug build return `CL_EARG` (the status of every failed `CHECK_GT`), not
`CL_EBYTECODE`; in a release build the check is compiled out and `pop_stack`
dereferences the null `stack_entry`. After an earlier call has returned the counter
`stack_depth` is still 1, because `OP_RET` never decrements it: in `runCallThenRet` the
third iteration ends with no frame on the spill stack and the cursor at the `RET` after
the call, and the fourth passes `CHECK_GT(stack_depth, 0)` and dereferences the null
`stack_entry`, in both builds. -/
theorem c13_ret_depth_zero_counterexample :
    cli_vm_execute ⟨true⟩ 1 ⟨[]⟩ [0] (hostFunc 1) [⟨.OP_RET, .i32, 32, 0, .unaryop 0⟩] =
        .ret .CL_EARG (initState [0] (hostFunc 1) [⟨.OP_RET, .i32, 32, 0, .unaryop 0⟩]) ∧
      Status.CL_EARG ≠ Status.CL_EBYTECODE ∧
      cli_vm_execute ⟨false⟩ 1 ⟨[]⟩ [0] (hostFunc 1) [⟨.OP_RET, .i32, 32, 0, .unaryop 0⟩] =
        .undefined ∧
      (∀ dbg, runCallThenRet ⟨dbg⟩ 3 = .next
        { func := callThenRetFunc, inst := [⟨.OP_RET, .i32, 32, 0, .unaryop 0⟩],
          bb := callThenRetFunc.BB.head?, bb_inst := 1, stack_depth := 1, stack := ⟨[], 0⟩,
          stack_entry := [], ctx_values := [0] }) ∧
      (∀ dbg, runCallThenRet ⟨dbg⟩ 4 = .undefined) := by
  decide

/-- C13, amended: in a debug build (`CL_DEBUG` defined), a `RET` executed while the
counter `stack_depth` is zero, that is before any `CALL_DIRECT` has executed, terminates
execution with `CL_EARG`, the state unchanged: nothing is written. What a `RET` does
when the frames have all been popped after earlier calls is left open here. -/
theorem c13_ret_depth_zero (cfg : Config) (bc : Module) (s : State) (inst : Inst)
    (rest : List Inst) (hdbg : cfg.CL_DEBUG = true) (hi : s.inst = inst :: rest)
    (hop : inst.opcode = .OP_RET) (hdepth : s.stack_depth = 0) :
    step cfg bc s = .ret .CL_EARG s := by
  rw [(step_eq_of_opcode cfg bc s inst rest hi).2.2.2.2.1 hop]
  split
  · rfl
  · unfold execRet
    simp [hdbg, hdepth, bcfail]

/-- C13, amended, instance: `RET` as the entry instruction in a debug build. -/
theorem c13_ret_depth_zero_witness :
    step ⟨true⟩ ⟨[]⟩ (initState [0] (hostFunc 1) [⟨.OP_RET, .i32, 32, 0, .unaryop 0⟩]) =
      .ret .CL_EARG (initState [0] (hostFunc 1) [⟨.OP_RET, .i32, 32, 0, .unaryop 0⟩]) :=
  c13_ret_depth_zero ⟨true⟩ ⟨[]⟩ _ ⟨.OP_RET, .i32, 32, 0, .unaryop 0⟩ [] rfl rfl rfl rfl

/-! ### C14: the spill stack on exit -/

/-- C14, the code at the failing input: a division by zero inside a called function
makes `cli_vm_execute` return `CL_EBYTECODE` straight from `CHECK_OP`, without
`cli_stack_destroy`: the chunk holding the frame of the call is still linked in the final
state, in both builds. The same happens for a rejected shift. -/
theorem c14_stack_left_on_error :
    (∀ dbg, (runBinop ⟨dbg⟩ .OP_UDIV .i32 32 1 0).status = some .CL_EBYTECODE ∧
        (runBinop ⟨dbg⟩ .OP_UDIV .i32 32 1 0).finalStack =
          some ⟨[⟨80, [(78, 0)]⟩], 10⟩) ∧
      (∀ dbg, (runBinop ⟨dbg⟩ .OP_SHL .i8 8 1 9).status = some .CL_EBYTECODE ∧
        (runBinop ⟨dbg⟩ .OP_SHL .i8 8 1 9).finalStack = some ⟨[⟨80, [(78, 0)]⟩], 10⟩) := by
  decide

/-- When the loop is left through its condition (a return to the host, an unimplemented
opcode, a failed jump), the spill stack is destroyed (the part of C14 the code
satisfies). -/
theorem loopExit_stack_empty (stop st : Status) (s s1 : State)
    (h : loopExit stop s = .ret st s1) : s1.stack.chunk = [] := by
  unfold loopExit at h
  simp only [Outcome.ret.injEq] at h
  rw [← h.2]
  rfl

/-! ### C11: entering a call -/

theorem allocSize_frame (n : Nat) (hn : n ≤ 2040) :
    allocSize (sizeof_stack_entry + sizeof_value * n) = 8 * n + 56 := by
  unfold allocSize sizeof_stack_entry sizeof_value
  omega

theorem cli_stack_alloc_frame (stack : Stack) (n : Nat) (hinv : StackInv stack)
    (hn : n ≤ 2040) :
    ∃ p stack1, cli_stack_alloc stack (sizeof_stack_entry + sizeof_value * n) = .ok p stack1 ∧
      stack1.last_size = n + 7 := by
  rw [cli_stack_alloc_unfold, allocSize_frame n hn]
  have e1 : ¬ (16384 ≤ 8 * n + 56) := by omega
  have e2 : (8 * n + 56 + 2 ^ 16 - 2) % 2 ^ 16 = 8 * n + 54 := by omega
  have e3 : 8 * n + 54 + 2 ≤ 16384 := by omega
  have e4 : (8 * n + 56) / 8 % 2 ^ 16 = n + 7 := by omega
  cases hc : stack.chunk with
  | nil =>
    simp only [e1, e2, e3, e4, if_true, if_false]
    exact ⟨_, _, rfl, rfl⟩
  | cons c prev =>
    have hcinv : ChunkInv c := hinv.2 c (by rw [hc]; exact List.mem_cons_self _ _)
    obtain ⟨_, hu1, _, _⟩ := hcinv
    simp only [STACK_CHUNKSIZE] at hu1
    simp only [e1, e2, e3, e4, if_true, if_false]
    by_cases hfit : (c.used + (8 * n + 56)) % 2 ^ 32 ≤ 16384
    · have e5 : c.used + (8 * n + 54) + 2 ≤ 16384 := by omega
      simp only [hfit, e5, if_true]
      exact ⟨_, _, rfl, rfl⟩
    · simp only [hfit, if_false]
      exact ⟨_, _, rfl, rfl⟩

theorem allocate_stack_ok (stack : Stack) (func func_old : Func) (ret : Nat)
    (bb : Option BB) (bb_inst : Nat) (hinv : StackInv stack)
    (hn : func.numValues + func.numConstants ≤ 2040) :
    ∃ p stack1, allocate_stack stack func func_old ret bb bb_inst =
      some (some (⟨func_old, ret, bb, bb_inst,
        List.replicate func.numValues 0 ++ func.constants, p⟩, stack1)) := by
  obtain ⟨p, stack1, ha, hl⟩ := cli_stack_alloc_frame stack _ hinv hn
  refine ⟨p, stack1, ?_⟩
  unfold allocate_stack
  simp only [ha, hl]
  rw [if_pos (by simp only [sizeof_stack_entry, sizeof_value, sizeof_align_t]; omega)]

theorem copyArgs_spec (ops old vals : List Nat) (n : Nat) (hn : n ≤ ops.length)
    (hv : n ≤ vals.length) (hops : ∀ p ∈ ops, p < old.length) :
    ∃ vals1, copyArgs ops old vals n = some vals1 ∧ vals1.length = vals.length ∧
      (∀ i p, i < n → ops[i]? = some p → vals1[i]? = old[p]?) ∧
      (∀ i, n ≤ i → vals1[i]? = vals[i]?) := by
  induction n with
  | zero => exact ⟨vals, rfl, rfl, fun i p hi => absurd hi (by omega), fun _ _ => rfl⟩
  | succ k ih =>
    obtain ⟨v1, h1, hlen, hlow, hhigh⟩ := ih (by omega) (by omega)
    have hk : k < ops.length := by omega
    have hp : ops[k] < old.length := hops _ (List.getElem_mem _)
    refine ⟨v1.set k old[ops[k]], ?_, by simp [hlen], ?_, ?_⟩
    · simp only [copyArgs, h1, List.getElem?_eq_getElem hk, List.getElem?_eq_getElem hp]
      rw [if_pos (by omega)]
    · intro i p hi hip
      by_cases hik : i = k
      · subst hik
        rw [List.getElem?_eq_getElem hk] at hip
        simp only [Option.some.injEq] at hip
        subst hip
        rw [List.getElem?_eq_getElem hp]
        simp [List.getElem?_set, (by omega : i < v1.length)]
      · rw [getElem?_set_of_ne _ _ _ _ hik]
        exact hlow i p (by omega) hip
    · intro i hi
      rw [getElem?_set_of_ne _ _ _ _ (by omega)]
      exact hhigh i (by omega)

theorem funcid_in_range (bc : Module) (funcid : Nat) (f : Func)
    (hf : bc.funcs[funcid]? = some f) : decide (bc.num_func ≤ funcid) = false := by
  simp only [Module.num_func, decide_eq_false_iff_not, not_le]
  by_contra hc
  rw [List.getElem?_eq_none (by omega)] at hf
  exact absurd hf (by simp)

/-- C11 as stated fails: a callee of 2041 locals has a valid function id, matching
arity and `numArgs ≤ numValues`, but its frame of `48 + 8 * 2041` bytes does not fit a
chunk: `cli_stack_alloc` refuses it, `allocate_stack` returns `NULL`, and `OP_CALL_DIRECT`
reads `stack_entry->values` through the null pointer, so there is no new region, in both
builds. -/
theorem c11_frame_too_large_counterexample :
    (⟨[localsFunc 2041]⟩ : Module).funcs[0]? = some (localsFunc 2041) ∧
      (localsFunc 2041).numArgs = ([] : List Nat).length ∧
      (localsFunc 2041).numArgs ≤ (localsFunc 2041).numValues ∧
      allocate_stack ⟨[], 0⟩ (localsFunc 2041) (hostFunc 1) 0 none 0 = some none ∧
      ∀ dbg, step ⟨dbg⟩ ⟨[localsFunc 2041]⟩ (initState [0] (hostFunc 1) (entryCall 0 0 [])) =
        .undefined := by
  decide

/-- C11, amended (CALL_DIRECT, entry of the callee). A direct call of `callee` with the
argument slots `ops`, made from a state whose spill stack is reachable, whose argument
slots lie in the current region, and whose callee has `numArgs = |ops| ≤ numValues`, a
first block and a frame that fits a chunk of the spill stack (at most 2040 value cells),
goes on with the callee current, its first block current at index 0, and a fresh region
of `numValues + numConstants` cells: cell `i` is the value of the caller's cell `ops[i]`
for `i < numArgs`, the cells from `numArgs` below `numValues` are zero, and the cell
`numValues + j` is the callee's constant `j`. What the call does when the frame is
refused by `cli_stack_alloc` is left open here. -/
theorem c11_call_direct_entry (cfg : Config) (bc : Module) (s : State) (inst : Inst)
    (rest : List Inst) (funcid : Nat) (ops : List Nat) (callee : Func) (bb0 : BB)
    (bbs : List BB)
    (hi : s.inst = inst :: rest) (hop : inst.opcode = .OP_CALL_DIRECT)
    (hu : inst.u = .ops funcid ops)
    (hdest : inst.dest < s.func.numValues + s.func.numConstants)
    (hf : bc.funcs[funcid]? = some callee)
    (harity : callee.numArgs = ops.length) (hargs : callee.numArgs ≤ callee.numValues)
    (hops : ∀ p ∈ ops, p < s.values.length)
    (hbb : callee.BB = bb0 :: bbs)
    (hfit : callee.numValues + callee.numConstants ≤ 2040)
    (hstack : Reachable s.stack) :
    ∃ s1, step cfg bc s = .next s1 ∧
      s1.func = callee ∧ s1.bb = some bb0 ∧ s1.bb_inst = 0 ∧ s1.inst = bb0.insts ∧
      s1.stack_depth = s.stack_depth + 1 ∧
      s1.values.length = callee.numValues + callee.numConstants ∧
      (∀ i p : Nat, ops[i]? = some p → s1.values[i]? = s.values[p]?) ∧
      (∀ i : Nat, callee.numArgs ≤ i → i < callee.numValues → s1.values[i]? = some 0) ∧
      (∀ j : Nat, j < callee.numConstants →
        s1.values[callee.numValues + j]? = callee.constants[j]?) := by
  have h1 : decide (s.func.numValues + s.func.numConstants ≤ inst.dest) = false := by
    simp; omega
  have h2 := funcid_in_range bc funcid callee hf
  have h3 : decide (callee.numBB ≤ 0) = false := by simp [Func.numBB, hbb]
  have h4 : decide (callee.numArgs ≠ ops.length) = false := by simp [harity]
  obtain ⟨p, stack1, hal⟩ := allocate_stack_ok s.stack callee s.func inst.dest s.bb s.bb_inst
    (stackInv_of_reachable _ hstack) hfit
  obtain ⟨vals, hcp, hlen, hlow, hhigh⟩ := copyArgs_spec ops s.values
    (List.replicate callee.numValues 0 ++ callee.constants) callee.numArgs (by omega)
    (by simp only [List.length_append, List.length_replicate]; omega) hops
  refine ⟨{ s with func := callee, stack := stack1,
                   stack_entry := ⟨s.func, inst.dest, s.bb, s.bb_inst, vals, p⟩ :: s.stack_entry,
                   bb := some bb0, inst := bb0.insts, bb_inst := 0,
                   stack_depth := s.stack_depth + 1 }, ?_, rfl, rfl, rfl, rfl, rfl, ?_, ?_, ?_, ?_⟩
  · rw [(step_eq_of_opcode cfg bc s inst rest hi).2.2.2.2.2.1 hop]
    simp only [execCallDirect, h1, h2, h3, h4, Bool.and_false, Bool.false_eq_true, if_false, hu,
      hf, hal, hcp, jump, hbb, List.getElem?_cons_zero, loopContinue, if_true]
  · simp only [State.values, hlen, List.length_append, List.length_replicate,
      Func.numConstants]
  · intro i q hiq
    have hil : i < ops.length := lt_length_of_getElem? _ _ _ hiq
    exact hlow i q (by omega) hiq
  · intro i h5 h6
    simp only [State.values]
    rw [hhigh i h5, List.getElem?_append_left (by simp only [List.length_replicate]; exact h6)]
    simp [List.getElem?_replicate, h6]
  · intro j hj
    simp only [State.values]
    rw [hhigh _ (by omega), List.getElem?_append_right (by simp only [List.length_replicate]; omega)]
    simp only [List.length_replicate, Nat.add_sub_cancel_left]

/-- C11, amended, instance: the recursive call of `fact(3)` enters `fact` with the
region `[2, 0, 0, 0, 0, 0, 1]`. -/
theorem c11_call_direct_entry_witness :
    Reachable (factCallState 3).stack ∧
      ∃ s1, step ⟨true⟩ factProgram (factCallState 3) = .next s1 ∧
        s1.func = factFunc ∧ s1.bb = some (factFunc.BB.getD 0 ⟨[]⟩) ∧ s1.bb_inst = 0 ∧
        s1.inst = (factFunc.BB.getD 0 ⟨[]⟩).insts ∧
        s1.stack_depth = (factCallState 3).stack_depth + 1 ∧
        s1.values.length = factFunc.numValues + factFunc.numConstants ∧
        (∀ i p : Nat, [2][i]? = some p → s1.values[i]? = (factCallState 3).values[p]?) ∧
        (∀ i : Nat, factFunc.numArgs ≤ i → i < factFunc.numValues → s1.values[i]? = some 0) ∧
        (∀ j : Nat, j < factFunc.numConstants →
          s1.values[factFunc.numValues + j]? = factFunc.constants[j]?) :=
  ⟨Reachable.alloc ⟨[], 0⟩ _ 104 ⟨0, 0⟩ Reachable.empty (by decide),
    c11_call_direct_entry ⟨true⟩ factProgram (factCallState 3)
      ⟨.OP_CALL_DIRECT, .i32, 32, 3, .ops 0 [2]⟩ _ 0 [2] factFunc _ _ rfl rfl rfl (by decide)
      rfl (by decide) (by decide) (by decide) rfl (by decide)
      (Reachable.alloc ⟨[], 0⟩ _ 104 ⟨0, 0⟩ Reachable.empty (by decide))⟩

/-! ### C12: return to the caller -/

end BytecodeVM
